import Mathlib

/-!
Verification development for the starsoldier-bytecode toolchain
(assembler, disassembler, interpreter of a tiny enemy-scripting bytecode).

The Rust sources are embedded shallowly:

* machine bytes are `Nat` values (callers establish `< 256` where it matters);
* fallible functions return `Except`/`Option`;
* Rust panics (failed `assert!`, arithmetic overflow under the default
  debug profile, out-of-range slicing, `todo!()`) are modelled as explicit
  panic outcomes;
* the host `Game` trait is modelled as an explicit record threaded through
  the interpreter, and the direction tables (which are stubbed with
  `todo!()` in src/src/direction.rs) are parameters.
-/

namespace StarSoldier

/-! ## Op: the instruction algebra (src/src/op.rs) -/

/-- Decode failure kinds, from `enum DecodeError` in src/src/op.rs. -/
inductive DecodeError where
  | Incomplete (opcode : Nat)
  | Undefined (opcode : Nat)
deriving DecidableEq, Repr

/-- Instruction algebra, from `enum Op` in src/src/op.rs.

The variants `SetHealth` and `UnsetJumpOnDamage` do not occur in the
`enum Op` of src/src/op.rs, but they are constructed and consumed by
src/src/asm.rs, src/src/disasm.rs and src/src/interpret.rs (the repository
ships two slightly divergent variants of the opcode set; the spec, section 9,
declares their union canonical).  They are included here so that those
consumers can be embedded. -/
inductive Op where
  | Move (dir : Nat)
  | Jump (addr : Nat)
  | SetSleepTimer (idx : Nat)
  | LoopBegin (idx : Nat)
  | LoopEnd
  | ShootDirection (dir : Nat)
  | SetSprite (idx : Nat)
  | SetHomingTimer (idx : Nat)
  | SetInversion (inv_x inv_y : Bool)
  | SetPosition (x y : Nat)
  | SetJumpOnDamage (addr : Nat)
  | SetHealth (health : Nat)
  | UnsetJumpOnDamage
  | IncrementSprite
  | DecrementSprite
  | SetPart (part : Nat)
  | RandomizeX (mask : Nat)
  | RandomizeY (mask : Nat)
  | BccX (addr : Nat)
  | BcsX (addr : Nat)
  | BccY (addr : Nat)
  | BcsY (addr : Nat)
  | ShootAim (unused : Nat)
  | ChangeMusic (music : Nat)
deriving DecidableEq, Repr

deriving instance DecidableEq for Except

/-- Length in bytes of an instruction, from `Op::len` in src/src/op.rs.
`SetHealth` shares opcode 0xA1 with `SetJumpOnDamage` (spec, section 4.1),
hence length 2.  `UnsetJumpOnDamage` is absent from src/src/op.rs and the
spec assigns it no opcode; it is given length 1 here, and no theorem below
depends on it (`Op.decode` never produces it). -/
def Op.len : Op → Nat
  | .Move _ => 1
  | .Jump _ => 2
  | .SetSleepTimer _ => 1
  | .LoopBegin _ => 1
  | .LoopEnd => 1
  | .ShootDirection _ => 1
  | .SetSprite _ => 1
  | .SetHomingTimer _ => 1
  | .SetInversion _ _ => 1
  | .SetPosition _ _ => 3
  | .SetJumpOnDamage _ => 2
  | .SetHealth _ => 2
  | .UnsetJumpOnDamage => 1
  | .IncrementSprite => 1
  | .DecrementSprite => 1
  | .SetPart _ => 2
  | .RandomizeX _ => 2
  | .RandomizeY _ => 2
  | .BccX _ => 2
  | .BcsX _ => 2
  | .BccY _ => 2
  | .BcsY _ => 2
  | .ShootAim _ => 1
  | .ChangeMusic _ => 1

/-- Every instruction occupies at least one byte. -/
def Op.lenPos (op : Op) : 1 ≤ op.len := by cases op <;> simp [Op.len]

/-- Arithmetic fact backing the termination of the disassembler scan. -/
def scanDec {L a k : Nat} (h : a < L) (hk : 1 ≤ k) : L - (a + k) < L - a := by
  omega

/-- Branch target of the branch-bearing variants, from `Op::addr_destination`
in src/src/op.rs. -/
def Op.addr_destination : Op → Option Nat
  | .Jump addr => some addr
  | .SetJumpOnDamage addr => some addr
  | .BccX addr => some addr
  | .BcsX addr => some addr
  | .BccY addr => some addr
  | .BcsY addr => some addr
  | _ => none

/-- Decoder, from `Op::decode` in src/src/op.rs.  The result is `none` when
the input is empty (the source asserts `!buf.is_empty()`, which panics).
Each `ensure_buf_len!` in the source becomes a pattern match on the tail. -/
def Op.decode : List Nat → Option (Except DecodeError Op)
  | [] => none
  | opcode :: rest => some <|
    if opcode ≤ 0x3F then .ok (.Move opcode)
    else if opcode = 0x40 then
      match rest with
      | [] => .error (.Incomplete opcode)
      | a :: _ => .ok (.Jump a)
    else if 0x41 ≤ opcode ∧ opcode ≤ 0x4F then .ok (.SetSleepTimer (opcode &&& 0xF))
    else if opcode = 0x50 ∨ (0x52 ≤ opcode ∧ opcode ≤ 0x5F) then
      .ok (.LoopBegin (opcode &&& 0xF))
    else if opcode = 0x51 then .ok .LoopEnd
    else if 0x60 ≤ opcode ∧ opcode ≤ 0x6F then .ok (.ShootDirection (opcode &&& 0xF))
    else if 0x70 ≤ opcode ∧ opcode ≤ 0x7F then .ok (.SetSprite (opcode &&& 0xF))
    else if 0x80 ≤ opcode ∧ opcode ≤ 0x8F then .ok (.SetHomingTimer (opcode &&& 0xF))
    else if 0x90 ≤ opcode ∧ opcode ≤ 0x93 then
      .ok (.SetInversion ((opcode &&& 1) != 0) ((opcode &&& 2) != 0))
    else if opcode = 0xA0 then
      match rest with
      | x :: y :: _ => .ok (.SetPosition x y)
      | _ => .error (.Incomplete opcode)
    else if opcode = 0xA1 then
      match rest with
      | [] => .error (.Incomplete opcode)
      | a :: _ => .ok (.SetJumpOnDamage a)
    else if opcode = 0xA2 then .ok .IncrementSprite
    else if opcode = 0xA3 then .ok .DecrementSprite
    else if opcode = 0xA4 then
      match rest with
      | [] => .error (.Incomplete opcode)
      | p :: _ => .ok (.SetPart p)
    else if opcode = 0xA5 then
      match rest with
      | [] => .error (.Incomplete opcode)
      | m :: _ => .ok (.RandomizeX m)
    else if opcode = 0xA6 then
      match rest with
      | [] => .error (.Incomplete opcode)
      | m :: _ => .ok (.RandomizeY m)
    else if opcode = 0xB0 then
      match rest with
      | [] => .error (.Incomplete opcode)
      | a :: _ => .ok (.BccX a)
    else if opcode = 0xB1 then
      match rest with
      | [] => .error (.Incomplete opcode)
      | a :: _ => .ok (.BcsX a)
    else if opcode = 0xB2 then
      match rest with
      | [] => .error (.Incomplete opcode)
      | a :: _ => .ok (.BccY a)
    else if opcode = 0xB3 then
      match rest with
      | [] => .error (.Incomplete opcode)
      | a :: _ => .ok (.BcsY a)
    else if 0xC0 ≤ opcode ∧ opcode ≤ 0xCF then .ok (.ShootAim (opcode &&& 0xF))
    else if 0xF0 ≤ opcode ∧ opcode ≤ 0xFF then .ok (.ChangeMusic (opcode &&& 0xF))
    else .error (.Undefined opcode)

/-- Encoder, from `Op::encode` in src/src/op.rs: the list of bytes the source
writes into the output slice.  `SetHealth` has no arm in src/src/op.rs; the
spec (section 4.3) says it encodes identically to `SetJumpOnDamage`, i.e.
opcode 0xA1.  `UnsetJumpOnDamage` has no arm and no specified opcode; the
byte 0xA7 (undefined in the opcode map) is a placeholder that no theorem
below depends on. -/
def Op.encode : Op → List Nat
  | .Move dir => [dir]
  | .Jump addr => [0x40, addr]
  | .SetSleepTimer idx => [0x40 ||| idx]
  | .LoopBegin idx => [0x50 ||| idx]
  | .LoopEnd => [0x51]
  | .ShootDirection dir => [0x60 ||| dir]
  | .SetSprite idx => [0x70 ||| idx]
  | .SetHomingTimer idx => [0x80 ||| idx]
  | .SetInversion inv_x inv_y => [0x90 ||| (if inv_x then 1 else 0) ||| ((if inv_y then 1 else 0) <<< 1)]
  | .SetPosition x y => [0xA0, x, y]
  | .SetJumpOnDamage addr => [0xA1, addr]
  | .SetHealth health => [0xA1, health]
  | .UnsetJumpOnDamage => [0xA7]
  | .IncrementSprite => [0xA2]
  | .DecrementSprite => [0xA3]
  | .SetPart part => [0xA4, part]
  | .RandomizeX mask => [0xA5, mask]
  | .RandomizeY mask => [0xA6, mask]
  | .BccX addr => [0xB0, addr]
  | .BcsX addr => [0xB1, addr]
  | .BccY addr => [0xB2, addr]
  | .BcsY addr => [0xB3, addr]
  | .ShootAim unused => [0xC0 ||| unused]
  | .ChangeMusic music => [0xF0 ||| music]

/-- Operand ranges enforced by the public `Op::new_*` constructors in
src/src/op.rs (their `assert!` calls), together with the `u8` typing of the
byte-sized operands.  `SetHealth` and `UnsetJumpOnDamage` have no public
constructor in src/src/op.rs, so they are not constructable. -/
def Op.constructable : Op → Prop
  | .Move dir => dir ≤ 0x3F
  | .Jump addr => addr ≤ 0xFF
  | .SetSleepTimer idx => idx ≤ 0xF
  | .LoopBegin idx => idx ≤ 0xF ∧ idx ≠ 1
  | .LoopEnd => True
  | .ShootDirection dir => dir ≤ 0xF
  | .SetSprite idx => idx ≤ 0xF
  | .SetHomingTimer idx => idx ≤ 0xF
  | .SetInversion _ _ => True
  | .SetPosition x y => x ≤ 0xFF ∧ y ≤ 0xFF
  | .SetJumpOnDamage addr => addr ≤ 0xFF
  | .SetHealth _ => False
  | .UnsetJumpOnDamage => False
  | .IncrementSprite => True
  | .DecrementSprite => True
  | .SetPart part => part ≤ 0xFF
  | .RandomizeX mask => mask ≤ 0xFF
  | .RandomizeY mask => mask ≤ 0xFF
  | .BccX addr => addr ≤ 0xFF
  | .BcsX addr => addr ≤ 0xFF
  | .BccY addr => addr ≤ 0xFF
  | .BcsY addr => addr ≤ 0xFF
  | .ShootAim unused => unused ≤ 0xF
  | .ChangeMusic music => music ≤ 0xF

instance (op : Op) : Decidable op.constructable := by
  cases op <;> (unfold Op.constructable) <;> infer_instance

/-! ## Interpreter (src/src/interpret.rs) -/

/-- Host interface, modelling the `Game` trait of src/src/interpret.rs as a
record: the read-only observations (`is_second_round`, `stage`, `hero_x`,
`hero_y`) are fields, `rand` consumes a pre-supplied stream of bytes, and the
effectful calls (`try_shoot_aim`, audio hooks) append to logs. -/
structure Game where
  is_second_round : Bool
  stage : Nat
  hero_x : Nat
  hero_y : Nat
  rands : List Nat
  shots : List (Nat × Nat × Nat × Bool)
  sounds : List Nat
deriving DecidableEq, Repr

/-- Draw the next byte from the host's random stream (`Game::rand`). -/
def Game.rand (g : Game) : Nat × Game :=
  (g.rands.headD 0 % 256, { g with rands := g.rands.tail })

/-- Record a `try_shoot_aim` host call. -/
def Game.try_shoot_aim (g : Game) (x y speed_mask : Nat) (force_homing : Bool) : Game :=
  { g with shots := g.shots ++ [(x, y, speed_mask, force_homing)] }

/-- Modelled from the spec: src/src/direction.rs stubs `displacement_object`
with `todo!()` and contains no `aim`, although src/src/interpret.rs calls
both — the direction-table data of this repository is not under src/.  The
spec (section 4.2) describes `displacement_object` as a fixed table with
entries in [-4, 4] x [-4, 4] and `aim src dst` as the direction whose
displacement best approximates the vector from `src` to `dst`.  The
interpreter embedding is therefore parametrized by these two functions. -/
structure DirTables where
  displacement_object : Nat → Int × Int
  aim : Nat × Nat → Nat × Nat → Nat

/-- Lifecycle states, from `enum EnemyState` in src/src/interpret.rs. -/
inductive EnemyState where
  | Alive
  | Dying
  | Leaving
deriving DecidableEq, Repr

/-- Initialization record, from `struct InterpreterInit` in src/src/interpret.rs. -/
structure InterpreterInit where
  program : List Nat
  pc : Nat
  boss : Bool
  difficulty : Nat
  shot_with_rank : Bool
  accel_shot_with_rank : Bool
  homing_shot_with_rank : Bool
  extra_act_with_rank : Bool
  accel_with_rank : Bool
  rank : Nat
  x : Nat
  y : Nat
deriving DecidableEq, Repr

/-- Per-enemy interpreter state, from `struct Interpreter` in src/src/interpret.rs. -/
structure Interp where
  program : List Nat
  pc : Nat
  boss : Bool
  difficulty : Nat
  shot_with_rank : Bool
  accel_shot_with_rank : Bool
  homing_shot_with_rank : Bool
  extra_act_with_rank : Bool
  accel_with_rank : Bool
  rank : Nat
  state : EnemyState
  x : Nat
  y : Nat
  inv_x : Bool
  inv_y : Bool
  health : Nat
  sprite_idx : Nat
  part : Nat
  sleep_timer : Nat
  homing_timer : Nat
  loop_start_addr : Nat
  loop_counter : Nat
  jump_on_damage : Nat
deriving DecidableEq, Repr

/-- Constructor, from `InterpreterInit::init` in src/src/interpret.rs.
The result is `none` when `assert!((0..=7).contains(&self.rank))` panics. -/
def InterpreterInit.init (c : InterpreterInit) : Option Interp :=
  if c.rank ≤ 7 then
    some
      { program := c.program
        pc := c.pc
        boss := c.boss
        difficulty := c.difficulty
        shot_with_rank := c.shot_with_rank
        accel_shot_with_rank := c.accel_shot_with_rank
        homing_shot_with_rank := c.homing_shot_with_rank
        extra_act_with_rank := c.extra_act_with_rank
        accel_with_rank := c.accel_with_rank
        rank := c.rank
        state := .Alive
        x := c.x
        y := c.y
        inv_x := false
        inv_y := false
        health := 0
        sprite_idx := 0
        part := 0
        sleep_timer := 0
        homing_timer := 0
        loop_start_addr := c.pc
        loop_counter := 0
        jump_on_damage := 0 }
  else none

/-- Wrapping u8 addition of a signed displacement: models
`x.wrapping_add(dx as u8)` where `dx : i8` (two's-complement cast followed
by wrapping addition equals addition modulo 256 over the integers). -/
def wrap_add_i8 (x : Nat) (d : Int) : Nat := (((x : Int) + d) % 256).toNat

/-- Result of `Interpreter::fetch`. -/
inductive FetchResult where
  | panic
  | fail (addr : Nat) (e : DecodeError)
  | ok (op : Op) (pc : Nat)
deriving DecidableEq, Repr

/-- Fetch-time rewrite of the overloaded opcodes for bosses, from the
`if self.boss` match inside `Interpreter::fetch`. -/
def bossRewrite (boss : Bool) (op : Op) : Op :=
  if boss then
    match op with
    | .SetJumpOnDamage addr => .SetHealth addr
    | .UnsetJumpOnDamage => .SetHealth 0
    | _ => op
  else op

/-- Instruction fetch, from `Interpreter::fetch` in src/src/interpret.rs:
decode at `pc`, rewrite the overloaded ops to `SetHealth` when `boss`, and
advance `pc` by the op's length.  `panic` covers both the out-of-range slice
`&self.program[self.pc..]` (when `pc > len`) and the decoder's non-empty
assertion (when `pc = len`). -/
def Interp.fetch (s : Interp) : FetchResult :=
  if s.program.length < s.pc then .panic
  else
    match Op.decode (s.program.drop s.pc) with
    | none => .panic
    | some (.error e) => .fail s.pc e
    | some (.ok op0) =>
      let op := bossRewrite s.boss op0
      .ok op (s.pc + op.len)

/-- Off-screen clipping and re-act check, from `Interpreter::clip` in
src/src/interpret.rs.  Returns the updated state, the updated
`do_try_extra_act` flag and whether to re-act. -/
def Interp.clip (s : Interp) (g : Game) (do_try_extra_act : Bool) :
    Interp × Bool × Bool :=
  if 239 ≤ s.y then ({ s with state := .Leaving }, do_try_extra_act, false)
  else if do_try_extra_act = true ∧ s.difficulty ≤ g.stage ∧ 4 ≤ s.rank then
    (s, false, true)
  else (s, do_try_extra_act, false)

/-- Gating of the aimed shot, from `Interpreter::cond_shoot_aim`. -/
def Interp.cond_shoot_aim (s : Interp) : Bool :=
  ! (s.shot_with_rank && decide (s.rank < 4))

/-- Aimed-shot parameters, from `Interpreter::shoot_aim_param`. -/
def Interp.shoot_aim_param (s : Interp) (g : Game) : Nat × Bool :=
  if s.homing_shot_with_rank = true ∧ g.is_second_round = true ∧ s.rank = 7 then
    (0, true)
  else if s.accel_shot_with_rank then ((s.rank <<< 3) &&& 0x30, false)
  else (0, false)

/-- One-step speed-up condition, from `Interpreter::cond_accel1`. -/
def Interp.cond_accel1 (s : Interp) (g : Game) : Bool :=
  s.accel_with_rank && decide (s.difficulty ≤ g.stage) &&
    (decide (4 ≤ s.rank) && decide (s.rank ≤ 6))

/-- Two-step speed-up condition, from `Interpreter::cond_accel2`. -/
def Interp.cond_accel2 (s : Interp) (g : Game) : Bool :=
  s.accel_with_rank && decide (s.difficulty ≤ g.stage) && decide (s.rank = 7)

/-- State of one iteration of the inner loop of `Interpreter::step`: the
interpreter state, the host, and the two local flags of the source.
`homing_steps` is ghost instrumentation: it counts how many times the homing
aim-step has executed in this frame and influences nothing else. -/
structure Frame where
  s : Interp
  g : Game
  do_try_homing : Bool
  do_try_extra_act : Bool
  homing_steps : Nat
deriving DecidableEq, Repr

/-- How a call to `Interpreter::step` ends: normally, with a decode error,
or with a panic. -/
inductive StepOutcome where
  | ok
  | fail (addr : Nat) (e : DecodeError)
  | panic
deriving DecidableEq, Repr

/-- Shared tail of the `Move` arm and of the homing prepend in
`Interpreter::step`: run `clip` on the displaced state, then either continue
the inner loop (re-act granted) or end the frame normally. -/
def moveResult (f : Frame) (s1 : Interp) : Frame ⊕ (Frame × StepOutcome) :=
  let res := s1.clip f.g f.do_try_extra_act
  let f2 := { f with s := res.1, do_try_extra_act := res.2.1 }
  if res.2.2 then .inl f2 else .inr (f2, .ok)

/-- Dispatch of one fetched instruction: the `match op` of
`Interpreter::step` in src/src/interpret.rs.  `.inl` continues the inner
loop, `.inr` ends the frame.  Notes on the panic arms:

* `ShootDirection` is `todo!()` in the source;
* `SetJumpOnDamage`/`UnsetJumpOnDamage` assert `!self.boss` and `SetHealth`
  asserts `self.boss` (unreachable panics given the fetch rewrite);
* `IncrementSprite`/`DecrementSprite` use `+= 1` / `-= 1`, which under the
  default (debug) profile panic on u8 overflow at 255 / 0 — unlike every
  other u8 update in this file, which the source performs with explicit
  `wrapping_add`/`wrapping_sub` (recorded by claim C6);
* `ChangeMusic` has no arm in src/src/interpret.rs (its `Op` variant set
  diverges from src/src/op.rs, spec section 9); it is modelled from the
  spec, section 4.5: a host audio hook after which the frame continues. -/
def execOp (t : DirTables) (f : Frame) (op : Op) : Frame ⊕ (Frame × StepOutcome) :=
  match op with
  | .Move dir =>
      let dir :=
        if dir ≤ 0x1F then
          if f.s.cond_accel1 f.g then dir + 0x10
          else if f.s.cond_accel2 f.g then dir + 0x20
          else dir
        else dir
      let dxy := t.displacement_object dir
      let dx := if f.s.inv_x then -dxy.1 else dxy.1
      let dy := if f.s.inv_y then -dxy.2 else dxy.2
      moveResult f { f.s with x := wrap_add_i8 f.s.x dx, y := wrap_add_i8 f.s.y dy }
  | .Jump addr => .inl { f with s := { f.s with pc := addr } }
  | .SetSleepTimer idx => .inr ({ f with s := { f.s with sleep_timer := 4 * idx } }, .ok)
  | .LoopBegin idx =>
      .inl { f with s := { f.s with loop_start_addr := f.s.pc, loop_counter := idx } }
  | .LoopEnd =>
      let c := (f.s.loop_counter + 255) % 256
      let s := { f.s with loop_counter := c }
      let s := if 0 < c then { s with pc := s.loop_start_addr } else s
      .inl { f with s := s }
  | .ShootDirection _ => .inr (f, .panic)
  | .SetSprite idx => .inl { f with s := { f.s with sprite_idx := idx } }
  | .SetHomingTimer idx =>
      .inl { f with s := { f.s with homing_timer := if idx = 0 then 252 else 4 * idx },
                    do_try_homing := true }
  | .SetInversion ix iy => .inl { f with s := { f.s with inv_x := ix, inv_y := iy } }
  | .SetPosition x y => .inl { f with s := { f.s with x := x, y := y } }
  | .SetJumpOnDamage addr =>
      if f.s.boss then .inr (f, .panic)
      else .inr ({ f with s := { f.s with jump_on_damage := addr } }, .ok)
  | .UnsetJumpOnDamage =>
      if f.s.boss then .inr (f, .panic)
      else .inr ({ f with s := { f.s with jump_on_damage := 0 } }, .ok)
  | .SetHealth health =>
      if f.s.boss then .inr ({ f with s := { f.s with health := health } }, .ok)
      else .inr (f, .panic)
  | .IncrementSprite =>
      if f.s.sprite_idx + 1 ≤ 255 then
        .inl { f with s := { f.s with sprite_idx := f.s.sprite_idx + 1 } }
      else .inr (f, .panic)
  | .DecrementSprite =>
      if 1 ≤ f.s.sprite_idx then
        .inl { f with s := { f.s with sprite_idx := f.s.sprite_idx - 1 } }
      else .inr (f, .panic)
  | .SetPart part => .inl { f with s := { f.s with part := part } }
  | .RandomizeX mask =>
      let rg := f.g.rand
      .inl { f with g := rg.2,
                    s := { f.s with x := (f.s.x &&& (0xFF ^^^ mask)) ||| (rg.1 &&& mask) } }
  | .RandomizeY mask =>
      let rg := f.g.rand
      .inl { f with g := rg.2,
                    s := { f.s with y := (f.s.y &&& (0xFF ^^^ mask)) ||| (rg.1 &&& mask) } }
  | .BccX addr =>
      .inl { f with s := if f.s.x < f.g.hero_x then { f.s with pc := addr } else f.s }
  | .BcsX addr =>
      .inl { f with s := if f.g.hero_x ≤ f.s.x then { f.s with pc := addr } else f.s }
  | .BccY addr =>
      .inl { f with s := if f.s.y < f.g.hero_y then { f.s with pc := addr } else f.s }
  | .BcsY addr =>
      .inl { f with s := if f.g.hero_y ≤ f.s.y then { f.s with pc := addr } else f.s }
  | .ShootAim _ =>
      if f.s.cond_shoot_aim = false then .inl f
      else
        let pr := f.s.shoot_aim_param f.g
        .inl { f with g := f.g.try_shoot_aim f.s.x f.s.y pr.1 pr.2 }
  | .ChangeMusic music => .inl { f with g := { f.g with sounds := f.g.sounds ++ [music] } }

/-- One iteration of the inner `loop` of `Interpreter::step`: the homing
prepend (guarded by `do_try_homing && homing_timer > 0`; note the source
clears `do_try_homing` only on the path that falls through to the fetch, not
on the homing branch itself), then fetch and dispatch. -/
def loopIter (t : DirTables) (f : Frame) : Frame ⊕ (Frame × StepOutcome) :=
  if f.do_try_homing = true ∧ 0 < f.s.homing_timer then
    let s := { f.s with homing_timer := f.s.homing_timer - 1 }
    let dir := t.aim (s.x, s.y) (f.g.hero_x, f.g.hero_y)
    let dxy := t.displacement_object dir
    let s := { s with x := wrap_add_i8 s.x dxy.1, y := wrap_add_i8 s.y dxy.2 }
    moveResult { f with homing_steps := f.homing_steps + 1 } s
  else
    let f := { f with do_try_homing := false }
    match f.s.fetch with
    | .panic => .inr (f, .panic)
    | .fail addr e => .inr (f, .fail addr e)
    | .ok op pc => execOp t { f with s := { f.s with pc := pc } } op

/-- Fuelled iteration of the inner loop; `none` means the loop did not
finish within `fuel` iterations. -/
def stepLoop (t : DirTables) : Nat → Frame → Option (Frame × StepOutcome)
  | 0, _ => none
  | fuel + 1, f =>
    match loopIter t f with
    | .inl f' => stepLoop t fuel f'
    | .inr r => some r

/-- One frame, from `Interpreter::step` in src/src/interpret.rs: the
liveness assertion, the sleep countdown, then the inner loop with
`do_try_homing = true` and `do_try_extra_act = extra_act_with_rank`. -/
def Interp.step (t : DirTables) (fuel : Nat) (s : Interp) (g : Game) :
    Option (Frame × StepOutcome) :=
  if s.state ≠ EnemyState.Alive then some (⟨s, g, false, false, 0⟩, .panic)
  else if 0 < s.sleep_timer then
    some (⟨{ s with sleep_timer := s.sleep_timer - 1 }, g, false, false, 0⟩, .ok)
  else stepLoop t fuel ⟨s, g, true, s.extra_act_with_rank, 0⟩

/-! ## Disassembler (src/src/disasm.rs) -/

/-- Error kinds of the disassembler, from `enum DisasmError` in
src/src/disasm.rs.  The I/O variant is out of scope (the core writes to a
caller-provided sink); `scanPanic` marks the decode of an empty slice,
which the scan loop guard makes unreachable. -/
inductive DisasmError where
  | decodeFail (addr : Nat) (e : DecodeError)
  | invalidDestination (addr : Nat) (addr_dst : Nat)
  | scanPanic (addr : Nat)
deriving DecidableEq, Repr

/-- First phase of `disasm` in src/src/disasm.rs: the linear scan from
address 0 producing the statement list.  An op whose branch destination is
in range is kept (the source also records the destination in
`addr_to_label`, recovered below by `labelTargets`); an out-of-range
destination turns `SetJumpOnDamage` into `SetHealth` and is fatal
(`InvalidDestination`) for every other branch.  The source also records
each statement address in `addrs_opcode`, recovered below by
`boundaries`. -/
def disasmScan (buf : List Nat) (addr : Nat) :
    Except DisasmError (List (Nat × Op)) :=
  if h : addr < buf.length then
    match Op.decode (buf.drop addr) with
    | none => .error (.scanPanic addr)
    | some (.error e) => .error (.decodeFail addr e)
    | some (.ok op) =>
      match op.addr_destination with
      | some dst =>
        if dst < buf.length then
          (disasmScan buf (addr + op.len)).map (fun tl => (addr, op) :: tl)
        else
          match op with
          | .SetJumpOnDamage _ =>
            (disasmScan buf (addr + (Op.SetHealth dst).len)).map
              (fun tl => (addr, Op.SetHealth dst) :: tl)
          | _ => .error (.invalidDestination addr dst)
      | none => (disasmScan buf (addr + op.len)).map (fun tl => (addr, op) :: tl)
  else .ok []
termination_by buf.length - addr
decreasing_by
  all_goals exact scanDec h (Op.lenPos _)

/-- The instruction-boundary set `addrs_opcode` of the scan: the statement
addresses. -/
def boundaries (stmts : List (Nat × Op)) : List Nat := stmts.map (·.1)

/-- The key set of the scan's `addr_to_label` map: the in-range branch
destinations.  (Destinations kept in the statements are exactly those the
source inserted: an out-of-range `SetJumpOnDamage` was rewritten to
`SetHealth`, which has no destination, and any other out-of-range branch
was fatal.)  The mapped value for key `d` is always the string `L%02X d`,
printed by `labelChars` below. -/
def labelTargets (stmts : List (Nat × Op)) : List Nat :=
  stmts.filterMap (fun st => st.2.addr_destination)

/-- Decimal digits of a number (fuel-structured so that it reduces in the
kernel; `fuel = n + 1` always suffices since the argument is divided by
ten each step). -/
def decCharsAux : Nat → Nat → List Char
  | 0, _ => []
  | f + 1, n =>
    if n < 10 then [Char.ofNat (48 + n)]
    else decCharsAux f (n / 10) ++ [Char.ofNat (48 + n % 10)]

/-- Decimal digits of a number, as printed by Rust's `{}` for u8. -/
def decChars (n : Nat) : List Char := decCharsAux (n + 1) n

/-- Upper-case hexadecimal digit. -/
def hexDigit (n : Nat) : Char :=
  if n < 10 then Char.ofNat (48 + n) else Char.ofNat (55 + n)

/-- Two-digit upper-case hex literal with `0x` prefix: Rust's `{:#04X}`
applied to a u8. -/
def hexLit (n : Nat) : List Char :=
  ['0', 'x', hexDigit (n / 16), hexDigit (n % 16)]

/-- Synthesized label name for a destination byte: `format!("L{:02X}", d)`. -/
def labelChars (d : Nat) : List Char := ['L', hexDigit (d / 16), hexDigit (d % 16)]

/-- Eight-space indentation printed before each instruction. -/
def indentChars : List Char := List.replicate 8 ' '

/-- One printed instruction line, from the emission `match stmt.op` of
`disasm` in src/src/disasm.rs: directions and masks in `{:#04X}` form,
counters and timers in decimal, branch operands as label references
(`addr_to_label[d]`, which is always `labelChars d`), and the
`SetJumpOnDamage` whose operand is not an instruction boundary printed as
`set_health`. -/
def instrLine (bnds : List Nat) (op : Op) : List Char :=
  indentChars ++
  match op with
  | .Move dir => "move ".toList ++ hexLit dir
  | .Jump addr => "jump ".toList ++ labelChars addr
  | .SetSleepTimer idx => "set_sleep_timer ".toList ++ decChars idx
  | .LoopBegin idx => "loop_begin ".toList ++ decChars idx
  | .LoopEnd => "loop_end".toList
  | .ShootDirection dir => "shoot_direction ".toList ++ hexLit dir
  | .SetSprite idx => "set_sprite ".toList ++ decChars idx
  | .SetHomingTimer idx => "set_homing_timer ".toList ++ decChars idx
  | .SetInversion ix iy =>
      "set_inversion ".toList ++ decChars (if ix then 1 else 0) ++
        ", ".toList ++ decChars (if iy then 1 else 0)
  | .SetPosition x y =>
      "set_position ".toList ++ decChars x ++ ", ".toList ++ decChars y
  | .SetJumpOnDamage addr =>
      if addr ∈ bnds then "set_jump_on_damage ".toList ++ labelChars addr
      else "set_health ".toList ++ decChars addr
  | .UnsetJumpOnDamage => "unset_jump_on_damage".toList
  | .SetHealth health => "set_health ".toList ++ decChars health
  | .IncrementSprite => "increment_sprite".toList
  | .DecrementSprite => "decrement_sprite".toList
  | .SetPart part => "set_part ".toList ++ decChars part
  | .RandomizeX mask => "randomize_x ".toList ++ hexLit mask
  | .RandomizeY mask => "randomize_y ".toList ++ hexLit mask
  | .BccX addr => "bcc_x ".toList ++ labelChars addr
  | .BcsX addr => "bcs_x ".toList ++ labelChars addr
  | .BccY addr => "bcc_y ".toList ++ labelChars addr
  | .BcsY addr => "bcs_y ".toList ++ labelChars addr
  | .ShootAim unused => "shoot_aim ".toList ++ decChars unused
  | .ChangeMusic music => "change_music ".toList ++ decChars music

/-- The lines printed for one statement: its label definition line (when its
address carries a label) followed by its instruction line. -/
def stmtLines (tgts bnds : List Nat) (st : Nat × Op) : List (List Char) :=
  (if st.1 ∈ tgts then [labelChars st.1 ++ [':']] else []) ++ [instrLine bnds st.2]

/-- The full disassembler, from `disasm` in src/src/disasm.rs, producing the
printed text as a list of lines (the source separates lines with a newline
written by `writeln!`). -/
def disasm (buf : List Nat) : Except DisasmError (List (List Char)) :=
  (disasmScan buf 0).map (fun stmts =>
    (stmts.map (stmtLines (labelTargets stmts) (boundaries stmts))).flatten)

/-! ## Assembler (src/src/asm.rs) -/

/-- Token kinds, from `enum Token` in src/src/asm.rs (messages of the error
variant are dropped). -/
inductive Tok where
  | mnemonicMove
  | mnemonicJump
  | mnemonicSetSleepTimer
  | mnemonicLoopBegin
  | mnemonicLoopEnd
  | mnemonicShootDirection
  | mnemonicSetSprite
  | mnemonicSetHomingTimer
  | mnemonicSetInversion
  | mnemonicSetPosition
  | mnemonicSetJumpOnDamage
  | mnemonicUnsetJumpOnDamage
  | mnemonicSetHealth
  | mnemonicIncrementSprite
  | mnemonicDecrementSprite
  | mnemonicSetPart
  | mnemonicRandomizeX
  | mnemonicRandomizeY
  | mnemonicBccX
  | mnemonicBcsX
  | mnemonicBccY
  | mnemonicBcsY
  | mnemonicShootAim
  | mnemonicChangeMusic
  | labelDef (name : List Char)
  | labelRef (name : List Char)
  | num (n : Nat)
  | comma
  | err
deriving DecidableEq, Repr

/-- Whitespace characters: the lexer skips `[[:space:]]+`. -/
def isWsChar (c : Char) : Bool :=
  c = ' ' || c = '\t' || c = '\n' || c = '\r' || c = '\x0b' || c = '\x0c'

/-- Word characters `[[:word:]]`: ASCII alphanumerics and underscore. -/
def isWordChar (c : Char) : Bool := c.isAlphanum || c = '_'

/-- Identifier head `[A-Za-z_]`. -/
def isIdentStart (c : Char) : Bool := c.isAlpha || c = '_'

/-- Word-splitting worker: accumulates the current word (reversed) and
flushes it at whitespace. -/
def splitWsAux : List Char → List Char → List (List Char)
  | [], acc => if acc = [] then [] else [acc.reverse]
  | c :: cs, acc =>
    if isWsChar c then
      if acc = [] then splitWsAux cs [] else acc.reverse :: splitWsAux cs []
    else splitWsAux cs (c :: acc)

/-- Split a line into maximal whitespace-free words. -/
def splitWs (l : List Char) : List (List Char) := splitWsAux l []

/-- Split a word at commas, each comma becoming its own chunk (the lexer
produces `Comma` tokens without requiring surrounding whitespace). -/
def splitCommas : List Char → List (List Char)
  | [] => []
  | c :: cs =>
    if c = ',' then [','] :: splitCommas cs
    else
      match splitCommas cs with
      | [] => [[c]]
      | w :: ws => if w = [','] then [c] :: w :: ws else (c :: w) :: ws

/-- Hexadecimal digit value of a character. -/
def hexVal (c : Char) : Option Nat :=
  if c.isDigit then some (c.toNat - 48)
  else if 'A' ≤ c ∧ c ≤ 'F' then some (c.toNat - 55)
  else if 'a' ≤ c ∧ c ≤ 'f' then some (c.toNat - 87)
  else none

/-- Value of a digit string in a base, `none` on an invalid digit. -/
def digitsVal (base : Nat) (ds : List Char) : Option Nat :=
  ds.foldl
    (fun acc c =>
      match acc, hexVal c with
      | some v, some d => if d < base then some (base * v + d) else none
      | _, _ => none)
    (some 0)

/-- Numeric literal forms of the lexer: decimal, `0x` hex, `0o` octal,
`0b` binary, each parsed with `u8::from_str_radix` (so values above 255
fail, which turns the token into the error token). -/
def parseNumber (w : List Char) : Option Nat :=
  match w with
  | '0' :: 'x' :: ds =>
    if ds = [] then none
    else (digitsVal 16 ds).bind (fun v => if v ≤ 255 then some v else none)
  | '0' :: 'o' :: ds =>
    if ds = [] then none
    else (digitsVal 8 ds).bind (fun v => if v ≤ 255 then some v else none)
  | '0' :: 'b' :: ds =>
    if ds = [] then none
    else (digitsVal 2 ds).bind (fun v => if v ≤ 255 then some v else none)
  | ds =>
    if ds = [] then none
    else (digitsVal 10 ds).bind (fun v => if v ≤ 255 then some v else none)

/-- Identifier chunk `[A-Za-z_][[:word:]]*`. -/
def isIdentChunk (w : List Char) : Bool :=
  match w with
  | [] => false
  | c :: cs => isIdentStart c && cs.all isWordChar

/-- Label-definition chunk: an identifier followed by `:`. -/
def isLabelDefChunk (w : List Char) : Bool :=
  match w.getLast? with
  | some ':' => isIdentChunk w.dropLast
  | _ => false

/-- The mnemonic keywords (each a dedicated lexer token, which outranks the
identifier rule on an exact match). -/
def mnemonicOf (w : List Char) : Option Tok :=
  if w = "move".toList then some .mnemonicMove
  else if w = "jump".toList then some .mnemonicJump
  else if w = "set_sleep_timer".toList then some .mnemonicSetSleepTimer
  else if w = "loop_begin".toList then some .mnemonicLoopBegin
  else if w = "loop_end".toList then some .mnemonicLoopEnd
  else if w = "shoot_direction".toList then some .mnemonicShootDirection
  else if w = "set_sprite".toList then some .mnemonicSetSprite
  else if w = "set_homing_timer".toList then some .mnemonicSetHomingTimer
  else if w = "set_inversion".toList then some .mnemonicSetInversion
  else if w = "set_position".toList then some .mnemonicSetPosition
  else if w = "set_jump_on_damage".toList then some .mnemonicSetJumpOnDamage
  else if w = "unset_jump_on_damage".toList then some .mnemonicUnsetJumpOnDamage
  else if w = "set_health".toList then some .mnemonicSetHealth
  else if w = "increment_sprite".toList then some .mnemonicIncrementSprite
  else if w = "decrement_sprite".toList then some .mnemonicDecrementSprite
  else if w = "set_part".toList then some .mnemonicSetPart
  else if w = "randomize_x".toList then some .mnemonicRandomizeX
  else if w = "randomize_y".toList then some .mnemonicRandomizeY
  else if w = "bcc_x".toList then some .mnemonicBccX
  else if w = "bcs_x".toList then some .mnemonicBcsX
  else if w = "bcc_y".toList then some .mnemonicBccY
  else if w = "bcs_y".toList then some .mnemonicBcsY
  else if w = "shoot_aim".toList then some .mnemonicShootAim
  else if w = "change_music".toList then some .mnemonicChangeMusic
  else none

/-- Classification of one whitespace/comma-delimited chunk, following the
lexer's priorities: a lone comma; an exact mnemonic; a label definition
(identifier plus `:`, which is longer than any mnemonic prefix and so wins
the longest-match rule); an identifier; a numeric literal.  Anything else is
the error token.  (Maximal munch *within* a chunk is not modelled; every
input appearing in the claims — disassembler output and single mnemonic
lines — consists of clean chunks.) -/
def classifyChunk (w : List Char) : Tok :=
  if w = [','] then .comma
  else
    match mnemonicOf w with
    | some t => t
    | none =>
      if isLabelDefChunk w then .labelDef w.dropLast
      else if isIdentChunk w then .labelRef w
      else
        match parseNumber w with
        | some n => .num n
        | none => .err

/-- Tokenization of one source line. -/
def tokenizeLine (l : List Char) : List Tok :=
  (((splitWs l).map splitCommas).flatten).map classifyChunk

/-- A chunk that the printer emits and the lexer passes through unchanged:
nonempty, free of whitespace, commas and semicolons. -/
def cleanChunk (w : List Char) : Bool :=
  !w.isEmpty && w.all (fun c => !isWsChar c && c != ',' && c != ';')

/-- Statement of the first pass, from `struct Statement` in src/src/asm.rs. -/
structure AStmt where
  lineno : Nat
  addr : Nat
  op : Op
  label : Option (List Char)
deriving DecidableEq, Repr

/-- Error kinds, from `enum AsmError` in src/src/asm.rs.  Human-readable
messages are dropped; `panic` models the `u8::try_from(addr).unwrap()` on a
label at address 0x100 and the `unreachable!()` in label resolution. -/
inductive AsmError where
  | parse (lineno : Nat)
  | overflow (lineno : Nat)
  | undefinedLabel (lineno : Nat) (label : List Char)
  | setJumpOnDamageZero (lineno : Nat)
  | panic
deriving DecidableEq, Repr

/-- State threaded through pass 1: current address, emitted statements, and
the label table (`HashMap` insertion modelled by consing, so that the most
recent definition shadows earlier ones on lookup). -/
structure P1State where
  addr : Nat
  stmts : List AStmt
  labels : List (List Char × Nat)
deriving DecidableEq, Repr

/-- Append a statement and advance the address, from the `add_stmt` /
`add_stmt_with_label` macros. -/
def P1State.addStmt (st : P1State) (lineno : Nat) (op : Op)
    (label : Option (List Char)) : P1State :=
  { st with stmts := st.stmts ++ [⟨lineno, st.addr, op, label⟩],
            addr := st.addr + op.len }

/-- Lexer-driven operand readers, from the `expect_*` functions of
src/src/asm.rs, each consuming one token. -/
def expectEnd (lineno : Nat) (toks : List Tok) : Except AsmError Unit :=
  match toks with
  | [] => .ok ()
  | _ => .error (.parse lineno)

/-- Reads a number token (`expect_number`). -/
def expectNumber (lineno : Nat) (toks : List Tok) :
    Except AsmError (Nat × List Tok) :=
  match toks with
  | .num n :: rest => .ok (n, rest)
  | _ => .error (.parse lineno)

/-- Reads a label reference (`expect_label_reference`). -/
def expectLabelRef (lineno : Nat) (toks : List Tok) :
    Except AsmError (List Char × List Tok) :=
  match toks with
  | .labelRef name :: rest => .ok (name, rest)
  | _ => .error (.parse lineno)

/-- Reads a comma (`expect_comma`). -/
def expectComma (lineno : Nat) (toks : List Tok) :
    Except AsmError (List Tok) :=
  match toks with
  | .comma :: rest => .ok rest
  | _ => .error (.parse lineno)

/-- Reads a movement direction in [0, 0x3F] (`expect_dir`). -/
def expectDir (lineno : Nat) (toks : List Tok) :
    Except AsmError (Nat × List Tok) := do
  let (idx, rest) ← expectNumber lineno toks
  if idx ≤ 0x3F then .ok (idx, rest) else .error (.parse lineno)

/-- Reads a shooting direction in [0, 0xF] (`expect_dir_shoot`). -/
def expectDirShoot (lineno : Nat) (toks : List Tok) :
    Except AsmError (Nat × List Tok) := do
  let (idx, rest) ← expectNumber lineno toks
  if idx ≤ 0xF then .ok (idx, rest) else .error (.parse lineno)

/-- Reads a nibble operand in [0, 0xF] (`expect_nibble`). -/
def expectNibble (lineno : Nat) (toks : List Tok) :
    Except AsmError (Nat × List Tok) := do
  let (idx, rest) ← expectNumber lineno toks
  if idx ≤ 0xF then .ok (idx, rest) else .error (.parse lineno)

/-- Reads a loop count in [0, 0xF] other than 1 (`expect_loop_idx`). -/
def expectLoopIdx (lineno : Nat) (toks : List Tok) :
    Except AsmError (Nat × List Tok) := do
  let (idx, rest) ← expectNumber lineno toks
  if idx ≤ 0xF ∧ idx ≠ 1 then .ok (idx, rest) else .error (.parse lineno)

/-- Reads a boolean given as 0 or 1 (`expect_bool`). -/
def expectBool (lineno : Nat) (toks : List Tok) :
    Except AsmError (Bool × List Tok) := do
  let (n, rest) ← expectNumber lineno toks
  if n ≤ 1 then .ok (n ≠ 0, rest) else .error (.parse lineno)

/-- One non-blank line of pass 1, from `parse_line` in src/src/asm.rs:
dispatch on the first token, check the operand shape, and either record a
label definition or append a statement (branch mnemonics get a placeholder
operand and the unresolved label name; the `set_health` mnemonic builds a
`SetJumpOnDamage` op, sharing its opcode). -/
def parse_line (lineno : Nat) (toks : List Tok) (st : P1State) :
    Except AsmError P1State :=
  match toks with
  | .labelDef name :: rest => do
    let _ ← expectEnd lineno rest
    if st.addr ≤ 0xFF then .ok { st with labels := (name, st.addr) :: st.labels }
    else .error .panic
  | .mnemonicMove :: rest => do
    let (dir, rest) ← expectDir lineno rest
    let _ ← expectEnd lineno rest
    .ok (st.addStmt lineno (.Move dir) none)
  | .mnemonicJump :: rest => do
    let (label, rest) ← expectLabelRef lineno rest
    let _ ← expectEnd lineno rest
    .ok (st.addStmt lineno (.Jump 0) (some label))
  | .mnemonicSetSleepTimer :: rest => do
    let (idx, rest) ← expectNibble lineno rest
    let _ ← expectEnd lineno rest
    .ok (st.addStmt lineno (.SetSleepTimer idx) none)
  | .mnemonicLoopBegin :: rest => do
    let (idx, rest) ← expectLoopIdx lineno rest
    let _ ← expectEnd lineno rest
    .ok (st.addStmt lineno (.LoopBegin idx) none)
  | .mnemonicLoopEnd :: rest => do
    let _ ← expectEnd lineno rest
    .ok (st.addStmt lineno .LoopEnd none)
  | .mnemonicShootDirection :: rest => do
    let (dir, rest) ← expectDirShoot lineno rest
    let _ ← expectEnd lineno rest
    .ok (st.addStmt lineno (.ShootDirection dir) none)
  | .mnemonicSetSprite :: rest => do
    let (idx, rest) ← expectNibble lineno rest
    let _ ← expectEnd lineno rest
    .ok (st.addStmt lineno (.SetSprite idx) none)
  | .mnemonicSetHomingTimer :: rest => do
    let (idx, rest) ← expectNibble lineno rest
    let _ ← expectEnd lineno rest
    .ok (st.addStmt lineno (.SetHomingTimer idx) none)
  | .mnemonicSetInversion :: rest => do
    let (ix, rest) ← expectBool lineno rest
    let rest ← expectComma lineno rest
    let (iy, rest) ← expectBool lineno rest
    let _ ← expectEnd lineno rest
    .ok (st.addStmt lineno (.SetInversion ix iy) none)
  | .mnemonicSetPosition :: rest => do
    let (x, rest) ← expectNumber lineno rest
    let rest ← expectComma lineno rest
    let (y, rest) ← expectNumber lineno rest
    let _ ← expectEnd lineno rest
    .ok (st.addStmt lineno (.SetPosition x y) none)
  | .mnemonicSetJumpOnDamage :: rest => do
    let (label, rest) ← expectLabelRef lineno rest
    let _ ← expectEnd lineno rest
    .ok (st.addStmt lineno (.SetJumpOnDamage 0xFF) (some label))
  | .mnemonicUnsetJumpOnDamage :: rest => do
    let _ ← expectEnd lineno rest
    .ok (st.addStmt lineno .UnsetJumpOnDamage none)
  | .mnemonicSetHealth :: rest => do
    let (health, rest) ← expectNumber lineno rest
    let _ ← expectEnd lineno rest
    .ok (st.addStmt lineno (.SetJumpOnDamage health) none)
  | .mnemonicIncrementSprite :: rest => do
    let _ ← expectEnd lineno rest
    .ok (st.addStmt lineno .IncrementSprite none)
  | .mnemonicDecrementSprite :: rest => do
    let _ ← expectEnd lineno rest
    .ok (st.addStmt lineno .DecrementSprite none)
  | .mnemonicSetPart :: rest => do
    let (part, rest) ← expectNumber lineno rest
    let _ ← expectEnd lineno rest
    .ok (st.addStmt lineno (.SetPart part) none)
  | .mnemonicRandomizeX :: rest => do
    let (mask, rest) ← expectNumber lineno rest
    let _ ← expectEnd lineno rest
    .ok (st.addStmt lineno (.RandomizeX mask) none)
  | .mnemonicRandomizeY :: rest => do
    let (mask, rest) ← expectNumber lineno rest
    let _ ← expectEnd lineno rest
    .ok (st.addStmt lineno (.RandomizeY mask) none)
  | .mnemonicBccX :: rest => do
    let (label, rest) ← expectLabelRef lineno rest
    let _ ← expectEnd lineno rest
    .ok (st.addStmt lineno (.BccX 0) (some label))
  | .mnemonicBcsX :: rest => do
    let (label, rest) ← expectLabelRef lineno rest
    let _ ← expectEnd lineno rest
    .ok (st.addStmt lineno (.BcsX 0) (some label))
  | .mnemonicBccY :: rest => do
    let (label, rest) ← expectLabelRef lineno rest
    let _ ← expectEnd lineno rest
    .ok (st.addStmt lineno (.BccY 0) (some label))
  | .mnemonicBcsY :: rest => do
    let (label, rest) ← expectLabelRef lineno rest
    let _ ← expectEnd lineno rest
    .ok (st.addStmt lineno (.BcsY 0) (some label))
  | .mnemonicShootAim :: rest => do
    let (unused, rest) ← expectNibble lineno rest
    let _ ← expectEnd lineno rest
    .ok (st.addStmt lineno (.ShootAim unused) none)
  | .mnemonicChangeMusic :: rest => do
    let (music, rest) ← expectNibble lineno rest
    let _ ← expectEnd lineno rest
    .ok (st.addStmt lineno (.ChangeMusic music) none)
  | _ => .error (.parse lineno)

/-- Label lookup: first match, i.e. the most recent insertion. -/
def lookupLabel (labels : List (List Char × Nat)) (name : List Char) :
    Option Nat :=
  (labels.find? (fun p => p.1 = name)).map (·.2)

/-- Pass 2, from `resolve_labels` in src/src/asm.rs: substitute each
statement's label operand, failing with `UndefinedLabel` for a missing
definition and with `SetJumpOnDamageZero` for a `set_jump_on_damage`
resolving to address 0. -/
def resolve_labels (stmts : List AStmt) (labels : List (List Char × Nat)) :
    Except AsmError (List AStmt) :=
  match stmts with
  | [] => .ok []
  | st :: rest =>
    match st.label with
    | none => (resolve_labels rest labels).map (st :: ·)
    | some name =>
      match lookupLabel labels name with
      | none => .error (.undefinedLabel st.lineno name)
      | some addr =>
        match st.op with
        | .Jump _ =>
          (resolve_labels rest labels).map
            ({ st with op := .Jump addr, label := none } :: ·)
        | .SetJumpOnDamage _ =>
          if addr = 0 then .error (.setJumpOnDamageZero st.lineno)
          else
            (resolve_labels rest labels).map
              ({ st with op := .SetJumpOnDamage addr, label := none } :: ·)
        | .BccX _ =>
          (resolve_labels rest labels).map
            ({ st with op := .BccX addr, label := none } :: ·)
        | .BcsX _ =>
          (resolve_labels rest labels).map
            ({ st with op := .BcsX addr, label := none } :: ·)
        | .BccY _ =>
          (resolve_labels rest labels).map
            ({ st with op := .BccY addr, label := none } :: ·)
        | .BcsY _ =>
          (resolve_labels rest labels).map
            ({ st with op := .BcsY addr, label := none } :: ·)
        | _ => .error .panic

/-- Emission, from `emit_code` and the buffer allocation in `asm`: the
source writes each op's encoding at consecutive offsets into a buffer of
exactly the accumulated code length; since each encoding occupies exactly
`op.len` bytes and the address advanced by `op.len` per statement, the
buffer content is the concatenation of the encodings. -/
def emit_code (stmts : List AStmt) : List Nat :=
  (stmts.map (fun st => st.op.encode)).flatten

/-- Comment stripping, from `trim_comment`: everything before the first
`;`. -/
def trim_comment (l : List Char) : List Char := l.takeWhile (fun c => c ≠ ';')

/-- The per-line loop of `asm`: strip comments, skip blank lines, parse, and
check the 0x100 overflow bound after every parsed line. -/
def asmPass1 (lineno : Nat) (lines : List (List Char)) (st : P1State) :
    Except AsmError P1State :=
  match lines with
  | [] => .ok st
  | l :: rest =>
    let l := trim_comment l
    if l.all isWsChar then asmPass1 (lineno + 1) rest st
    else do
      let st ← parse_line lineno (tokenizeLine l) st
      if st.addr > 0x100 then .error (.overflow lineno)
      else asmPass1 (lineno + 1) rest st

/-- The full assembler, from `asm` in src/src/asm.rs, taking the source text
as a list of lines (the source reads them from a `BufRead`). -/
def asm (lines : List (List Char)) : Except AsmError (List Nat) := do
  let st ← asmPass1 1 lines ⟨0, [], []⟩
  let stmts ← resolve_labels st.stmts st.labels
  .ok (emit_code stmts)

/-- The op and unresolved label that pass 1 of the assembler produces from
one printed disassembly statement: branch mnemonics carry their placeholder
operand and the synthesized label name, a `set_jump_on_damage` whose
destination is not an instruction boundary was printed as `set_health` and
parses back to `SetJumpOnDamage` with the literal operand, and `SetHealth`
itself was printed as `set_health`. -/
def parsedOp (bnds : List Nat) : Op → Op × Option (List Char)
  | .Jump d => (.Jump 0, some (labelChars d))
  | .BccX d => (.BccX 0, some (labelChars d))
  | .BcsX d => (.BcsX 0, some (labelChars d))
  | .BccY d => (.BccY 0, some (labelChars d))
  | .BcsY d => (.BcsY 0, some (labelChars d))
  | .SetJumpOnDamage d =>
    if d ∈ bnds then (.SetJumpOnDamage 0xFF, some (labelChars d))
    else (.SetJumpOnDamage d, none)
  | .SetHealth h => (.SetJumpOnDamage h, none)
  | op => (op, none)

/-- The statement list that pass 1 produces from the printed disassembly of
a statement suffix, starting at a given source line number (a statement
whose address carries a label is preceded by the label-definition line). -/
def parsedStmts (tgts bnds : List Nat) (ln : Nat) : List (Nat × Op) → List AStmt
  | [] => []
  | p :: rest =>
    let lb := if p.1 ∈ tgts then 1 else 0
    ⟨ln + lb, p.1, (parsedOp bnds p.2).1, (parsedOp bnds p.2).2⟩ ::
      parsedStmts tgts bnds (ln + lb + 1) rest

/-- The label table that pass 1 accumulates from the printed disassembly
(most recent definition first, as `parse_line` conses). -/
def labelEntries (tgts : List Nat) : List (Nat × Op) → List (List Char × Nat)
  | [] => []
  | p :: rest =>
    labelEntries tgts rest ++ (if p.1 ∈ tgts then [(labelChars p.1, p.1)] else [])

/-- Operand ranges that `Op.decode` guarantees on a buffer of bytes: the
decoder masks nibble operands, bounds directions by the opcode range, and
copies operand bytes (below 256 for a byte buffer) verbatim.  These bounds
are exactly what the assembler's operand checks accept when re-parsing the
printed form. -/
def scanOpWf : Op → Prop
  | .Move dir => dir ≤ 0x3F
  | .Jump addr => addr ≤ 0xFF
  | .SetSleepTimer idx => idx ≤ 0xF
  | .LoopBegin idx => idx ≤ 0xF ∧ idx ≠ 1
  | .LoopEnd => True
  | .ShootDirection dir => dir ≤ 0xF
  | .SetSprite idx => idx ≤ 0xF
  | .SetHomingTimer idx => idx ≤ 0xF
  | .SetInversion _ _ => True
  | .SetPosition x y => x ≤ 0xFF ∧ y ≤ 0xFF
  | .SetJumpOnDamage addr => addr ≤ 0xFF
  | .SetHealth health => health ≤ 0xFF
  | .UnsetJumpOnDamage => True
  | .IncrementSprite => True
  | .DecrementSprite => True
  | .SetPart part => part ≤ 0xFF
  | .RandomizeX mask => mask ≤ 0xFF
  | .RandomizeY mask => mask ≤ 0xFF
  | .BccX addr => addr ≤ 0xFF
  | .BcsX addr => addr ≤ 0xFF
  | .BccY addr => addr ≤ 0xFF
  | .BcsY addr => addr ≤ 0xFF
  | .ShootAim unused => unused ≤ 0xF
  | .ChangeMusic music => music ≤ 0xF

/-- Control-transfer instructions: those whose `step` arm assigns `pc`
other than by the fetch advance (jump, loop_end, the four branches). -/
def Op.isControl : Op → Bool
  | .Jump _ => true
  | .LoopEnd => true
  | .BccX _ => true
  | .BcsX _ => true
  | .BccY _ => true
  | .BcsY _ => true
  | _ => false

/-- Programs none of whose bytes is a control-transfer opcode
(0x40 jump, 0x51 loop_end, 0xB0..0xB3 branches). -/
def controlFree (prog : List Nat) : Prop :=
  ∀ b ∈ prog, b ∉ ([0x40, 0x51, 0xB0, 0xB1, 0xB2, 0xB3] : List Nat)

instance (prog : List Nat) : Decidable (controlFree prog) := by
  unfold controlFree
  infer_instance

/-- Termination measure for the inner loop of `step` on control-free
programs: twice the remaining code distance plus the pending re-act grant. -/
def frameMeasure (f : Frame) : Nat :=
  2 * (f.s.program.length + 1 - f.s.pc) + (if f.do_try_extra_act then 1 else 0)

/-! ## Concrete fixtures used by witnesses and counterexamples -/

/-- Trivial direction tables: every direction displaces by (1, 0). -/
def dirTables0 : DirTables := ⟨fun _ => (1, 0), fun _ _ => 0⟩

/-- A fixed host: stage 1, hero at (128, 120), first round, empty logs. -/
def game0 : Game :=
  { is_second_round := false, stage := 1, hero_x := 128, hero_y := 120,
    rands := [], shots := [], sounds := [] }

/-- A baseline alive interpreter state at (100, 100) with all timers zero. -/
def interpBase : Interp :=
  { program := [], pc := 0, boss := false, difficulty := 0,
    shot_with_rank := false, accel_shot_with_rank := false,
    homing_shot_with_rank := false, extra_act_with_rank := false,
    accel_with_rank := false, rank := 0, state := .Alive, x := 100, y := 100,
    inv_x := false, inv_y := false, health := 0, sprite_idx := 0, part := 0,
    sleep_timer := 0, homing_timer := 0, loop_start_addr := 0,
    loop_counter := 0, jump_on_damage := 0 }

/-- A program consisting of a jump whose target is its own address. -/
def c3_interp : Interp := { interpBase with program := [0x40, 0x00] }

/-- A state about to take a homing step with re-act available:
homing timer 2, rank 4, extra-act flag set, stage 1 ≥ difficulty 0. -/
def c4_interp : Interp :=
  { interpBase with
    program := [0x00], homing_timer := 2,
    extra_act_with_rank := true, rank := 4 }

/-- An increment_sprite instruction executed with sprite_idx = 255. -/
def c6_interp_inc : Interp :=
  { interpBase with program := [0xA2], sprite_idx := 255 }

/-- A decrement_sprite instruction executed with sprite_idx = 0. -/
def c6_interp_dec : Interp :=
  { interpBase with program := [0xA3], sprite_idx := 0 }

/-- Program loop_begin n; shoot_aim; loop_end; set_sleep_timer 1: each body
execution logs exactly one shot. -/
def c5_prog (n : Nat) : List Nat := [0x50 ||| n, 0xC0, 0x51, 0x41]

/-- Interpreter running `c5_prog n` (shot gating disabled, so every
shoot_aim registers a host call). -/
def c5_interp (n : Nat) : Interp := { interpBase with program := c5_prog n }

/-- One step of the scan chain: the statement addresses start at the given
address, advance by each op's length, stay inside the buffer, and end at or
past its length.  (Derived invariant of `disasmScan`, used to relate the
scan addresses to the assembler's running address.) -/
def scanChain (L : Nat) : Nat → List (Nat × Op) → Prop
  | a, [] => L ≤ a
  | a, p :: rest => p.1 = a ∧ a < L ∧ a + p.2.len ≤ L ∧ scanChain L (a + p.2.len) rest

/-! ## Theorems -/

/-! ## Claim C2: encode/decode round-trip for constructable ops -/

/-- C2, corrected: for every op constructable through the public constructors
except `SetSleepTimer 0`, decoding its encoding (with any trailing bytes)
yields the same op back, and the encoding is exactly `op.len` bytes long, so
the decode consumes exactly `op.len` bytes. -/
theorem c2_decode_encode (op : Op) (extra : List Nat) (hc : op.constructable)
    (hne : op ≠ .SetSleepTimer 0) :
    Op.decode (op.encode ++ extra) = some (.ok op) ∧ op.encode.length = op.len := by
  cases op with
  | Move dir =>
      refine ⟨?_, rfl⟩
      simp only [Op.constructable] at hc
      simp [Op.decode, Op.encode, hc]
  | Jump addr => exact ⟨by simp [Op.decode, Op.encode], rfl⟩
  | SetSleepTimer idx =>
      refine ⟨?_, rfl⟩
      simp only [Op.constructable] at hc
      have h0 : idx ≠ 0 := by rintro rfl; exact hne rfl
      interval_cases idx <;> simp_all <;> simp [Op.decode, Op.encode] <;> decide
  | LoopBegin idx =>
      refine ⟨?_, rfl⟩
      obtain ⟨hc, h1⟩ := hc
      interval_cases idx <;> simp_all <;> simp [Op.decode, Op.encode] <;> decide
  | LoopEnd => exact ⟨by simp [Op.decode, Op.encode], rfl⟩
  | ShootDirection dir =>
      refine ⟨?_, rfl⟩
      simp only [Op.constructable] at hc
      interval_cases dir <;> simp [Op.decode, Op.encode] <;> decide
  | SetSprite idx =>
      refine ⟨?_, rfl⟩
      simp only [Op.constructable] at hc
      interval_cases idx <;> simp [Op.decode, Op.encode] <;> decide
  | SetHomingTimer idx =>
      refine ⟨?_, rfl⟩
      simp only [Op.constructable] at hc
      interval_cases idx <;> simp [Op.decode, Op.encode] <;> decide
  | SetInversion inv_x inv_y =>
      refine ⟨?_, rfl⟩
      cases inv_x <;> cases inv_y <;> simp [Op.decode, Op.encode] <;> decide
  | SetPosition x y => exact ⟨by simp [Op.decode, Op.encode], rfl⟩
  | SetJumpOnDamage addr => exact ⟨by simp [Op.decode, Op.encode], rfl⟩
  | SetHealth health => exact hc.elim
  | UnsetJumpOnDamage => exact hc.elim
  | IncrementSprite => exact ⟨by simp [Op.decode, Op.encode], rfl⟩
  | DecrementSprite => exact ⟨by simp [Op.decode, Op.encode], rfl⟩
  | SetPart part => exact ⟨by simp [Op.decode, Op.encode], rfl⟩
  | RandomizeX mask => exact ⟨by simp [Op.decode, Op.encode], rfl⟩
  | RandomizeY mask => exact ⟨by simp [Op.decode, Op.encode], rfl⟩
  | BccX addr => exact ⟨by simp [Op.decode, Op.encode], rfl⟩
  | BcsX addr => exact ⟨by simp [Op.decode, Op.encode], rfl⟩
  | BccY addr => exact ⟨by simp [Op.decode, Op.encode], rfl⟩
  | BcsY addr => exact ⟨by simp [Op.decode, Op.encode], rfl⟩
  | ShootAim unused =>
      refine ⟨?_, rfl⟩
      simp only [Op.constructable] at hc
      interval_cases unused <;> simp [Op.decode, Op.encode] <;> decide
  | ChangeMusic music =>
      refine ⟨?_, rfl⟩
      simp only [Op.constructable] at hc
      interval_cases music <;> simp [Op.decode, Op.encode] <;> decide

/-- C2, counterexample to the claim as stated: `set_sleep_timer 0` is
constructable (`new_set_sleep_timer` accepts 0), but its encoding is the
single byte 0x40, which is the `jump` opcode: decoding it alone fails with
`Incomplete`, and decoding it followed by another byte yields a `jump`. -/
theorem c2_counterexample :
    ¬ (∀ op : Op, op.constructable → ∀ extra : List Nat,
        Op.decode (op.encode ++ extra) = some (.ok op) ∧ op.encode.length = op.len) := by
  intro h
  have h1 := (h (.SetSleepTimer 0) (by decide) []).1
  have h2 : Op.decode (Op.encode (.SetSleepTimer 0) ++ []) =
      some (.error (.Incomplete 0x40)) := by decide
  rw [h1] at h2
  exact absurd h2 (by decide)

/-- C2, witness: the corrected round-trip at a concrete op. -/
theorem c2_decode_encode_witness :
    Op.decode (Op.encode (.LoopBegin 4) ++ [0x99]) = some (.ok (.LoopBegin 4)) ∧
    (Op.encode (.LoopBegin 4)).length = (Op.LoopBegin 4).len :=
  c2_decode_encode (.LoopBegin 4) [0x99] (by decide) (by decide)

/-! ## Claim C6: sprite increment and decrement -/

/-- C6: the `IncrementSprite`/`DecrementSprite` arms of `step` use `+= 1` /
`-= 1`, which under the default build profile panic on u8 overflow instead
of wrapping: incrementing at sprite_idx = 255 and decrementing at
sprite_idx = 0 both abort the step with a panic (claim C6 says they wrap). -/
theorem c6_sprite_overflow_panics :
    (Interp.step dirTables0 1 c6_interp_inc game0).map (fun r => r.2) =
      some .panic ∧
    (Interp.step dirTables0 1 c6_interp_dec game0).map (fun r => r.2) =
      some .panic := by
  exact ⟨by decide, by decide⟩

/-! ## Claim C8: fetch with pc at or past the end of the program -/

/-- Helper: `Interpreter::fetch` panics whenever `pc` is not strictly inside
the program: `pc > len` makes the slice `&program[pc..]` panic, and
`pc = len` makes `Op::decode` trip its non-emptiness assertion. -/
theorem fetch_oob (s : Interp) (h : s.program.length ≤ s.pc) : s.fetch = .panic := by
  by_cases hlt : s.program.length < s.pc
  · simp [Interp.fetch, hlt]
  · have heq : s.pc = s.program.length := by omega
    simp [Interp.fetch, hlt, List.drop_eq_nil_of_le (le_of_eq heq.symm), Op.decode]

/-- C8: if `pc ≥ program.length`, the fetch panics rather than producing the
declared decode-error result, and a `step` that reaches the fetch (alive, no
sleep, no homing) therefore ends in a panic, not in `StepOutcome.fail`. -/
theorem c8_fetch_past_end :
    (∀ s : Interp, s.program.length ≤ s.pc → s.fetch = .panic) ∧
    (∀ (t : DirTables) (g : Game) (s : Interp) (fuel : Nat),
      s.state = EnemyState.Alive → s.sleep_timer = 0 → s.homing_timer = 0 →
      s.program.length ≤ s.pc →
      Interp.step t (fuel + 1) s g =
        some (⟨s, g, false, s.extra_act_with_rank, 0⟩, .panic)) := by
  refine ⟨fetch_oob, ?_⟩
  intro t g s fuel hst hsleep hhom hpc
  simp only [Interp.step, hst, hsleep, ne_eq, not_true_eq_false, if_false,
    Nat.lt_irrefl, stepLoop]
  rw [loopIter]
  simp only [hhom]
  simp [fetch_oob s hpc]

/-- C8, witness: a concrete state with `pc = program.length`. -/
theorem c8_fetch_past_end_witness :
    ({ interpBase with program := [0x00], pc := 1 } : Interp).fetch = .panic ∧
    Interp.step dirTables0 1 { interpBase with program := [0x00], pc := 1 } game0 =
      some (⟨{ interpBase with program := [0x00], pc := 1 }, game0, false, false, 0⟩,
        .panic) :=
  ⟨c8_fetch_past_end.1 _ (by decide),
   c8_fetch_past_end.2 dirTables0 game0 _ 0 rfl rfl rfl (by decide)⟩

/-! ## Claim C10: initial interpreter state -/

/-- Helper: the boss fetch rewrite leaves `LoopEnd` unchanged. -/
theorem bossRewrite_loopEnd (b : Bool) : bossRewrite b .LoopEnd = .LoopEnd := by
  cases b <;> rfl

/-- C10: for any config with rank in [0, 7], `init` succeeds and produces an
alive interpreter with position copied from the config, cleared flags,
counters and timers, and `loop_start_addr` equal to the initial `pc`; as a
consequence, executing `loop_end` before any `loop_begin` wraps the counter
from 0 to 255 and sends `pc` back to the initial `pc` (the inner loop
continues there). -/
theorem c10_init_state (c : InterpreterInit) (hr : c.rank ≤ 7) :
    ∃ s, c.init = some s ∧ s.state = .Alive ∧ s.x = c.x ∧ s.y = c.y ∧
      s.inv_x = false ∧ s.inv_y = false ∧ s.health = 0 ∧ s.sprite_idx = 0 ∧
      s.part = 0 ∧ s.sleep_timer = 0 ∧ s.homing_timer = 0 ∧
      s.loop_counter = 0 ∧ s.jump_on_damage = 0 ∧
      s.loop_start_addr = c.pc ∧ s.pc = c.pc ∧
      ∀ (t : DirTables) (g : Game) (rest : List Nat),
        c.program.drop c.pc = 0x51 :: rest →
        ∃ f', loopIter t ⟨s, g, true, s.extra_act_with_rank, 0⟩ = .inl f' ∧
          f'.s.loop_counter = 255 ∧ f'.s.pc = c.pc := by
  unfold InterpreterInit.init
  rw [if_pos hr]
  refine ⟨_, rfl, rfl, rfl, rfl, rfl, rfl, rfl, rfl, rfl, rfl, rfl, rfl, rfl,
    rfl, rfl, ?_⟩
  intro t g rest hdrop
  have hlt : c.pc < c.program.length := by
    by_contra hge
    push_neg at hge
    rw [List.drop_eq_nil_of_le hge] at hdrop
    exact List.noConfusion hdrop
  have hdec : Op.decode (0x51 :: rest) = some (.ok .LoopEnd) := by
    simp [Op.decode]
  rw [loopIter]
  simp only [Interp.fetch, hdrop, hdec]
  have hnlt : ¬ (c.program.length < c.pc) := by omega
  simp [execOp, hnlt, Op.len, bossRewrite_loopEnd]

/-- C10, witness: a concrete config whose program is a single loop_end. -/
theorem c10_init_state_witness :
    ∃ s, InterpreterInit.init
        { program := [0x51], pc := 0, boss := false, difficulty := 0,
          shot_with_rank := false, accel_shot_with_rank := false,
          homing_shot_with_rank := false, extra_act_with_rank := false,
          accel_with_rank := false, rank := 3, x := 5, y := 6 } = some s ∧
      s.state = .Alive ∧ s.x = 5 ∧ s.y = 6 ∧
      s.inv_x = false ∧ s.inv_y = false ∧ s.health = 0 ∧ s.sprite_idx = 0 ∧
      s.part = 0 ∧ s.sleep_timer = 0 ∧ s.homing_timer = 0 ∧
      s.loop_counter = 0 ∧ s.jump_on_damage = 0 ∧
      s.loop_start_addr = 0 ∧ s.pc = 0 ∧
      ∀ (t : DirTables) (g : Game) (rest : List Nat),
        ([0x51] : List Nat).drop 0 = 0x51 :: rest →
        ∃ f', loopIter t ⟨s, g, true, s.extra_act_with_rank, 0⟩ = .inl f' ∧
          f'.s.loop_counter = 255 ∧ f'.s.pc = 0 :=
  c10_init_state _ (by decide)

/-! ## Claim C3: termination of a single step call -/

/-- Helper: on the self-jump program, the first inner-loop iteration only
clears `do_try_homing`. -/
theorem c3_iter_first :
    loopIter dirTables0 ⟨c3_interp, game0, true, false, 0⟩ =
      .inl ⟨c3_interp, game0, false, false, 0⟩ := by decide

/-- Helper: on the self-jump program, the inner loop has a fixed point. -/
theorem c3_iter_fix :
    loopIter dirTables0 ⟨c3_interp, game0, false, false, 0⟩ =
      .inl ⟨c3_interp, game0, false, false, 0⟩ := by decide

/-- Helper: the inner loop never finishes on the self-jump program. -/
theorem c3_loop_spins (fuel : Nat) :
    stepLoop dirTables0 fuel ⟨c3_interp, game0, false, false, 0⟩ = none := by
  induction fuel with
  | zero => rfl
  | succ n ih =>
    rw [stepLoop, c3_iter_fix]
    exact ih

/-- C3, counterexample to the claim as stated: the claim quantifies over all
programs, including one whose jump targets its own address; on the program
[0x40, 0x00] from an alive state at pc 0, no amount of fuel makes `step`
return — the `jump` arm only assigns `pc` and the loop re-fetches the same
jump forever. -/
theorem c3_counterexample :
    ¬ (∀ (t : DirTables) (g : Game) (s : Interp),
        s.state = EnemyState.Alive → ∃ fuel, (Interp.step t fuel s g).isSome) := by
  intro h
  obtain ⟨fuel, hf⟩ := h dirTables0 game0 c3_interp rfl
  have hnone : Interp.step dirTables0 fuel c3_interp game0 = none := by
    show stepLoop dirTables0 fuel ⟨c3_interp, game0, true, false, 0⟩ = none
    cases fuel with
    | zero => rfl
    | succ n =>
      rw [stepLoop, c3_iter_first]
      exact c3_loop_spins n
  rw [hnone] at hf
  exact Bool.noConfusion hf

/-! ## Claim C4: the homing aim-step and do_try_homing -/

/-- C4, counterexample to the claim as stated: starting with homing_timer = 2
and a granted re-act (rank 4, extra-act flag, stage ≥ difficulty), one `step`
call executes the homing aim-step twice — the source clears `do_try_homing`
only on the fall-through path, which the re-act `continue` skips, so the
ghost counter reaches 2 and homing_timer drops from 2 to 0 in a single
frame. -/
theorem c4_counterexample :
    ¬ (∀ (t : DirTables) (fuel : Nat) (s : Interp) (g : Game)
        (r : Frame × StepOutcome),
        Interp.step t fuel s g = some r → r.1.homing_steps ≤ 1) := by
  intro h
  cases hstep : Interp.step dirTables0 3 c4_interp game0 with
  | none => exact absurd hstep (by decide)
  | some r =>
    have h1 := h _ _ _ _ r hstep
    have h2 : (Interp.step dirTables0 3 c4_interp game0).map
        (fun r => r.1.homing_steps) = some 2 := by decide
    rw [hstep] at h2
    simp only [Option.map_some'] at h2
    have : r.1.homing_steps = 2 := Option.some.injEq _ _ ▸ h2
    omega

/-! ## Inner-loop invariants shared by the amended C3 and C4 -/

/-- Helper: `clip` never changes `pc` or the program; it lowers
`do_try_extra_act` (or keeps it), and grants a re-act only when the incoming
flag was set, clearing it. -/
theorem clip_spec (s : Interp) (g : Game) (d : Bool) :
    (s.clip g d).1.pc = s.pc ∧ (s.clip g d).1.program = s.program ∧
    ((s.clip g d).2.1 = d ∨ (s.clip g d).2.1 = false) ∧
    ((s.clip g d).2.2 = true → d = true ∧ (s.clip g d).2.1 = false) := by
  unfold Interp.clip
  split
  · simp
  · split
    · rename_i h
      exact ⟨rfl, rfl, Or.inr rfl, fun _ => ⟨h.1, rfl⟩⟩
    · simp

/-- Helper: the boss fetch rewrite maps control instructions to themselves
and non-control instructions to non-control instructions. -/
theorem bossRewrite_isControl (b : Bool) (op : Op) :
    (bossRewrite b op).isControl = op.isControl := by
  cases b
  · rfl
  · cases op <;> rfl

/-- Helper: the decoder produces a control instruction (jump, loop_end, or a
branch) only from the opcodes 0x40, 0x51, 0xB0..0xB3. -/
theorem decode_ok_control (b : Nat) (rest : List Nat) (op : Op)
    (h : Op.decode (b :: rest) = some (.ok op)) (hc : op.isControl = true) :
    b ∈ ([0x40, 0x51, 0xB0, 0xB1, 0xB2, 0xB3] : List Nat) := by
  unfold Op.decode at h
  replace h := Option.some.inj h
  by_cases c1 : b ≤ 0x3F
  · rw [if_pos c1] at h
    injection h with h
    subst h
    simp [Op.isControl] at hc
  rw [if_neg c1] at h
  by_cases c2 : b = 0x40
  · rw [if_pos c2] at h
    cases rest with
    | nil => exact Except.noConfusion h
    | cons a tail => simp [c2]
  rw [if_neg c2] at h
  by_cases c3 : 0x41 ≤ b ∧ b ≤ 0x4F
  · rw [if_pos c3] at h
    injection h with h
    subst h
    simp [Op.isControl] at hc
  rw [if_neg c3] at h
  by_cases c4 : b = 0x50 ∨ (0x52 ≤ b ∧ b ≤ 0x5F)
  · rw [if_pos c4] at h
    injection h with h
    subst h
    simp [Op.isControl] at hc
  rw [if_neg c4] at h
  by_cases c5 : b = 0x51
  · rw [if_pos c5] at h
    simp [c5]
  rw [if_neg c5] at h
  by_cases c6 : 0x60 ≤ b ∧ b ≤ 0x6F
  · rw [if_pos c6] at h
    injection h with h
    subst h
    simp [Op.isControl] at hc
  rw [if_neg c6] at h
  by_cases c7 : 0x70 ≤ b ∧ b ≤ 0x7F
  · rw [if_pos c7] at h
    injection h with h
    subst h
    simp [Op.isControl] at hc
  rw [if_neg c7] at h
  by_cases c8 : 0x80 ≤ b ∧ b ≤ 0x8F
  · rw [if_pos c8] at h
    injection h with h
    subst h
    simp [Op.isControl] at hc
  rw [if_neg c8] at h
  by_cases c9 : 0x90 ≤ b ∧ b ≤ 0x93
  · rw [if_pos c9] at h
    injection h with h
    subst h
    simp [Op.isControl] at hc
  rw [if_neg c9] at h
  by_cases c10 : b = 0xA0
  · rw [if_pos c10] at h
    cases rest with
    | nil => exact Except.noConfusion h
    | cons a tail =>
      cases tail with
      | nil => exact Except.noConfusion h
      | cons y tail2 =>
        injection h with h
        subst h
        simp [Op.isControl] at hc
  rw [if_neg c10] at h
  by_cases c11 : b = 0xA1
  · rw [if_pos c11] at h
    cases rest with
    | nil => exact Except.noConfusion h
    | cons a tail =>
      injection h with h
      subst h
      simp [Op.isControl] at hc
  rw [if_neg c11] at h
  by_cases c12 : b = 0xA2
  · rw [if_pos c12] at h
    injection h with h
    subst h
    simp [Op.isControl] at hc
  rw [if_neg c12] at h
  by_cases c13 : b = 0xA3
  · rw [if_pos c13] at h
    injection h with h
    subst h
    simp [Op.isControl] at hc
  rw [if_neg c13] at h
  by_cases c14 : b = 0xA4
  · rw [if_pos c14] at h
    cases rest with
    | nil => exact Except.noConfusion h
    | cons a tail =>
      injection h with h
      subst h
      simp [Op.isControl] at hc
  rw [if_neg c14] at h
  by_cases c15 : b = 0xA5
  · rw [if_pos c15] at h
    cases rest with
    | nil => exact Except.noConfusion h
    | cons a tail =>
      injection h with h
      subst h
      simp [Op.isControl] at hc
  rw [if_neg c15] at h
  by_cases c16 : b = 0xA6
  · rw [if_pos c16] at h
    cases rest with
    | nil => exact Except.noConfusion h
    | cons a tail =>
      injection h with h
      subst h
      simp [Op.isControl] at hc
  rw [if_neg c16] at h
  by_cases c17 : b = 0xB0
  · rw [if_pos c17] at h
    cases rest with
    | nil => exact Except.noConfusion h
    | cons a tail => simp [c17]
  rw [if_neg c17] at h
  by_cases c18 : b = 0xB1
  · rw [if_pos c18] at h
    cases rest with
    | nil => exact Except.noConfusion h
    | cons a tail => simp [c18]
  rw [if_neg c18] at h
  by_cases c19 : b = 0xB2
  · rw [if_pos c19] at h
    cases rest with
    | nil => exact Except.noConfusion h
    | cons a tail => simp [c19]
  rw [if_neg c19] at h
  by_cases c20 : b = 0xB3
  · rw [if_pos c20] at h
    cases rest with
    | nil => exact Except.noConfusion h
    | cons a tail => simp [c20]
  rw [if_neg c20] at h
  by_cases c21 : 0xC0 ≤ b ∧ b ≤ 0xCF
  · rw [if_pos c21] at h
    injection h with h
    subst h
    simp [Op.isControl] at hc
  rw [if_neg c21] at h
  by_cases c22 : 0xF0 ≤ b ∧ b ≤ 0xFF
  · rw [if_pos c22] at h
    injection h with h
    subst h
    simp [Op.isControl] at hc
  rw [if_neg c22] at h
  exact Except.noConfusion h

/-- Helper: a successful fetch advances `pc` by the fetched op's length,
happens strictly inside the program, and on a control-free program never
yields a control instruction. -/
theorem fetch_ok_spec (s : Interp) (op : Op) (pc' : Nat)
    (h : s.fetch = .ok op pc') :
    pc' = s.pc + op.len ∧ s.pc < s.program.length ∧
    (controlFree s.program → op.isControl = false) := by
  unfold Interp.fetch at h
  split at h
  · exact absurd h (by simp)
  · rename_i hnlt
    split at h
    · exact absurd h (by simp)
    · exact absurd h (by simp)
    · rename_i op0 heq
      injection h with hop hpc
      subst hop
      have hne : s.program.drop s.pc ≠ [] := by
        intro hnil
        rw [hnil] at heq
        simp [Op.decode] at heq
      have hlt : s.pc < s.program.length := by
        by_contra hge
        push_neg at hge
        exact hne (List.drop_eq_nil_of_le hge)
      refine ⟨hpc.symm, hlt, ?_⟩
      intro hcf
      rw [bossRewrite_isControl]
      cases hic : op0.isControl
      · rfl
      · obtain ⟨b, rest, hdrop⟩ : ∃ b rest, s.program.drop s.pc = b :: rest := by
          cases hd : s.program.drop s.pc with
          | nil => exact absurd hd hne
          | cons b rest => exact ⟨b, rest, rfl⟩
        rw [hdrop] at heq
        have hmem : b ∈ s.program :=
          List.drop_subset s.pc s.program (hdrop ▸ List.mem_cons_self b rest)
        exact absurd (decode_ok_control b rest op0 heq hic) (hcf b hmem)

/-- Helper: behaviour of the clip-dispatch tail.  A continuing result means
clipping granted a re-act: the incoming `do_try_extra_act` was set and is
cleared, while position state comes from `clip`; a frame-ending result keeps
or lowers the flag.  The ghost counter and host are untouched. -/
theorem moveResult_spec (f : Frame) (s1 : Interp) :
    (∀ f', moveResult f s1 = .inl f' →
      f'.homing_steps = f.homing_steps ∧ f'.g = f.g ∧
      f'.s.program = s1.program ∧ f'.s.pc = s1.pc ∧
      f'.do_try_extra_act = false ∧ f.do_try_extra_act = true) ∧
    (∀ f' o, moveResult f s1 = .inr (f', o) →
      f'.homing_steps = f.homing_steps ∧
      (f'.do_try_extra_act = f.do_try_extra_act ∨ f'.do_try_extra_act = false)) := by
  obtain ⟨hcpc, hcprog, hcdt, hcgr⟩ := clip_spec s1 f.g f.do_try_extra_act
  rcases hclip : s1.clip f.g f.do_try_extra_act with ⟨s2, d2, e2⟩
  rw [hclip] at hcpc hcprog hcdt hcgr
  constructor
  · intro f' hf'
    unfold moveResult at hf'
    rw [hclip] at hf'
    dsimp only at hf'
    split at hf'
    · cases hf'
      rename_i he2
      obtain ⟨hgr1, hgr2⟩ := hcgr he2
      exact ⟨rfl, rfl, hcprog, hcpc, hgr2, hgr1⟩
    · cases hf'
  · intro f' o hf'
    unfold moveResult at hf'
    rw [hclip] at hf'
    dsimp only at hf'
    split at hf'
    · cases hf'
    · cases hf'
      exact ⟨rfl, hcdt⟩

set_option maxHeartbeats 4000000 in
/-- Helper: the dispatch of one instruction preserves the ghost homing
counter and the program, never raises `do_try_extra_act`, and — for
non-control instructions — leaves `pc` where the fetch put it. -/
theorem execOp_spec (t : DirTables) (f : Frame) (op : Op) :
    (∀ f', execOp t f op = .inl f' →
      f'.homing_steps = f.homing_steps ∧ f'.s.program = f.s.program ∧
      (f'.do_try_extra_act = f.do_try_extra_act ∨ f'.do_try_extra_act = false) ∧
      (op.isControl = false → f'.s.pc = f.s.pc)) ∧
    (∀ f' o, execOp t f op = .inr (f', o) →
      f'.homing_steps = f.homing_steps ∧
      (f'.do_try_extra_act = f.do_try_extra_act ∨ f'.do_try_extra_act = false)) := by
  cases op with
  | Move dir =>
    refine ⟨?_, ?_⟩
    · intro f' hf'
      simp only [execOp] at hf'
      obtain ⟨hcount, hg, hprog, hpc, hdt, hgr⟩ := (moveResult_spec _ _).1 f' hf'
      exact ⟨hcount, hprog.trans rfl, Or.inr hdt, fun _ => hpc.trans rfl⟩
    · intro f' o hf'
      simp only [execOp] at hf'
      obtain ⟨hcount, hdt⟩ := (moveResult_spec _ _).2 f' o hf'
      exact ⟨hcount, hdt⟩
  | Jump addr =>
    refine ⟨?_, ?_⟩
    · intro f' hf'
      simp only [execOp] at hf'
      cases hf'
      exact ⟨rfl, rfl, Or.inl rfl, fun hct => Bool.noConfusion hct⟩
    · intro f' o hf'
      simp only [execOp] at hf'
      cases hf'
  | SetSleepTimer idx =>
    refine ⟨?_, ?_⟩
    · intro f' hf'
      simp only [execOp] at hf'
      cases hf'
    · intro f' o hf'
      simp only [execOp] at hf'
      cases hf'
      exact ⟨rfl, Or.inl rfl⟩
  | LoopBegin idx =>
    refine ⟨?_, ?_⟩
    · intro f' hf'
      simp only [execOp] at hf'
      cases hf'
      exact ⟨rfl, rfl, Or.inl rfl, fun _ => rfl⟩
    · intro f' o hf'
      simp only [execOp] at hf'
      cases hf'
  | LoopEnd =>
    refine ⟨?_, ?_⟩
    · intro f' hf'
      simp only [execOp] at hf'
      cases hf'
      refine ⟨rfl, ?_, Or.inl rfl, fun hct => Bool.noConfusion hct⟩
      split <;> rfl
    · intro f' o hf'
      simp only [execOp] at hf'
      cases hf'
  | ShootDirection dir =>
    refine ⟨?_, ?_⟩
    · intro f' hf'
      simp only [execOp] at hf'
      cases hf'
    · intro f' o hf'
      simp only [execOp] at hf'
      cases hf'
      exact ⟨rfl, Or.inl rfl⟩
  | SetSprite idx =>
    refine ⟨?_, ?_⟩
    · intro f' hf'
      simp only [execOp] at hf'
      cases hf'
      exact ⟨rfl, rfl, Or.inl rfl, fun _ => rfl⟩
    · intro f' o hf'
      simp only [execOp] at hf'
      cases hf'
  | SetHomingTimer idx =>
    refine ⟨?_, ?_⟩
    · intro f' hf'
      simp only [execOp] at hf'
      cases hf'
      exact ⟨rfl, rfl, Or.inl rfl, fun _ => rfl⟩
    · intro f' o hf'
      simp only [execOp] at hf'
      cases hf'
  | SetInversion ix iy =>
    refine ⟨?_, ?_⟩
    · intro f' hf'
      simp only [execOp] at hf'
      cases hf'
      exact ⟨rfl, rfl, Or.inl rfl, fun _ => rfl⟩
    · intro f' o hf'
      simp only [execOp] at hf'
      cases hf'
  | SetPosition x y =>
    refine ⟨?_, ?_⟩
    · intro f' hf'
      simp only [execOp] at hf'
      cases hf'
      exact ⟨rfl, rfl, Or.inl rfl, fun _ => rfl⟩
    · intro f' o hf'
      simp only [execOp] at hf'
      cases hf'
  | SetPart part =>
    refine ⟨?_, ?_⟩
    · intro f' hf'
      simp only [execOp] at hf'
      cases hf'
      exact ⟨rfl, rfl, Or.inl rfl, fun _ => rfl⟩
    · intro f' o hf'
      simp only [execOp] at hf'
      cases hf'
  | RandomizeX mask =>
    refine ⟨?_, ?_⟩
    · intro f' hf'
      simp only [execOp] at hf'
      cases hf'
      exact ⟨rfl, rfl, Or.inl rfl, fun _ => rfl⟩
    · intro f' o hf'
      simp only [execOp] at hf'
      cases hf'
  | RandomizeY mask =>
    refine ⟨?_, ?_⟩
    · intro f' hf'
      simp only [execOp] at hf'
      cases hf'
      exact ⟨rfl, rfl, Or.inl rfl, fun _ => rfl⟩
    · intro f' o hf'
      simp only [execOp] at hf'
      cases hf'
  | ChangeMusic music =>
    refine ⟨?_, ?_⟩
    · intro f' hf'
      simp only [execOp] at hf'
      cases hf'
      exact ⟨rfl, rfl, Or.inl rfl, fun _ => rfl⟩
    · intro f' o hf'
      simp only [execOp] at hf'
      cases hf'
  | SetJumpOnDamage addr =>
    refine ⟨?_, ?_⟩
    · intro f' hf'
      simp only [execOp] at hf'
      split at hf' <;> cases hf'
    · intro f' o hf'
      simp only [execOp] at hf'
      split at hf' <;> cases hf' <;> exact ⟨rfl, Or.inl rfl⟩
  | UnsetJumpOnDamage =>
    refine ⟨?_, ?_⟩
    · intro f' hf'
      simp only [execOp] at hf'
      split at hf' <;> cases hf'
    · intro f' o hf'
      simp only [execOp] at hf'
      split at hf' <;> cases hf' <;> exact ⟨rfl, Or.inl rfl⟩
  | SetHealth health =>
    refine ⟨?_, ?_⟩
    · intro f' hf'
      simp only [execOp] at hf'
      split at hf' <;> cases hf'
    · intro f' o hf'
      simp only [execOp] at hf'
      split at hf' <;> cases hf' <;> exact ⟨rfl, Or.inl rfl⟩
  | IncrementSprite =>
    refine ⟨?_, ?_⟩
    · intro f' hf'
      simp only [execOp] at hf'
      split at hf' <;> cases hf'
      exact ⟨rfl, rfl, Or.inl rfl, fun _ => rfl⟩
    · intro f' o hf'
      simp only [execOp] at hf'
      split at hf' <;> cases hf'
      exact ⟨rfl, Or.inl rfl⟩
  | DecrementSprite =>
    refine ⟨?_, ?_⟩
    · intro f' hf'
      simp only [execOp] at hf'
      split at hf' <;> cases hf'
      exact ⟨rfl, rfl, Or.inl rfl, fun _ => rfl⟩
    · intro f' o hf'
      simp only [execOp] at hf'
      split at hf' <;> cases hf'
      exact ⟨rfl, Or.inl rfl⟩
  | BccX addr =>
    refine ⟨?_, ?_⟩
    · intro f' hf'
      simp only [execOp] at hf'
      cases hf'
      refine ⟨rfl, ?_, Or.inl rfl, fun hct => Bool.noConfusion hct⟩
      split <;> rfl
    · intro f' o hf'
      simp only [execOp] at hf'
      cases hf'
  | BcsX addr =>
    refine ⟨?_, ?_⟩
    · intro f' hf'
      simp only [execOp] at hf'
      cases hf'
      refine ⟨rfl, ?_, Or.inl rfl, fun hct => Bool.noConfusion hct⟩
      split <;> rfl
    · intro f' o hf'
      simp only [execOp] at hf'
      cases hf'
  | BccY addr =>
    refine ⟨?_, ?_⟩
    · intro f' hf'
      simp only [execOp] at hf'
      cases hf'
      refine ⟨rfl, ?_, Or.inl rfl, fun hct => Bool.noConfusion hct⟩
      split <;> rfl
    · intro f' o hf'
      simp only [execOp] at hf'
      cases hf'
  | BcsY addr =>
    refine ⟨?_, ?_⟩
    · intro f' hf'
      simp only [execOp] at hf'
      cases hf'
      refine ⟨rfl, ?_, Or.inl rfl, fun hct => Bool.noConfusion hct⟩
      split <;> rfl
    · intro f' o hf'
      simp only [execOp] at hf'
      cases hf'
  | ShootAim unused =>
    refine ⟨?_, ?_⟩
    · intro f' hf'
      simp only [execOp] at hf'
      split at hf' <;> cases hf' <;> exact ⟨rfl, rfl, Or.inl rfl, fun _ => rfl⟩
    · intro f' o hf'
      simp only [execOp] at hf'
      split at hf' <;> cases hf'

/-- Helper: on a control-free program, every continuing iteration of the
inner loop preserves the program and strictly decreases `frameMeasure`. -/
theorem loopIter_inl_measure (t : DirTables) (f f' : Frame)
    (hcf : controlFree f.s.program) (h : loopIter t f = .inl f') :
    f'.s.program = f.s.program ∧ frameMeasure f' < frameMeasure f := by
  simp only [loopIter] at h
  split at h
  · -- homing branch: the continuation consumed the re-act grant
    obtain ⟨hcount, hg, hprog, hpc, hdt, hgr⟩ := (moveResult_spec _ _).1 f' h
    have h1 : f'.s.program = f.s.program := hprog.trans rfl
    have h2 : f'.s.pc = f.s.pc := hpc.trans rfl
    have h3 : f.do_try_extra_act = true := hgr
    refine ⟨h1, ?_⟩
    unfold frameMeasure
    rw [h1, h2, hdt, h3]
    simp
  · -- fetch path: pc advanced by a non-control instruction
    split at h
    · exact Sum.noConfusion h
    · exact Sum.noConfusion h
    · rename_i op pc' heq
      obtain ⟨hpc', hlt, hctl⟩ := fetch_ok_spec f.s op pc' heq
      have hop : op.isControl = false := hctl hcf
      obtain ⟨hcount, hprog, hdt, hpc⟩ := (execOp_spec t _ op).1 f' h
      have hlen := Op.lenPos op
      have h1 : f'.s.program = f.s.program := hprog.trans rfl
      have h2 : f'.s.pc = pc' := (hpc hop).trans rfl
      refine ⟨h1, ?_⟩
      unfold frameMeasure
      rw [h1, h2, hpc']
      have hdt' : (f'.do_try_extra_act = f.do_try_extra_act ∨
          f'.do_try_extra_act = false) := hdt
      rcases hdt' with hdt' | hdt' <;> rw [hdt'] <;>
        cases f.do_try_extra_act <;> simp <;> omega

/-- Helper: the inner loop finishes once the fuel exceeds the measure, on a
control-free program. -/
theorem stepLoop_total (t : DirTables) :
    ∀ (n : Nat) (f : Frame), controlFree f.s.program → frameMeasure f < n →
      (stepLoop t n f).isSome := by
  intro n
  induction n with
  | zero => intro f _ h; omega
  | succ n ih =>
    intro f hcf hm
    rw [stepLoop]
    cases hit : loopIter t f with
    | inr p => rfl
    | inl f' =>
      obtain ⟨hprog, hdec⟩ := loopIter_inl_measure t f f' hcf hit
      exact ih f' (hprog ▸ hcf) (by omega)

/-- C3, amended: a single `step` call terminates on every program that
contains none of the control-transfer opcodes (0x40 jump, 0x51 loop_end,
0xB0..0xB3 branches) — each iteration then either ends the frame, consumes
the single re-act grant, or advances `pc`, so the loop finishes within
`frameMeasure` iterations.  (The unrestricted claim is false: see the
self-jump counterexample.) -/
theorem c3_step_terminates (t : DirTables) (g : Game) (s : Interp)
    (hstate : s.state = EnemyState.Alive) (hcf : controlFree s.program) :
    ∃ fuel, (Interp.step t fuel s g).isSome := by
  by_cases hsleep : 0 < s.sleep_timer
  · exact ⟨0, by simp [Interp.step, hstate, hsleep]⟩
  · refine ⟨frameMeasure ⟨s, g, true, s.extra_act_with_rank, 0⟩ + 1, ?_⟩
    simp only [Interp.step, hstate, hsleep, ne_eq, not_true_eq_false, if_false]
    exact stepLoop_total t _ _ hcf (by omega)

/-- C3, witness: the amended termination at a concrete control-free
program. -/
theorem c3_step_terminates_witness :
    ∃ fuel, (Interp.step dirTables0 fuel
      { interpBase with program := [0x00, 0xA2] } game0).isSome :=
  c3_step_terminates dirTables0 game0 { interpBase with program := [0x00, 0xA2] }
    rfl (by decide)

/-- Helper: one inner-loop iteration preserves the C4 invariant (at most one
homing step so far, and if one happened the re-act grant is spent), and a
finishing iteration ends with at most two homing steps. -/
theorem loopIter_c4inv (t : DirTables) (f : Frame)
    (hinv : f.homing_steps ≤ 1 ∧ (f.homing_steps = 1 → f.do_try_extra_act = false)) :
    (∀ f', loopIter t f = .inl f' →
      f'.homing_steps ≤ 1 ∧ (f'.homing_steps = 1 → f'.do_try_extra_act = false)) ∧
    (∀ f' o, loopIter t f = .inr (f', o) → f'.homing_steps ≤ 2) := by
  obtain ⟨hle, hspent⟩ := hinv
  constructor
  · intro f' h
    simp only [loopIter] at h
    split at h
    · -- homing branch continuing: the grant was available, so no prior step
      obtain ⟨hcount, hg, hprog, hpc, hdt, hgr⟩ := (moveResult_spec _ _).1 f' h
      have hgr' : f.do_try_extra_act = true := hgr
      have hc0 : f.homing_steps = 0 := by
        by_contra hne
        have := hspent (by omega)
        rw [this] at hgr'
        exact Bool.noConfusion hgr'
      have hcount' : f'.homing_steps = f.homing_steps + 1 := hcount
      constructor
      · omega
      · intro _
        exact hdt
    · -- fetch path: the ghost counter is unchanged
      split at h
      · exact Sum.noConfusion h
      · exact Sum.noConfusion h
      · rename_i op pc' heq
        obtain ⟨hcount, _, hdt, _⟩ := (execOp_spec t _ op).1 f' h
        have hcount' : f'.homing_steps = f.homing_steps := hcount
        refine ⟨by omega, ?_⟩
        intro h1
        have hdt' : (f'.do_try_extra_act = f.do_try_extra_act ∨
            f'.do_try_extra_act = false) := hdt
        rcases hdt' with hdt' | hdt'
        · rw [hdt']
          exact hspent (by omega)
        · exact hdt'
  · intro f' o h
    simp only [loopIter] at h
    split at h
    · obtain ⟨hcount, _⟩ := (moveResult_spec _ _).2 f' o h
      have hcount' : f'.homing_steps = f.homing_steps + 1 := hcount
      omega
    · split at h
      · cases h
        exact hle.trans (by omega)
      · cases h
        exact hle.trans (by omega)
      · rename_i op pc' heq
        obtain ⟨hcount, _⟩ := (execOp_spec t _ op).2 f' o h
        have hcount' : f'.homing_steps = f.homing_steps := hcount
        omega

/-- Helper: the inner loop ends every frame with at most two homing steps. -/
theorem stepLoop_c4 (t : DirTables) :
    ∀ (n : Nat) (f : Frame) (r : Frame × StepOutcome),
      f.homing_steps ≤ 1 → (f.homing_steps = 1 → f.do_try_extra_act = false) →
      stepLoop t n f = some r → r.1.homing_steps ≤ 2 := by
  intro n
  induction n with
  | zero => intro f r _ _ h; exact absurd h (by simp [stepLoop])
  | succ n ih =>
    intro f r h1 h2 h
    rw [stepLoop] at h
    cases hit : loopIter t f with
    | inl f' =>
      rw [hit] at h
      obtain ⟨h1', h2'⟩ := (loopIter_c4inv t f ⟨h1, h2⟩).1 f' hit
      exact ih f' r h1' h2' h
    | inr p =>
      rw [hit] at h
      cases h
      exact (loopIter_c4inv t f ⟨h1, h2⟩).2 r.1 r.2 (by rw [hit])

/-- C4, amended: within one `step` call the homing aim-step executes at most
twice, not once: `do_try_homing` is cleared only on the path that falls
through to the fetch, so after a homing step whose clipping grants a re-act
the flag is still set and a second aim-step can run; since the re-act grant
is consumed by the first one, a third is impossible. -/
theorem c4_homing_at_most_twice (t : DirTables) (fuel : Nat) (s : Interp)
    (g : Game) (r : Frame × StepOutcome) (h : Interp.step t fuel s g = some r) :
    r.1.homing_steps ≤ 2 := by
  unfold Interp.step at h
  split at h
  · cases h; simp
  · split at h
    · cases h; simp
    · exact stepLoop_c4 t fuel _ r (by simp) (by simp) h

/-- C4, witness: the amended bound at a concrete input (a non-alive state,
whose step ends immediately with zero homing steps). -/
theorem c4_homing_at_most_twice_witness :
    ((⟨{ interpBase with state := .Dying }, game0, false, false, 0⟩,
      StepOutcome.panic) : Frame × StepOutcome).1.homing_steps ≤ 2 :=
  c4_homing_at_most_twice dirTables0 0 { interpBase with state := .Dying }
    game0 _ rfl

/-! ## Claim C5: loop iteration counts -/

set_option maxRecDepth 10000 in
/-- C5: running one frame of the program
`loop_begin n; shoot_aim; loop_end; set_sleep_timer 1` executes the loop
body exactly `n` times when `2 ≤ n ≤ 15` (each execution logs one
`try_shoot_aim` host call), and exactly 256 times when `n = 0`, because the
8-bit loop counter wraps from 0 to 255 on the first `loop_end`; the frame
then ends normally at the `set_sleep_timer`. -/
theorem c5_loop_count (n : Fin 16) (h : (n : Nat) ≠ 1) :
    (Interp.step dirTables0 1000 (c5_interp n) game0).map
      (fun r => (r.1.g.shots.length, r.2)) =
    some ((if (n : Nat) = 0 then 256 else (n : Nat)), StepOutcome.ok) := by
  revert h
  revert n
  decide

/-- C5, witness: the loop with count 4 logs exactly four shots. -/
theorem c5_loop_count_witness :
    (Interp.step dirTables0 1000 (c5_interp 4) game0).map
      (fun r => (r.1.g.shots.length, r.2)) = some (4, StepOutcome.ok) :=
  c5_loop_count 4 (by decide)

/-! ## Claim C7: out-of-range branch destinations in the disassembler -/

/-- C7: when the scan decodes an instruction whose branch destination lies
outside the buffer, a `set_jump_on_damage` is rewritten in place to
`set_health` with the same operand and the scan continues past its two
bytes, while any other branch-bearing op (`jump`, `bcc_x`, `bcs_x`,
`bcc_y`, `bcs_y`) aborts the scan with `InvalidDestination` carrying the
instruction's address and the destination. -/
theorem c7_branch_out_of_range (buf : List Nat) (addr dst : Nat)
    (h : addr < buf.length) (hdst : buf.length ≤ dst) :
    (Op.decode (buf.drop addr) = some (.ok (.SetJumpOnDamage dst)) →
      disasmScan buf addr =
        (disasmScan buf (addr + 2)).map (fun tl => (addr, Op.SetHealth dst) :: tl)) ∧
    (∀ op : Op,
      op ∈ ([.Jump dst, .BccX dst, .BcsX dst, .BccY dst, .BcsY dst] : List Op) →
      Op.decode (buf.drop addr) = some (.ok op) →
      disasmScan buf addr = .error (.invalidDestination addr dst)) := by
  have hnd : ¬ (dst < buf.length) := by omega
  constructor
  · intro hdec
    rw [disasmScan, dif_pos h, hdec]
    simp only [Op.addr_destination]
    rw [if_neg hnd]
    rfl
  · intro op hop hdec
    rw [disasmScan, dif_pos h, hdec]
    fin_cases hop <;> simp only [Op.addr_destination] <;> rw [if_neg hnd]

/-- C7, witness: the two behaviours on concrete two-byte programs with
destination 5 outside the buffer. -/
theorem c7_branch_out_of_range_witness :
    disasmScan [0xA1, 0x05] 0 =
      (disasmScan [0xA1, 0x05] 2).map (fun tl => (0, Op.SetHealth 5) :: tl) ∧
    disasmScan [0x40, 0x05] 0 = .error (.invalidDestination 0 5) :=
  ⟨(c7_branch_out_of_range [0xA1, 0x05] 0 5 (by decide) (by decide)).1 (by decide),
   (c7_branch_out_of_range [0x40, 0x05] 0 5 (by decide) (by decide)).2
     (.Jump 5) (by decide) (by decide)⟩

/-! ## Tokenizer lemmas -/

theorem takeWhile_eq_self (p : Char → Bool) (l : List Char)
    (h : ∀ c ∈ l, p c = true) : l.takeWhile p = l := by
  induction l with
  | nil => rfl
  | cons c cs ih =>
    have hc : p c = true := h c (by simp)
    simp only [List.takeWhile_cons, hc, if_true]
    rw [ih (fun d hd => h d (by simp [hd]))]

theorem trim_comment_eq_self (l : List Char) (h : ∀ c ∈ l, c ≠ ';') :
    trim_comment l = l := by
  unfold trim_comment
  apply takeWhile_eq_self
  intro c hc
  exact decide_eq_true (h c hc)

theorem not_all_ws (l : List Char) (c : Char) (hc : c ∈ l)
    (h : isWsChar c = false) : l.all isWsChar = false := by
  by_contra hab
  have hall : l.all isWsChar = true := by
    revert hab; cases l.all isWsChar <;> simp
  rw [List.all_eq_true] at hall
  exact absurd (hall c hc) (by simp [h])

theorem cleanChunk_mem (w : List Char) (h : cleanChunk w = true) :
    w ≠ [] ∧ ∀ c ∈ w, isWsChar c = false ∧ c ≠ ',' ∧ c ≠ ';' := by
  unfold cleanChunk at h
  rw [Bool.and_eq_true, List.all_eq_true] at h
  constructor
  · intro hw; subst hw; simp at h
  · intro c hc
    have hx := h.2 c hc
    simp only [Bool.and_eq_true, Bool.not_eq_true', bne_iff_ne] at hx
    exact ⟨hx.1.1, hx.1.2, hx.2⟩

theorem splitWsAux_push (w : List Char) (hw : ∀ c ∈ w, isWsChar c = false) :
    ∀ (l acc : List Char), splitWsAux (w ++ l) acc = splitWsAux l (w.reverse ++ acc) := by
  induction w with
  | nil => intro l acc; simp
  | cons c cs ih =>
    intro l acc
    have hc : isWsChar c = false := hw c (by simp)
    simp only [List.cons_append, splitWsAux, hc, Bool.false_eq_true, if_false]
    show splitWsAux (cs ++ l) (c :: acc) = splitWsAux l ((c :: cs).reverse ++ acc)
    rw [ih (fun d hd => hw d (by simp [hd])) l (c :: acc)]
    simp [List.append_assoc]

theorem splitWsAux_ws (l : List Char) (c : Char) (hc : isWsChar c = true) :
    splitWsAux (c :: l) [] = splitWsAux l [] := by
  simp [splitWsAux, hc]

theorem splitWsAux_indent (l : List Char) :
    splitWsAux (indentChars ++ l) [] = splitWsAux l [] := by
  have key : ∀ n, splitWsAux (List.replicate n ' ' ++ l) [] = splitWsAux l [] := by
    intro n
    induction n with
    | zero => rfl
    | succ k ih =>
      rw [List.replicate_succ, List.cons_append, splitWsAux_ws _ ' ' (by decide)]
      exact ih
  exact key 8

theorem splitWsAux_word_cons (w l : List Char) (hw : ∀ c ∈ w, isWsChar c = false)
    (hne : w ≠ []) (c : Char) (hc : isWsChar c = true) :
    splitWsAux (w ++ c :: l) [] = w :: splitWsAux l [] := by
  rw [splitWsAux_push w hw (c :: l) []]
  simp [splitWsAux, hc, hne]

theorem splitWsAux_word_end (w : List Char) (hw : ∀ c ∈ w, isWsChar c = false)
    (hne : w ≠ []) : splitWsAux w [] = [w] := by
  have hp := splitWsAux_push w hw [] []
  rw [List.append_nil] at hp
  rw [hp]
  simp [splitWsAux, hne]

theorem splitCommas_cons (c : Char) (cs : List Char) :
    splitCommas (c :: cs) =
      if c = ',' then [','] :: splitCommas cs
      else
        match splitCommas cs with
        | [] => [[c]]
        | w :: ws => if w = [','] then [c] :: w :: ws else (c :: w) :: ws := rfl

theorem splitCommas_noComma (w : List Char) (hw : ∀ c ∈ w, c ≠ ',')
    (hne : w ≠ []) : splitCommas w = [w] := by
  induction w with
  | nil => exact absurd rfl hne
  | cons c cs ih =>
    have hc : c ≠ ',' := hw c (by simp)
    cases cs with
    | nil =>
      rw [splitCommas_cons, if_neg hc]
      rfl
    | cons d ds =>
      have hrec : splitCommas (d :: ds) = [d :: ds] :=
        ih (fun x hx => hw x (by simp [hx])) (by simp)
      have hd : d :: ds ≠ [','] := by
        intro h
        have hd' : d = ',' := by injection h
        exact hw d (by simp) hd'
      rw [splitCommas_cons, if_neg hc, hrec]
      simp [hd]

theorem splitCommas_comma_end (w : List Char) (hw : ∀ c ∈ w, c ≠ ',')
    (hne : w ≠ []) : splitCommas (w ++ [',']) = [w, [',']] := by
  induction w with
  | nil => exact absurd rfl hne
  | cons c cs ih =>
    have hc : c ≠ ',' := hw c (by simp)
    cases cs with
    | nil =>
      have h2 : splitCommas [','] = [[',']] := rfl
      simp only [List.cons_append, List.nil_append]
      rw [splitCommas_cons, if_neg hc, h2]
      rfl
    | cons d ds =>
      have hrec : splitCommas ((d :: ds) ++ [',']) = [d :: ds, [',']] :=
        ih (fun x hx => hw x (by simp [hx])) (by simp)
      have hd : d :: ds ≠ [','] := by
        intro h
        have hd' : d = ',' := by injection h
        exact hw d (by simp) hd'
      simp only [List.cons_append] at hrec ⊢
      rw [splitCommas_cons, if_neg hc, hrec]
      simp [hd]

theorem tokenizeLine_indent (l : List Char) :
    tokenizeLine (indentChars ++ l) = tokenizeLine l := by
  unfold tokenizeLine splitWs
  rw [splitWsAux_indent]

theorem tokenizeLine_word (w : List Char) (hne : w ≠ [])
    (hw : ∀ c ∈ w, isWsChar c = false ∧ c ≠ ',') :
    tokenizeLine w = [classifyChunk w] := by
  unfold tokenizeLine splitWs
  rw [splitWsAux_word_end w (fun c hc => (hw c hc).1) hne]
  rw [List.map_cons, List.map_nil]
  rw [splitCommas_noComma w (fun c hc => (hw c hc).2) hne]
  simp

theorem tokenizeLine_cons_word (w l : List Char)
    (hw : ∀ c ∈ w, isWsChar c = false) (hne : w ≠ []) :
    tokenizeLine (w ++ ' ' :: l) =
      (splitCommas w).map classifyChunk ++ tokenizeLine l := by
  unfold tokenizeLine splitWs
  rw [splitWsAux_word_cons w l hw hne ' ' (by decide)]
  simp [List.map_append]

set_option maxRecDepth 100000 in
theorem decChars_fact : ∀ n : Fin 256,
    cleanChunk (decChars n) = true ∧ classifyChunk (decChars n) = .num n :=
  of_decide_eq_true rfl

set_option maxRecDepth 100000 in
theorem hexLit_fact : ∀ n : Fin 256,
    cleanChunk (hexLit n) = true ∧ classifyChunk (hexLit n) = .num n :=
  of_decide_eq_true rfl

set_option maxRecDepth 100000 in
theorem labelChars_fact : ∀ n : Fin 256,
    cleanChunk (labelChars n) = true ∧
    cleanChunk (labelChars n ++ [':']) = true ∧
    classifyChunk (labelChars n) = .labelRef (labelChars n) ∧
    classifyChunk (labelChars n ++ [':']) = .labelDef (labelChars n) :=
  of_decide_eq_true rfl

theorem decChars_fact' (n : Nat) (h : n ≤ 255) :
    cleanChunk (decChars n) = true ∧ classifyChunk (decChars n) = .num n := by
  have hf := decChars_fact ⟨n, Nat.lt_succ_of_le h⟩
  simpa using hf

theorem hexLit_fact' (n : Nat) (h : n ≤ 255) :
    cleanChunk (hexLit n) = true ∧ classifyChunk (hexLit n) = .num n := by
  have hf := hexLit_fact ⟨n, Nat.lt_succ_of_le h⟩
  simpa using hf

theorem labelChars_fact' (n : Nat) (h : n ≤ 255) :
    cleanChunk (labelChars n) = true ∧
    cleanChunk (labelChars n ++ [':']) = true ∧
    classifyChunk (labelChars n) = .labelRef (labelChars n) ∧
    classifyChunk (labelChars n ++ [':']) = .labelDef (labelChars n) := by
  have hf := labelChars_fact ⟨n, Nat.lt_succ_of_le h⟩
  simpa using hf

theorem printed_setSprite (bnds : List Nat) (ln : Nat) (st : P1State)
    (idx : Nat) (hwf : idx ≤ 0xF) :
    trim_comment (instrLine bnds (.SetSprite idx)) = instrLine bnds (.SetSprite idx) ∧
    (instrLine bnds (.SetSprite idx)).all isWsChar = false ∧
    parse_line ln (tokenizeLine (instrLine bnds (.SetSprite idx))) st =
      .ok (st.addStmt ln (.SetSprite idx) none) := by
  obtain ⟨hcd, hcc⟩ := decChars_fact' idx (le_trans hwf (by norm_num))
  obtain ⟨hdne, hdall⟩ := cleanChunk_mem _ hcd
  have hmnc : cleanChunk "set_sprite".toList = true := by decide
  obtain ⟨hmne, hmnall⟩ := cleanChunk_mem _ hmnc
  have hline : instrLine bnds (.SetSprite idx) =
      indentChars ++ ("set_sprite".toList ++ ' ' :: decChars idx) := by
    show indentChars ++ ("set_sprite ".toList ++ decChars idx) = _
    rw [show "set_sprite ".toList = "set_sprite".toList ++ [' '] from by decide,
        List.append_assoc]
    rfl
  refine ⟨?_, ?_, ?_⟩
  · rw [hline]
    apply trim_comment_eq_self
    intro c hc
    simp only [List.mem_append, List.mem_cons] at hc
    rcases hc with h | h | h | h
    · have h' := List.eq_of_mem_replicate h; subst h'; decide
    · exact (hmnall c h).2.2
    · subst h; decide
    · exact (hdall c h).2.2
  · rw [hline]
    apply not_all_ws _ 's'
    · refine List.mem_append.mpr (Or.inr ?_)
      refine List.mem_append.mpr (Or.inl ?_)
      decide
    · decide
  · rw [hline, tokenizeLine_indent]
    rw [tokenizeLine_cons_word _ _ (fun c hc => (hmnall c hc).1) hmne]
    rw [splitCommas_noComma _ (fun c hc => (hmnall c hc).2.1) hmne]
    rw [tokenizeLine_word _ hdne (fun c hc => ⟨(hdall c hc).1, (hdall c hc).2.1⟩)]
    rw [hcc]
    simp only [List.map_cons, List.map_nil, List.cons_append, List.nil_append]
    rw [show classifyChunk "set_sprite".toList = Tok.mnemonicSetSprite from by decide]
    simp [parse_line, expectNibble, expectNumber, expectEnd, Bind.bind, Except.bind, hwf]

theorem printed_loopEnd (bnds : List Nat) (ln : Nat) (st : P1State) :
    trim_comment (instrLine bnds Op.LoopEnd) = instrLine bnds Op.LoopEnd ∧
    (instrLine bnds Op.LoopEnd).all isWsChar = false ∧
    parse_line ln (tokenizeLine (instrLine bnds Op.LoopEnd)) st =
      .ok (st.addStmt ln Op.LoopEnd none) := by
  have hmnc : cleanChunk "loop_end".toList = true := by decide
  obtain ⟨hmne, hmnall⟩ := cleanChunk_mem _ hmnc
  have hline : instrLine bnds Op.LoopEnd = indentChars ++ "loop_end".toList := rfl
  refine ⟨?_, ?_, ?_⟩
  · rw [hline]
    apply trim_comment_eq_self
    intro c hc
    rcases List.mem_append.mp hc with h | h
    · have h' := List.eq_of_mem_replicate h; subst h'; decide
    · exact (hmnall c h).2.2
  · rw [hline]
    apply not_all_ws _ 'l'
    · exact List.mem_append.mpr (Or.inr (by decide))
    · decide
  · rw [hline, tokenizeLine_indent]
    rw [tokenizeLine_word _ hmne (fun c hc => ⟨(hmnall c hc).1, (hmnall c hc).2.1⟩)]
    rw [show classifyChunk "loop_end".toList = Tok.mnemonicLoopEnd from by decide]
    simp [parse_line, expectEnd, Bind.bind, Except.bind]

theorem printed_unsetJod (bnds : List Nat) (ln : Nat) (st : P1State) :
    trim_comment (instrLine bnds Op.UnsetJumpOnDamage) = instrLine bnds Op.UnsetJumpOnDamage ∧
    (instrLine bnds Op.UnsetJumpOnDamage).all isWsChar = false ∧
    parse_line ln (tokenizeLine (instrLine bnds Op.UnsetJumpOnDamage)) st =
      .ok (st.addStmt ln Op.UnsetJumpOnDamage none) := by
  have hmnc : cleanChunk "unset_jump_on_damage".toList = true := by decide
  obtain ⟨hmne, hmnall⟩ := cleanChunk_mem _ hmnc
  have hline : instrLine bnds Op.UnsetJumpOnDamage = indentChars ++ "unset_jump_on_damage".toList := rfl
  refine ⟨?_, ?_, ?_⟩
  · rw [hline]
    apply trim_comment_eq_self
    intro c hc
    rcases List.mem_append.mp hc with h | h
    · have h' := List.eq_of_mem_replicate h; subst h'; decide
    · exact (hmnall c h).2.2
  · rw [hline]
    apply not_all_ws _ 'u'
    · exact List.mem_append.mpr (Or.inr (by decide))
    · decide
  · rw [hline, tokenizeLine_indent]
    rw [tokenizeLine_word _ hmne (fun c hc => ⟨(hmnall c hc).1, (hmnall c hc).2.1⟩)]
    rw [show classifyChunk "unset_jump_on_damage".toList = Tok.mnemonicUnsetJumpOnDamage from by decide]
    simp [parse_line, expectEnd, Bind.bind, Except.bind]

theorem printed_incSprite (bnds : List Nat) (ln : Nat) (st : P1State) :
    trim_comment (instrLine bnds Op.IncrementSprite) = instrLine bnds Op.IncrementSprite ∧
    (instrLine bnds Op.IncrementSprite).all isWsChar = false ∧
    parse_line ln (tokenizeLine (instrLine bnds Op.IncrementSprite)) st =
      .ok (st.addStmt ln Op.IncrementSprite none) := by
  have hmnc : cleanChunk "increment_sprite".toList = true := by decide
  obtain ⟨hmne, hmnall⟩ := cleanChunk_mem _ hmnc
  have hline : instrLine bnds Op.IncrementSprite = indentChars ++ "increment_sprite".toList := rfl
  refine ⟨?_, ?_, ?_⟩
  · rw [hline]
    apply trim_comment_eq_self
    intro c hc
    rcases List.mem_append.mp hc with h | h
    · have h' := List.eq_of_mem_replicate h; subst h'; decide
    · exact (hmnall c h).2.2
  · rw [hline]
    apply not_all_ws _ 'i'
    · exact List.mem_append.mpr (Or.inr (by decide))
    · decide
  · rw [hline, tokenizeLine_indent]
    rw [tokenizeLine_word _ hmne (fun c hc => ⟨(hmnall c hc).1, (hmnall c hc).2.1⟩)]
    rw [show classifyChunk "increment_sprite".toList = Tok.mnemonicIncrementSprite from by decide]
    simp [parse_line, expectEnd, Bind.bind, Except.bind]

theorem printed_decSprite (bnds : List Nat) (ln : Nat) (st : P1State) :
    trim_comment (instrLine bnds Op.DecrementSprite) = instrLine bnds Op.DecrementSprite ∧
    (instrLine bnds Op.DecrementSprite).all isWsChar = false ∧
    parse_line ln (tokenizeLine (instrLine bnds Op.DecrementSprite)) st =
      .ok (st.addStmt ln Op.DecrementSprite none) := by
  have hmnc : cleanChunk "decrement_sprite".toList = true := by decide
  obtain ⟨hmne, hmnall⟩ := cleanChunk_mem _ hmnc
  have hline : instrLine bnds Op.DecrementSprite = indentChars ++ "decrement_sprite".toList := rfl
  refine ⟨?_, ?_, ?_⟩
  · rw [hline]
    apply trim_comment_eq_self
    intro c hc
    rcases List.mem_append.mp hc with h | h
    · have h' := List.eq_of_mem_replicate h; subst h'; decide
    · exact (hmnall c h).2.2
  · rw [hline]
    apply not_all_ws _ 'd'
    · exact List.mem_append.mpr (Or.inr (by decide))
    · decide
  · rw [hline, tokenizeLine_indent]
    rw [tokenizeLine_word _ hmne (fun c hc => ⟨(hmnall c hc).1, (hmnall c hc).2.1⟩)]
    rw [show classifyChunk "decrement_sprite".toList = Tok.mnemonicDecrementSprite from by decide]
    simp [parse_line, expectEnd, Bind.bind, Except.bind]

theorem printed_move (bnds : List Nat) (ln : Nat) (st : P1State)
    (v : Nat) (hwf : v ≤ 0x3F) :
    trim_comment (instrLine bnds (Op.Move v)) = instrLine bnds (Op.Move v) ∧
    (instrLine bnds (Op.Move v)).all isWsChar = false ∧
    parse_line ln (tokenizeLine (instrLine bnds (Op.Move v))) st =
      .ok (st.addStmt ln (Op.Move v) none) := by
  obtain ⟨hcd, hcc⟩ := hexLit_fact' v (le_trans hwf (by norm_num))
  obtain ⟨hdne, hdall⟩ := cleanChunk_mem _ hcd
  have hmnc : cleanChunk "move".toList = true := by decide
  obtain ⟨hmne, hmnall⟩ := cleanChunk_mem _ hmnc
  have hline : instrLine bnds (Op.Move v) =
      indentChars ++ ("move".toList ++ ' ' :: hexLit v) := by
    show indentChars ++ ("move ".toList ++ hexLit v) = _
    rw [show "move ".toList = "move".toList ++ [' '] from by decide,
        List.append_assoc]
    rfl
  refine ⟨?_, ?_, ?_⟩
  · rw [hline]
    apply trim_comment_eq_self
    intro c hc
    simp only [List.mem_append, List.mem_cons] at hc
    rcases hc with h | h | h | h
    · have h' := List.eq_of_mem_replicate h; subst h'; decide
    · exact (hmnall c h).2.2
    · subst h; decide
    · exact (hdall c h).2.2
  · rw [hline]
    apply not_all_ws _ 'm'
    · refine List.mem_append.mpr (Or.inr ?_)
      refine List.mem_append.mpr (Or.inl ?_)
      decide
    · decide
  · rw [hline, tokenizeLine_indent]
    rw [tokenizeLine_cons_word _ _ (fun c hc => (hmnall c hc).1) hmne]
    rw [splitCommas_noComma _ (fun c hc => (hmnall c hc).2.1) hmne]
    rw [tokenizeLine_word _ hdne (fun c hc => ⟨(hdall c hc).1, (hdall c hc).2.1⟩)]
    rw [hcc]
    simp only [List.map_cons, List.map_nil, List.cons_append, List.nil_append]
    rw [show classifyChunk "move".toList = Tok.mnemonicMove from by decide]
    simp [parse_line, expectDir, expectNumber, expectEnd, Bind.bind, Except.bind, hwf]

theorem printed_jump (bnds : List Nat) (ln : Nat) (st : P1State)
    (v : Nat) (hwf : v ≤ 0xFF) :
    trim_comment (instrLine bnds (Op.Jump v)) = instrLine bnds (Op.Jump v) ∧
    (instrLine bnds (Op.Jump v)).all isWsChar = false ∧
    parse_line ln (tokenizeLine (instrLine bnds (Op.Jump v))) st =
      .ok (st.addStmt ln (Op.Jump 0) (some (labelChars v))) := by
  obtain ⟨hcd, -, hcc, -⟩ := labelChars_fact' v hwf
  obtain ⟨hdne, hdall⟩ := cleanChunk_mem _ hcd
  have hmnc : cleanChunk "jump".toList = true := by decide
  obtain ⟨hmne, hmnall⟩ := cleanChunk_mem _ hmnc
  have hline : instrLine bnds (Op.Jump v) =
      indentChars ++ ("jump".toList ++ ' ' :: labelChars v) := by
    show indentChars ++ ("jump ".toList ++ labelChars v) = _
    rw [show "jump ".toList = "jump".toList ++ [' '] from by decide,
        List.append_assoc]
    rfl
  refine ⟨?_, ?_, ?_⟩
  · rw [hline]
    apply trim_comment_eq_self
    intro c hc
    simp only [List.mem_append, List.mem_cons] at hc
    rcases hc with h | h | h | h
    · have h' := List.eq_of_mem_replicate h; subst h'; decide
    · exact (hmnall c h).2.2
    · subst h; decide
    · exact (hdall c h).2.2
  · rw [hline]
    apply not_all_ws _ 'j'
    · refine List.mem_append.mpr (Or.inr ?_)
      refine List.mem_append.mpr (Or.inl ?_)
      decide
    · decide
  · rw [hline, tokenizeLine_indent]
    rw [tokenizeLine_cons_word _ _ (fun c hc => (hmnall c hc).1) hmne]
    rw [splitCommas_noComma _ (fun c hc => (hmnall c hc).2.1) hmne]
    rw [tokenizeLine_word _ hdne (fun c hc => ⟨(hdall c hc).1, (hdall c hc).2.1⟩)]
    rw [hcc]
    simp only [List.map_cons, List.map_nil, List.cons_append, List.nil_append]
    rw [show classifyChunk "jump".toList = Tok.mnemonicJump from by decide]
    simp [parse_line, expectLabelRef, expectEnd, Bind.bind, Except.bind]

theorem printed_setSleepTimer (bnds : List Nat) (ln : Nat) (st : P1State)
    (v : Nat) (hwf : v ≤ 0xF) :
    trim_comment (instrLine bnds (Op.SetSleepTimer v)) = instrLine bnds (Op.SetSleepTimer v) ∧
    (instrLine bnds (Op.SetSleepTimer v)).all isWsChar = false ∧
    parse_line ln (tokenizeLine (instrLine bnds (Op.SetSleepTimer v))) st =
      .ok (st.addStmt ln (Op.SetSleepTimer v) none) := by
  obtain ⟨hcd, hcc⟩ := decChars_fact' v (le_trans hwf (by norm_num))
  obtain ⟨hdne, hdall⟩ := cleanChunk_mem _ hcd
  have hmnc : cleanChunk "set_sleep_timer".toList = true := by decide
  obtain ⟨hmne, hmnall⟩ := cleanChunk_mem _ hmnc
  have hline : instrLine bnds (Op.SetSleepTimer v) =
      indentChars ++ ("set_sleep_timer".toList ++ ' ' :: decChars v) := by
    show indentChars ++ ("set_sleep_timer ".toList ++ decChars v) = _
    rw [show "set_sleep_timer ".toList = "set_sleep_timer".toList ++ [' '] from by decide,
        List.append_assoc]
    rfl
  refine ⟨?_, ?_, ?_⟩
  · rw [hline]
    apply trim_comment_eq_self
    intro c hc
    simp only [List.mem_append, List.mem_cons] at hc
    rcases hc with h | h | h | h
    · have h' := List.eq_of_mem_replicate h; subst h'; decide
    · exact (hmnall c h).2.2
    · subst h; decide
    · exact (hdall c h).2.2
  · rw [hline]
    apply not_all_ws _ 's'
    · refine List.mem_append.mpr (Or.inr ?_)
      refine List.mem_append.mpr (Or.inl ?_)
      decide
    · decide
  · rw [hline, tokenizeLine_indent]
    rw [tokenizeLine_cons_word _ _ (fun c hc => (hmnall c hc).1) hmne]
    rw [splitCommas_noComma _ (fun c hc => (hmnall c hc).2.1) hmne]
    rw [tokenizeLine_word _ hdne (fun c hc => ⟨(hdall c hc).1, (hdall c hc).2.1⟩)]
    rw [hcc]
    simp only [List.map_cons, List.map_nil, List.cons_append, List.nil_append]
    rw [show classifyChunk "set_sleep_timer".toList = Tok.mnemonicSetSleepTimer from by decide]
    simp [parse_line, expectNibble, expectNumber, expectEnd, Bind.bind, Except.bind, hwf]

theorem printed_loopBegin (bnds : List Nat) (ln : Nat) (st : P1State)
    (v : Nat) (hwf : v ≤ 0xF ∧ v ≠ 1) :
    trim_comment (instrLine bnds (Op.LoopBegin v)) = instrLine bnds (Op.LoopBegin v) ∧
    (instrLine bnds (Op.LoopBegin v)).all isWsChar = false ∧
    parse_line ln (tokenizeLine (instrLine bnds (Op.LoopBegin v))) st =
      .ok (st.addStmt ln (Op.LoopBegin v) none) := by
  obtain ⟨hcd, hcc⟩ := decChars_fact' v (le_trans hwf.1 (by norm_num))
  obtain ⟨hdne, hdall⟩ := cleanChunk_mem _ hcd
  have hmnc : cleanChunk "loop_begin".toList = true := by decide
  obtain ⟨hmne, hmnall⟩ := cleanChunk_mem _ hmnc
  have hline : instrLine bnds (Op.LoopBegin v) =
      indentChars ++ ("loop_begin".toList ++ ' ' :: decChars v) := by
    show indentChars ++ ("loop_begin ".toList ++ decChars v) = _
    rw [show "loop_begin ".toList = "loop_begin".toList ++ [' '] from by decide,
        List.append_assoc]
    rfl
  refine ⟨?_, ?_, ?_⟩
  · rw [hline]
    apply trim_comment_eq_self
    intro c hc
    simp only [List.mem_append, List.mem_cons] at hc
    rcases hc with h | h | h | h
    · have h' := List.eq_of_mem_replicate h; subst h'; decide
    · exact (hmnall c h).2.2
    · subst h; decide
    · exact (hdall c h).2.2
  · rw [hline]
    apply not_all_ws _ 'l'
    · refine List.mem_append.mpr (Or.inr ?_)
      refine List.mem_append.mpr (Or.inl ?_)
      decide
    · decide
  · rw [hline, tokenizeLine_indent]
    rw [tokenizeLine_cons_word _ _ (fun c hc => (hmnall c hc).1) hmne]
    rw [splitCommas_noComma _ (fun c hc => (hmnall c hc).2.1) hmne]
    rw [tokenizeLine_word _ hdne (fun c hc => ⟨(hdall c hc).1, (hdall c hc).2.1⟩)]
    rw [hcc]
    simp only [List.map_cons, List.map_nil, List.cons_append, List.nil_append]
    rw [show classifyChunk "loop_begin".toList = Tok.mnemonicLoopBegin from by decide]
    simp [parse_line, expectLoopIdx, expectNumber, expectEnd, Bind.bind, Except.bind, hwf.1, hwf.2]

theorem printed_shootDirection (bnds : List Nat) (ln : Nat) (st : P1State)
    (v : Nat) (hwf : v ≤ 0xF) :
    trim_comment (instrLine bnds (Op.ShootDirection v)) = instrLine bnds (Op.ShootDirection v) ∧
    (instrLine bnds (Op.ShootDirection v)).all isWsChar = false ∧
    parse_line ln (tokenizeLine (instrLine bnds (Op.ShootDirection v))) st =
      .ok (st.addStmt ln (Op.ShootDirection v) none) := by
  obtain ⟨hcd, hcc⟩ := hexLit_fact' v (le_trans hwf (by norm_num))
  obtain ⟨hdne, hdall⟩ := cleanChunk_mem _ hcd
  have hmnc : cleanChunk "shoot_direction".toList = true := by decide
  obtain ⟨hmne, hmnall⟩ := cleanChunk_mem _ hmnc
  have hline : instrLine bnds (Op.ShootDirection v) =
      indentChars ++ ("shoot_direction".toList ++ ' ' :: hexLit v) := by
    show indentChars ++ ("shoot_direction ".toList ++ hexLit v) = _
    rw [show "shoot_direction ".toList = "shoot_direction".toList ++ [' '] from by decide,
        List.append_assoc]
    rfl
  refine ⟨?_, ?_, ?_⟩
  · rw [hline]
    apply trim_comment_eq_self
    intro c hc
    simp only [List.mem_append, List.mem_cons] at hc
    rcases hc with h | h | h | h
    · have h' := List.eq_of_mem_replicate h; subst h'; decide
    · exact (hmnall c h).2.2
    · subst h; decide
    · exact (hdall c h).2.2
  · rw [hline]
    apply not_all_ws _ 's'
    · refine List.mem_append.mpr (Or.inr ?_)
      refine List.mem_append.mpr (Or.inl ?_)
      decide
    · decide
  · rw [hline, tokenizeLine_indent]
    rw [tokenizeLine_cons_word _ _ (fun c hc => (hmnall c hc).1) hmne]
    rw [splitCommas_noComma _ (fun c hc => (hmnall c hc).2.1) hmne]
    rw [tokenizeLine_word _ hdne (fun c hc => ⟨(hdall c hc).1, (hdall c hc).2.1⟩)]
    rw [hcc]
    simp only [List.map_cons, List.map_nil, List.cons_append, List.nil_append]
    rw [show classifyChunk "shoot_direction".toList = Tok.mnemonicShootDirection from by decide]
    simp [parse_line, expectDirShoot, expectNumber, expectEnd, Bind.bind, Except.bind, hwf]

theorem printed_setHomingTimer (bnds : List Nat) (ln : Nat) (st : P1State)
    (v : Nat) (hwf : v ≤ 0xF) :
    trim_comment (instrLine bnds (Op.SetHomingTimer v)) = instrLine bnds (Op.SetHomingTimer v) ∧
    (instrLine bnds (Op.SetHomingTimer v)).all isWsChar = false ∧
    parse_line ln (tokenizeLine (instrLine bnds (Op.SetHomingTimer v))) st =
      .ok (st.addStmt ln (Op.SetHomingTimer v) none) := by
  obtain ⟨hcd, hcc⟩ := decChars_fact' v (le_trans hwf (by norm_num))
  obtain ⟨hdne, hdall⟩ := cleanChunk_mem _ hcd
  have hmnc : cleanChunk "set_homing_timer".toList = true := by decide
  obtain ⟨hmne, hmnall⟩ := cleanChunk_mem _ hmnc
  have hline : instrLine bnds (Op.SetHomingTimer v) =
      indentChars ++ ("set_homing_timer".toList ++ ' ' :: decChars v) := by
    show indentChars ++ ("set_homing_timer ".toList ++ decChars v) = _
    rw [show "set_homing_timer ".toList = "set_homing_timer".toList ++ [' '] from by decide,
        List.append_assoc]
    rfl
  refine ⟨?_, ?_, ?_⟩
  · rw [hline]
    apply trim_comment_eq_self
    intro c hc
    simp only [List.mem_append, List.mem_cons] at hc
    rcases hc with h | h | h | h
    · have h' := List.eq_of_mem_replicate h; subst h'; decide
    · exact (hmnall c h).2.2
    · subst h; decide
    · exact (hdall c h).2.2
  · rw [hline]
    apply not_all_ws _ 's'
    · refine List.mem_append.mpr (Or.inr ?_)
      refine List.mem_append.mpr (Or.inl ?_)
      decide
    · decide
  · rw [hline, tokenizeLine_indent]
    rw [tokenizeLine_cons_word _ _ (fun c hc => (hmnall c hc).1) hmne]
    rw [splitCommas_noComma _ (fun c hc => (hmnall c hc).2.1) hmne]
    rw [tokenizeLine_word _ hdne (fun c hc => ⟨(hdall c hc).1, (hdall c hc).2.1⟩)]
    rw [hcc]
    simp only [List.map_cons, List.map_nil, List.cons_append, List.nil_append]
    rw [show classifyChunk "set_homing_timer".toList = Tok.mnemonicSetHomingTimer from by decide]
    simp [parse_line, expectNibble, expectNumber, expectEnd, Bind.bind, Except.bind, hwf]

theorem printed_setHealth (bnds : List Nat) (ln : Nat) (st : P1State)
    (v : Nat) (hwf : v ≤ 0xFF) :
    trim_comment (instrLine bnds (Op.SetHealth v)) = instrLine bnds (Op.SetHealth v) ∧
    (instrLine bnds (Op.SetHealth v)).all isWsChar = false ∧
    parse_line ln (tokenizeLine (instrLine bnds (Op.SetHealth v))) st =
      .ok (st.addStmt ln (Op.SetJumpOnDamage v) none) := by
  obtain ⟨hcd, hcc⟩ := decChars_fact' v hwf
  obtain ⟨hdne, hdall⟩ := cleanChunk_mem _ hcd
  have hmnc : cleanChunk "set_health".toList = true := by decide
  obtain ⟨hmne, hmnall⟩ := cleanChunk_mem _ hmnc
  have hline : instrLine bnds (Op.SetHealth v) =
      indentChars ++ ("set_health".toList ++ ' ' :: decChars v) := by
    show indentChars ++ ("set_health ".toList ++ decChars v) = _
    rw [show "set_health ".toList = "set_health".toList ++ [' '] from by decide,
        List.append_assoc]
    rfl
  refine ⟨?_, ?_, ?_⟩
  · rw [hline]
    apply trim_comment_eq_self
    intro c hc
    simp only [List.mem_append, List.mem_cons] at hc
    rcases hc with h | h | h | h
    · have h' := List.eq_of_mem_replicate h; subst h'; decide
    · exact (hmnall c h).2.2
    · subst h; decide
    · exact (hdall c h).2.2
  · rw [hline]
    apply not_all_ws _ 's'
    · refine List.mem_append.mpr (Or.inr ?_)
      refine List.mem_append.mpr (Or.inl ?_)
      decide
    · decide
  · rw [hline, tokenizeLine_indent]
    rw [tokenizeLine_cons_word _ _ (fun c hc => (hmnall c hc).1) hmne]
    rw [splitCommas_noComma _ (fun c hc => (hmnall c hc).2.1) hmne]
    rw [tokenizeLine_word _ hdne (fun c hc => ⟨(hdall c hc).1, (hdall c hc).2.1⟩)]
    rw [hcc]
    simp only [List.map_cons, List.map_nil, List.cons_append, List.nil_append]
    rw [show classifyChunk "set_health".toList = Tok.mnemonicSetHealth from by decide]
    simp [parse_line, expectNumber, expectEnd, Bind.bind, Except.bind]

theorem printed_setPart (bnds : List Nat) (ln : Nat) (st : P1State)
    (v : Nat) (hwf : v ≤ 0xFF) :
    trim_comment (instrLine bnds (Op.SetPart v)) = instrLine bnds (Op.SetPart v) ∧
    (instrLine bnds (Op.SetPart v)).all isWsChar = false ∧
    parse_line ln (tokenizeLine (instrLine bnds (Op.SetPart v))) st =
      .ok (st.addStmt ln (Op.SetPart v) none) := by
  obtain ⟨hcd, hcc⟩ := decChars_fact' v hwf
  obtain ⟨hdne, hdall⟩ := cleanChunk_mem _ hcd
  have hmnc : cleanChunk "set_part".toList = true := by decide
  obtain ⟨hmne, hmnall⟩ := cleanChunk_mem _ hmnc
  have hline : instrLine bnds (Op.SetPart v) =
      indentChars ++ ("set_part".toList ++ ' ' :: decChars v) := by
    show indentChars ++ ("set_part ".toList ++ decChars v) = _
    rw [show "set_part ".toList = "set_part".toList ++ [' '] from by decide,
        List.append_assoc]
    rfl
  refine ⟨?_, ?_, ?_⟩
  · rw [hline]
    apply trim_comment_eq_self
    intro c hc
    simp only [List.mem_append, List.mem_cons] at hc
    rcases hc with h | h | h | h
    · have h' := List.eq_of_mem_replicate h; subst h'; decide
    · exact (hmnall c h).2.2
    · subst h; decide
    · exact (hdall c h).2.2
  · rw [hline]
    apply not_all_ws _ 's'
    · refine List.mem_append.mpr (Or.inr ?_)
      refine List.mem_append.mpr (Or.inl ?_)
      decide
    · decide
  · rw [hline, tokenizeLine_indent]
    rw [tokenizeLine_cons_word _ _ (fun c hc => (hmnall c hc).1) hmne]
    rw [splitCommas_noComma _ (fun c hc => (hmnall c hc).2.1) hmne]
    rw [tokenizeLine_word _ hdne (fun c hc => ⟨(hdall c hc).1, (hdall c hc).2.1⟩)]
    rw [hcc]
    simp only [List.map_cons, List.map_nil, List.cons_append, List.nil_append]
    rw [show classifyChunk "set_part".toList = Tok.mnemonicSetPart from by decide]
    simp [parse_line, expectNumber, expectEnd, Bind.bind, Except.bind]

theorem printed_randomizeX (bnds : List Nat) (ln : Nat) (st : P1State)
    (v : Nat) (hwf : v ≤ 0xFF) :
    trim_comment (instrLine bnds (Op.RandomizeX v)) = instrLine bnds (Op.RandomizeX v) ∧
    (instrLine bnds (Op.RandomizeX v)).all isWsChar = false ∧
    parse_line ln (tokenizeLine (instrLine bnds (Op.RandomizeX v))) st =
      .ok (st.addStmt ln (Op.RandomizeX v) none) := by
  obtain ⟨hcd, hcc⟩ := hexLit_fact' v hwf
  obtain ⟨hdne, hdall⟩ := cleanChunk_mem _ hcd
  have hmnc : cleanChunk "randomize_x".toList = true := by decide
  obtain ⟨hmne, hmnall⟩ := cleanChunk_mem _ hmnc
  have hline : instrLine bnds (Op.RandomizeX v) =
      indentChars ++ ("randomize_x".toList ++ ' ' :: hexLit v) := by
    show indentChars ++ ("randomize_x ".toList ++ hexLit v) = _
    rw [show "randomize_x ".toList = "randomize_x".toList ++ [' '] from by decide,
        List.append_assoc]
    rfl
  refine ⟨?_, ?_, ?_⟩
  · rw [hline]
    apply trim_comment_eq_self
    intro c hc
    simp only [List.mem_append, List.mem_cons] at hc
    rcases hc with h | h | h | h
    · have h' := List.eq_of_mem_replicate h; subst h'; decide
    · exact (hmnall c h).2.2
    · subst h; decide
    · exact (hdall c h).2.2
  · rw [hline]
    apply not_all_ws _ 'r'
    · refine List.mem_append.mpr (Or.inr ?_)
      refine List.mem_append.mpr (Or.inl ?_)
      decide
    · decide
  · rw [hline, tokenizeLine_indent]
    rw [tokenizeLine_cons_word _ _ (fun c hc => (hmnall c hc).1) hmne]
    rw [splitCommas_noComma _ (fun c hc => (hmnall c hc).2.1) hmne]
    rw [tokenizeLine_word _ hdne (fun c hc => ⟨(hdall c hc).1, (hdall c hc).2.1⟩)]
    rw [hcc]
    simp only [List.map_cons, List.map_nil, List.cons_append, List.nil_append]
    rw [show classifyChunk "randomize_x".toList = Tok.mnemonicRandomizeX from by decide]
    simp [parse_line, expectNumber, expectEnd, Bind.bind, Except.bind]

theorem printed_randomizeY (bnds : List Nat) (ln : Nat) (st : P1State)
    (v : Nat) (hwf : v ≤ 0xFF) :
    trim_comment (instrLine bnds (Op.RandomizeY v)) = instrLine bnds (Op.RandomizeY v) ∧
    (instrLine bnds (Op.RandomizeY v)).all isWsChar = false ∧
    parse_line ln (tokenizeLine (instrLine bnds (Op.RandomizeY v))) st =
      .ok (st.addStmt ln (Op.RandomizeY v) none) := by
  obtain ⟨hcd, hcc⟩ := hexLit_fact' v hwf
  obtain ⟨hdne, hdall⟩ := cleanChunk_mem _ hcd
  have hmnc : cleanChunk "randomize_y".toList = true := by decide
  obtain ⟨hmne, hmnall⟩ := cleanChunk_mem _ hmnc
  have hline : instrLine bnds (Op.RandomizeY v) =
      indentChars ++ ("randomize_y".toList ++ ' ' :: hexLit v) := by
    show indentChars ++ ("randomize_y ".toList ++ hexLit v) = _
    rw [show "randomize_y ".toList = "randomize_y".toList ++ [' '] from by decide,
        List.append_assoc]
    rfl
  refine ⟨?_, ?_, ?_⟩
  · rw [hline]
    apply trim_comment_eq_self
    intro c hc
    simp only [List.mem_append, List.mem_cons] at hc
    rcases hc with h | h | h | h
    · have h' := List.eq_of_mem_replicate h; subst h'; decide
    · exact (hmnall c h).2.2
    · subst h; decide
    · exact (hdall c h).2.2
  · rw [hline]
    apply not_all_ws _ 'r'
    · refine List.mem_append.mpr (Or.inr ?_)
      refine List.mem_append.mpr (Or.inl ?_)
      decide
    · decide
  · rw [hline, tokenizeLine_indent]
    rw [tokenizeLine_cons_word _ _ (fun c hc => (hmnall c hc).1) hmne]
    rw [splitCommas_noComma _ (fun c hc => (hmnall c hc).2.1) hmne]
    rw [tokenizeLine_word _ hdne (fun c hc => ⟨(hdall c hc).1, (hdall c hc).2.1⟩)]
    rw [hcc]
    simp only [List.map_cons, List.map_nil, List.cons_append, List.nil_append]
    rw [show classifyChunk "randomize_y".toList = Tok.mnemonicRandomizeY from by decide]
    simp [parse_line, expectNumber, expectEnd, Bind.bind, Except.bind]

theorem printed_bccX (bnds : List Nat) (ln : Nat) (st : P1State)
    (v : Nat) (hwf : v ≤ 0xFF) :
    trim_comment (instrLine bnds (Op.BccX v)) = instrLine bnds (Op.BccX v) ∧
    (instrLine bnds (Op.BccX v)).all isWsChar = false ∧
    parse_line ln (tokenizeLine (instrLine bnds (Op.BccX v))) st =
      .ok (st.addStmt ln (Op.BccX 0) (some (labelChars v))) := by
  obtain ⟨hcd, -, hcc, -⟩ := labelChars_fact' v hwf
  obtain ⟨hdne, hdall⟩ := cleanChunk_mem _ hcd
  have hmnc : cleanChunk "bcc_x".toList = true := by decide
  obtain ⟨hmne, hmnall⟩ := cleanChunk_mem _ hmnc
  have hline : instrLine bnds (Op.BccX v) =
      indentChars ++ ("bcc_x".toList ++ ' ' :: labelChars v) := by
    show indentChars ++ ("bcc_x ".toList ++ labelChars v) = _
    rw [show "bcc_x ".toList = "bcc_x".toList ++ [' '] from by decide,
        List.append_assoc]
    rfl
  refine ⟨?_, ?_, ?_⟩
  · rw [hline]
    apply trim_comment_eq_self
    intro c hc
    simp only [List.mem_append, List.mem_cons] at hc
    rcases hc with h | h | h | h
    · have h' := List.eq_of_mem_replicate h; subst h'; decide
    · exact (hmnall c h).2.2
    · subst h; decide
    · exact (hdall c h).2.2
  · rw [hline]
    apply not_all_ws _ 'b'
    · refine List.mem_append.mpr (Or.inr ?_)
      refine List.mem_append.mpr (Or.inl ?_)
      decide
    · decide
  · rw [hline, tokenizeLine_indent]
    rw [tokenizeLine_cons_word _ _ (fun c hc => (hmnall c hc).1) hmne]
    rw [splitCommas_noComma _ (fun c hc => (hmnall c hc).2.1) hmne]
    rw [tokenizeLine_word _ hdne (fun c hc => ⟨(hdall c hc).1, (hdall c hc).2.1⟩)]
    rw [hcc]
    simp only [List.map_cons, List.map_nil, List.cons_append, List.nil_append]
    rw [show classifyChunk "bcc_x".toList = Tok.mnemonicBccX from by decide]
    simp [parse_line, expectLabelRef, expectEnd, Bind.bind, Except.bind]

theorem printed_bcsX (bnds : List Nat) (ln : Nat) (st : P1State)
    (v : Nat) (hwf : v ≤ 0xFF) :
    trim_comment (instrLine bnds (Op.BcsX v)) = instrLine bnds (Op.BcsX v) ∧
    (instrLine bnds (Op.BcsX v)).all isWsChar = false ∧
    parse_line ln (tokenizeLine (instrLine bnds (Op.BcsX v))) st =
      .ok (st.addStmt ln (Op.BcsX 0) (some (labelChars v))) := by
  obtain ⟨hcd, -, hcc, -⟩ := labelChars_fact' v hwf
  obtain ⟨hdne, hdall⟩ := cleanChunk_mem _ hcd
  have hmnc : cleanChunk "bcs_x".toList = true := by decide
  obtain ⟨hmne, hmnall⟩ := cleanChunk_mem _ hmnc
  have hline : instrLine bnds (Op.BcsX v) =
      indentChars ++ ("bcs_x".toList ++ ' ' :: labelChars v) := by
    show indentChars ++ ("bcs_x ".toList ++ labelChars v) = _
    rw [show "bcs_x ".toList = "bcs_x".toList ++ [' '] from by decide,
        List.append_assoc]
    rfl
  refine ⟨?_, ?_, ?_⟩
  · rw [hline]
    apply trim_comment_eq_self
    intro c hc
    simp only [List.mem_append, List.mem_cons] at hc
    rcases hc with h | h | h | h
    · have h' := List.eq_of_mem_replicate h; subst h'; decide
    · exact (hmnall c h).2.2
    · subst h; decide
    · exact (hdall c h).2.2
  · rw [hline]
    apply not_all_ws _ 'b'
    · refine List.mem_append.mpr (Or.inr ?_)
      refine List.mem_append.mpr (Or.inl ?_)
      decide
    · decide
  · rw [hline, tokenizeLine_indent]
    rw [tokenizeLine_cons_word _ _ (fun c hc => (hmnall c hc).1) hmne]
    rw [splitCommas_noComma _ (fun c hc => (hmnall c hc).2.1) hmne]
    rw [tokenizeLine_word _ hdne (fun c hc => ⟨(hdall c hc).1, (hdall c hc).2.1⟩)]
    rw [hcc]
    simp only [List.map_cons, List.map_nil, List.cons_append, List.nil_append]
    rw [show classifyChunk "bcs_x".toList = Tok.mnemonicBcsX from by decide]
    simp [parse_line, expectLabelRef, expectEnd, Bind.bind, Except.bind]

theorem printed_bccY (bnds : List Nat) (ln : Nat) (st : P1State)
    (v : Nat) (hwf : v ≤ 0xFF) :
    trim_comment (instrLine bnds (Op.BccY v)) = instrLine bnds (Op.BccY v) ∧
    (instrLine bnds (Op.BccY v)).all isWsChar = false ∧
    parse_line ln (tokenizeLine (instrLine bnds (Op.BccY v))) st =
      .ok (st.addStmt ln (Op.BccY 0) (some (labelChars v))) := by
  obtain ⟨hcd, -, hcc, -⟩ := labelChars_fact' v hwf
  obtain ⟨hdne, hdall⟩ := cleanChunk_mem _ hcd
  have hmnc : cleanChunk "bcc_y".toList = true := by decide
  obtain ⟨hmne, hmnall⟩ := cleanChunk_mem _ hmnc
  have hline : instrLine bnds (Op.BccY v) =
      indentChars ++ ("bcc_y".toList ++ ' ' :: labelChars v) := by
    show indentChars ++ ("bcc_y ".toList ++ labelChars v) = _
    rw [show "bcc_y ".toList = "bcc_y".toList ++ [' '] from by decide,
        List.append_assoc]
    rfl
  refine ⟨?_, ?_, ?_⟩
  · rw [hline]
    apply trim_comment_eq_self
    intro c hc
    simp only [List.mem_append, List.mem_cons] at hc
    rcases hc with h | h | h | h
    · have h' := List.eq_of_mem_replicate h; subst h'; decide
    · exact (hmnall c h).2.2
    · subst h; decide
    · exact (hdall c h).2.2
  · rw [hline]
    apply not_all_ws _ 'b'
    · refine List.mem_append.mpr (Or.inr ?_)
      refine List.mem_append.mpr (Or.inl ?_)
      decide
    · decide
  · rw [hline, tokenizeLine_indent]
    rw [tokenizeLine_cons_word _ _ (fun c hc => (hmnall c hc).1) hmne]
    rw [splitCommas_noComma _ (fun c hc => (hmnall c hc).2.1) hmne]
    rw [tokenizeLine_word _ hdne (fun c hc => ⟨(hdall c hc).1, (hdall c hc).2.1⟩)]
    rw [hcc]
    simp only [List.map_cons, List.map_nil, List.cons_append, List.nil_append]
    rw [show classifyChunk "bcc_y".toList = Tok.mnemonicBccY from by decide]
    simp [parse_line, expectLabelRef, expectEnd, Bind.bind, Except.bind]

theorem printed_bcsY (bnds : List Nat) (ln : Nat) (st : P1State)
    (v : Nat) (hwf : v ≤ 0xFF) :
    trim_comment (instrLine bnds (Op.BcsY v)) = instrLine bnds (Op.BcsY v) ∧
    (instrLine bnds (Op.BcsY v)).all isWsChar = false ∧
    parse_line ln (tokenizeLine (instrLine bnds (Op.BcsY v))) st =
      .ok (st.addStmt ln (Op.BcsY 0) (some (labelChars v))) := by
  obtain ⟨hcd, -, hcc, -⟩ := labelChars_fact' v hwf
  obtain ⟨hdne, hdall⟩ := cleanChunk_mem _ hcd
  have hmnc : cleanChunk "bcs_y".toList = true := by decide
  obtain ⟨hmne, hmnall⟩ := cleanChunk_mem _ hmnc
  have hline : instrLine bnds (Op.BcsY v) =
      indentChars ++ ("bcs_y".toList ++ ' ' :: labelChars v) := by
    show indentChars ++ ("bcs_y ".toList ++ labelChars v) = _
    rw [show "bcs_y ".toList = "bcs_y".toList ++ [' '] from by decide,
        List.append_assoc]
    rfl
  refine ⟨?_, ?_, ?_⟩
  · rw [hline]
    apply trim_comment_eq_self
    intro c hc
    simp only [List.mem_append, List.mem_cons] at hc
    rcases hc with h | h | h | h
    · have h' := List.eq_of_mem_replicate h; subst h'; decide
    · exact (hmnall c h).2.2
    · subst h; decide
    · exact (hdall c h).2.2
  · rw [hline]
    apply not_all_ws _ 'b'
    · refine List.mem_append.mpr (Or.inr ?_)
      refine List.mem_append.mpr (Or.inl ?_)
      decide
    · decide
  · rw [hline, tokenizeLine_indent]
    rw [tokenizeLine_cons_word _ _ (fun c hc => (hmnall c hc).1) hmne]
    rw [splitCommas_noComma _ (fun c hc => (hmnall c hc).2.1) hmne]
    rw [tokenizeLine_word _ hdne (fun c hc => ⟨(hdall c hc).1, (hdall c hc).2.1⟩)]
    rw [hcc]
    simp only [List.map_cons, List.map_nil, List.cons_append, List.nil_append]
    rw [show classifyChunk "bcs_y".toList = Tok.mnemonicBcsY from by decide]
    simp [parse_line, expectLabelRef, expectEnd, Bind.bind, Except.bind]

theorem printed_shootAim (bnds : List Nat) (ln : Nat) (st : P1State)
    (v : Nat) (hwf : v ≤ 0xF) :
    trim_comment (instrLine bnds (Op.ShootAim v)) = instrLine bnds (Op.ShootAim v) ∧
    (instrLine bnds (Op.ShootAim v)).all isWsChar = false ∧
    parse_line ln (tokenizeLine (instrLine bnds (Op.ShootAim v))) st =
      .ok (st.addStmt ln (Op.ShootAim v) none) := by
  obtain ⟨hcd, hcc⟩ := decChars_fact' v (le_trans hwf (by norm_num))
  obtain ⟨hdne, hdall⟩ := cleanChunk_mem _ hcd
  have hmnc : cleanChunk "shoot_aim".toList = true := by decide
  obtain ⟨hmne, hmnall⟩ := cleanChunk_mem _ hmnc
  have hline : instrLine bnds (Op.ShootAim v) =
      indentChars ++ ("shoot_aim".toList ++ ' ' :: decChars v) := by
    show indentChars ++ ("shoot_aim ".toList ++ decChars v) = _
    rw [show "shoot_aim ".toList = "shoot_aim".toList ++ [' '] from by decide,
        List.append_assoc]
    rfl
  refine ⟨?_, ?_, ?_⟩
  · rw [hline]
    apply trim_comment_eq_self
    intro c hc
    simp only [List.mem_append, List.mem_cons] at hc
    rcases hc with h | h | h | h
    · have h' := List.eq_of_mem_replicate h; subst h'; decide
    · exact (hmnall c h).2.2
    · subst h; decide
    · exact (hdall c h).2.2
  · rw [hline]
    apply not_all_ws _ 's'
    · refine List.mem_append.mpr (Or.inr ?_)
      refine List.mem_append.mpr (Or.inl ?_)
      decide
    · decide
  · rw [hline, tokenizeLine_indent]
    rw [tokenizeLine_cons_word _ _ (fun c hc => (hmnall c hc).1) hmne]
    rw [splitCommas_noComma _ (fun c hc => (hmnall c hc).2.1) hmne]
    rw [tokenizeLine_word _ hdne (fun c hc => ⟨(hdall c hc).1, (hdall c hc).2.1⟩)]
    rw [hcc]
    simp only [List.map_cons, List.map_nil, List.cons_append, List.nil_append]
    rw [show classifyChunk "shoot_aim".toList = Tok.mnemonicShootAim from by decide]
    simp [parse_line, expectNibble, expectNumber, expectEnd, Bind.bind, Except.bind, hwf]

theorem printed_changeMusic (bnds : List Nat) (ln : Nat) (st : P1State)
    (v : Nat) (hwf : v ≤ 0xF) :
    trim_comment (instrLine bnds (Op.ChangeMusic v)) = instrLine bnds (Op.ChangeMusic v) ∧
    (instrLine bnds (Op.ChangeMusic v)).all isWsChar = false ∧
    parse_line ln (tokenizeLine (instrLine bnds (Op.ChangeMusic v))) st =
      .ok (st.addStmt ln (Op.ChangeMusic v) none) := by
  obtain ⟨hcd, hcc⟩ := decChars_fact' v (le_trans hwf (by norm_num))
  obtain ⟨hdne, hdall⟩ := cleanChunk_mem _ hcd
  have hmnc : cleanChunk "change_music".toList = true := by decide
  obtain ⟨hmne, hmnall⟩ := cleanChunk_mem _ hmnc
  have hline : instrLine bnds (Op.ChangeMusic v) =
      indentChars ++ ("change_music".toList ++ ' ' :: decChars v) := by
    show indentChars ++ ("change_music ".toList ++ decChars v) = _
    rw [show "change_music ".toList = "change_music".toList ++ [' '] from by decide,
        List.append_assoc]
    rfl
  refine ⟨?_, ?_, ?_⟩
  · rw [hline]
    apply trim_comment_eq_self
    intro c hc
    simp only [List.mem_append, List.mem_cons] at hc
    rcases hc with h | h | h | h
    · have h' := List.eq_of_mem_replicate h; subst h'; decide
    · exact (hmnall c h).2.2
    · subst h; decide
    · exact (hdall c h).2.2
  · rw [hline]
    apply not_all_ws _ 'c'
    · refine List.mem_append.mpr (Or.inr ?_)
      refine List.mem_append.mpr (Or.inl ?_)
      decide
    · decide
  · rw [hline, tokenizeLine_indent]
    rw [tokenizeLine_cons_word _ _ (fun c hc => (hmnall c hc).1) hmne]
    rw [splitCommas_noComma _ (fun c hc => (hmnall c hc).2.1) hmne]
    rw [tokenizeLine_word _ hdne (fun c hc => ⟨(hdall c hc).1, (hdall c hc).2.1⟩)]
    rw [hcc]
    simp only [List.map_cons, List.map_nil, List.cons_append, List.nil_append]
    rw [show classifyChunk "change_music".toList = Tok.mnemonicChangeMusic from by decide]
    simp [parse_line, expectNibble, expectNumber, expectEnd, Bind.bind, Except.bind, hwf]


theorem printed_sjod_in (bnds : List Nat) (ln : Nat) (st : P1State)
    (v : Nat) (hwf : v ≤ 0xFF) (hmem : v ∈ bnds) :
    trim_comment (instrLine bnds (Op.SetJumpOnDamage v)) = instrLine bnds (Op.SetJumpOnDamage v) ∧
    (instrLine bnds (Op.SetJumpOnDamage v)).all isWsChar = false ∧
    parse_line ln (tokenizeLine (instrLine bnds (Op.SetJumpOnDamage v))) st =
      .ok (st.addStmt ln (Op.SetJumpOnDamage 0xFF) (some (labelChars v))) := by
  obtain ⟨hcd, -, hcc, -⟩ := labelChars_fact' v hwf
  obtain ⟨hdne, hdall⟩ := cleanChunk_mem _ hcd
  have hmnc : cleanChunk "set_jump_on_damage".toList = true := by decide
  obtain ⟨hmne, hmnall⟩ := cleanChunk_mem _ hmnc
  have hline : instrLine bnds (Op.SetJumpOnDamage v) =
      indentChars ++ ("set_jump_on_damage".toList ++ ' ' :: labelChars v) := by
    show indentChars ++
        (if v ∈ bnds then "set_jump_on_damage ".toList ++ labelChars v
         else "set_health ".toList ++ decChars v) = _
    rw [if_pos hmem,
        show "set_jump_on_damage ".toList = "set_jump_on_damage".toList ++ [' '] from by decide,
        List.append_assoc]
    rfl
  refine ⟨?_, ?_, ?_⟩
  · rw [hline]
    apply trim_comment_eq_self
    intro c hc
    simp only [List.mem_append, List.mem_cons] at hc
    rcases hc with h | h | h | h
    · have h' := List.eq_of_mem_replicate h; subst h'; decide
    · exact (hmnall c h).2.2
    · subst h; decide
    · exact (hdall c h).2.2
  · rw [hline]
    apply not_all_ws _ 's'
    · refine List.mem_append.mpr (Or.inr ?_)
      refine List.mem_append.mpr (Or.inl ?_)
      decide
    · decide
  · rw [hline, tokenizeLine_indent]
    rw [tokenizeLine_cons_word _ _ (fun c hc => (hmnall c hc).1) hmne]
    rw [splitCommas_noComma _ (fun c hc => (hmnall c hc).2.1) hmne]
    rw [tokenizeLine_word _ hdne (fun c hc => ⟨(hdall c hc).1, (hdall c hc).2.1⟩)]
    rw [hcc]
    simp only [List.map_cons, List.map_nil, List.cons_append, List.nil_append]
    rw [show classifyChunk "set_jump_on_damage".toList = Tok.mnemonicSetJumpOnDamage from by decide]
    simp [parse_line, expectLabelRef, expectEnd, Bind.bind, Except.bind]

theorem printed_sjod_out (bnds : List Nat) (ln : Nat) (st : P1State)
    (v : Nat) (hwf : v ≤ 0xFF) (hmem : v ∉ bnds) :
    trim_comment (instrLine bnds (Op.SetJumpOnDamage v)) = instrLine bnds (Op.SetJumpOnDamage v) ∧
    (instrLine bnds (Op.SetJumpOnDamage v)).all isWsChar = false ∧
    parse_line ln (tokenizeLine (instrLine bnds (Op.SetJumpOnDamage v))) st =
      .ok (st.addStmt ln (Op.SetJumpOnDamage v) none) := by
  obtain ⟨hcd, hcc⟩ := decChars_fact' v hwf
  obtain ⟨hdne, hdall⟩ := cleanChunk_mem _ hcd
  have hmnc : cleanChunk "set_health".toList = true := by decide
  obtain ⟨hmne, hmnall⟩ := cleanChunk_mem _ hmnc
  have hline : instrLine bnds (Op.SetJumpOnDamage v) =
      indentChars ++ ("set_health".toList ++ ' ' :: decChars v) := by
    show indentChars ++
        (if v ∈ bnds then "set_jump_on_damage ".toList ++ labelChars v
         else "set_health ".toList ++ decChars v) = _
    rw [if_neg hmem,
        show "set_health ".toList = "set_health".toList ++ [' '] from by decide,
        List.append_assoc]
    rfl
  refine ⟨?_, ?_, ?_⟩
  · rw [hline]
    apply trim_comment_eq_self
    intro c hc
    simp only [List.mem_append, List.mem_cons] at hc
    rcases hc with h | h | h | h
    · have h' := List.eq_of_mem_replicate h; subst h'; decide
    · exact (hmnall c h).2.2
    · subst h; decide
    · exact (hdall c h).2.2
  · rw [hline]
    apply not_all_ws _ 's'
    · refine List.mem_append.mpr (Or.inr ?_)
      refine List.mem_append.mpr (Or.inl ?_)
      decide
    · decide
  · rw [hline, tokenizeLine_indent]
    rw [tokenizeLine_cons_word _ _ (fun c hc => (hmnall c hc).1) hmne]
    rw [splitCommas_noComma _ (fun c hc => (hmnall c hc).2.1) hmne]
    rw [tokenizeLine_word _ hdne (fun c hc => ⟨(hdall c hc).1, (hdall c hc).2.1⟩)]
    rw [hcc]
    simp only [List.map_cons, List.map_nil, List.cons_append, List.nil_append]
    rw [show classifyChunk "set_health".toList = Tok.mnemonicSetHealth from by decide]
    simp [parse_line, expectNumber, expectEnd, Bind.bind, Except.bind]

theorem printed_setPosition (bnds : List Nat) (ln : Nat) (st : P1State)
    (x y : Nat) (hx : x ≤ 0xFF) (hy : y ≤ 0xFF) :
    trim_comment (instrLine bnds (Op.SetPosition x y)) = instrLine bnds (Op.SetPosition x y) ∧
    (instrLine bnds (Op.SetPosition x y)).all isWsChar = false ∧
    parse_line ln (tokenizeLine (instrLine bnds (Op.SetPosition x y))) st =
      .ok (st.addStmt ln (Op.SetPosition x y) none) := by
  obtain ⟨hcdx, hccx⟩ := decChars_fact' x hx
  obtain ⟨hdnex, hdallx⟩ := cleanChunk_mem _ hcdx
  obtain ⟨hcdy, hccy⟩ := decChars_fact' y hy
  obtain ⟨hdney, hdally⟩ := cleanChunk_mem _ hcdy
  have hmnc : cleanChunk "set_position".toList = true := by decide
  obtain ⟨hmne, hmnall⟩ := cleanChunk_mem _ hmnc
  have hline : instrLine bnds (Op.SetPosition x y) =
      indentChars ++ ("set_position".toList ++
        ' ' :: ((decChars x ++ [',']) ++ ' ' :: decChars y)) := by
    simp only [instrLine]
    rw [show "set_position ".toList = "set_position".toList ++ [' '] from by decide,
        show ", ".toList = [','] ++ [' '] from by decide]
    simp [List.append_assoc]
  refine ⟨?_, ?_, ?_⟩
  · rw [hline]
    apply trim_comment_eq_self
    intro c hc
    simp only [List.mem_append, List.mem_cons, List.mem_nil_iff, or_false] at hc
    rcases hc with h | h | h | (h | h) | h | h
    · have h' := List.eq_of_mem_replicate h; subst h'; decide
    · exact (hmnall c h).2.2
    · subst h; decide
    · exact (hdallx c h).2.2
    · subst h; decide
    · subst h; decide
    · exact (hdally c h).2.2
  · rw [hline]
    apply not_all_ws _ 's'
    · refine List.mem_append.mpr (Or.inr ?_)
      refine List.mem_append.mpr (Or.inl ?_)
      decide
    · decide
  · have hxcw : ∀ c ∈ decChars x ++ [','], isWsChar c = false := by
      intro c hc
      rcases List.mem_append.mp hc with h | h
      · exact (hdallx c h).1
      · simp only [List.mem_singleton] at h; subst h; decide
    have hxcne : decChars x ++ [','] ≠ [] := by simp
    rw [hline, tokenizeLine_indent]
    rw [tokenizeLine_cons_word _ _ (fun c hc => (hmnall c hc).1) hmne]
    rw [splitCommas_noComma _ (fun c hc => (hmnall c hc).2.1) hmne]
    rw [tokenizeLine_cons_word _ _ hxcw hxcne]
    rw [splitCommas_comma_end _ (fun c hc => (hdallx c hc).2.1) hdnex]
    rw [tokenizeLine_word _ hdney (fun c hc => ⟨(hdally c hc).1, (hdally c hc).2.1⟩)]
    rw [hccy]
    simp only [List.map_cons, List.map_nil, List.cons_append, List.nil_append]
    rw [hccx,
        show classifyChunk "set_position".toList = Tok.mnemonicSetPosition from by decide,
        show classifyChunk [','] = Tok.comma from by decide]
    simp [parse_line, expectNumber, expectComma, expectEnd, Bind.bind, Except.bind]

theorem printed_setInversion_aux (ln : Nat) (st : P1State)
    (nx ny : Nat) (hx : nx ≤ 1) (hy : ny ≤ 1) :
    trim_comment (indentChars ++ ("set_inversion".toList ++
        ' ' :: ((decChars nx ++ [',']) ++ ' ' :: decChars ny))) =
      indentChars ++ ("set_inversion".toList ++
        ' ' :: ((decChars nx ++ [',']) ++ ' ' :: decChars ny)) ∧
    (indentChars ++ ("set_inversion".toList ++
        ' ' :: ((decChars nx ++ [',']) ++ ' ' :: decChars ny))).all isWsChar = false ∧
    parse_line ln (tokenizeLine (indentChars ++ ("set_inversion".toList ++
        ' ' :: ((decChars nx ++ [',']) ++ ' ' :: decChars ny)))) st =
      .ok (st.addStmt ln (Op.SetInversion (decide (nx ≠ 0)) (decide (ny ≠ 0))) none) := by
  obtain ⟨hcdx, hccx⟩ := decChars_fact' nx (le_trans hx (by norm_num))
  obtain ⟨hdnex, hdallx⟩ := cleanChunk_mem _ hcdx
  obtain ⟨hcdy, hccy⟩ := decChars_fact' ny (le_trans hy (by norm_num))
  obtain ⟨hdney, hdally⟩ := cleanChunk_mem _ hcdy
  have hmnc : cleanChunk "set_inversion".toList = true := by decide
  obtain ⟨hmne, hmnall⟩ := cleanChunk_mem _ hmnc
  refine ⟨?_, ?_, ?_⟩
  · apply trim_comment_eq_self
    intro c hc
    simp only [List.mem_append, List.mem_cons, List.mem_nil_iff, or_false] at hc
    rcases hc with h | h | h | (h | h) | h | h
    · have h' := List.eq_of_mem_replicate h; subst h'; decide
    · exact (hmnall c h).2.2
    · subst h; decide
    · exact (hdallx c h).2.2
    · subst h; decide
    · subst h; decide
    · exact (hdally c h).2.2
  · apply not_all_ws _ 's'
    · refine List.mem_append.mpr (Or.inr ?_)
      refine List.mem_append.mpr (Or.inl ?_)
      decide
    · decide
  · have hxcw : ∀ c ∈ decChars nx ++ [','], isWsChar c = false := by
      intro c hc
      rcases List.mem_append.mp hc with h | h
      · exact (hdallx c h).1
      · simp only [List.mem_singleton] at h; subst h; decide
    have hxcne : decChars nx ++ [','] ≠ [] := by simp
    rw [tokenizeLine_indent]
    rw [tokenizeLine_cons_word _ _ (fun c hc => (hmnall c hc).1) hmne]
    rw [splitCommas_noComma _ (fun c hc => (hmnall c hc).2.1) hmne]
    rw [tokenizeLine_cons_word _ _ hxcw hxcne]
    rw [splitCommas_comma_end _ (fun c hc => (hdallx c hc).2.1) hdnex]
    rw [tokenizeLine_word _ hdney (fun c hc => ⟨(hdally c hc).1, (hdally c hc).2.1⟩)]
    rw [hccy]
    simp only [List.map_cons, List.map_nil, List.cons_append, List.nil_append]
    rw [hccx,
        show classifyChunk "set_inversion".toList = Tok.mnemonicSetInversion from by decide,
        show classifyChunk [','] = Tok.comma from by decide]
    simp [parse_line, expectBool, expectNumber, expectComma, expectEnd,
          Bind.bind, Except.bind, hx, hy]

theorem printed_setInversion (bnds : List Nat) (ln : Nat) (st : P1State)
    (ix iy : Bool) :
    trim_comment (instrLine bnds (Op.SetInversion ix iy)) = instrLine bnds (Op.SetInversion ix iy) ∧
    (instrLine bnds (Op.SetInversion ix iy)).all isWsChar = false ∧
    parse_line ln (tokenizeLine (instrLine bnds (Op.SetInversion ix iy))) st =
      .ok (st.addStmt ln (Op.SetInversion ix iy) none) := by
  have hline : instrLine bnds (Op.SetInversion ix iy) =
      indentChars ++ ("set_inversion".toList ++
        ' ' :: ((decChars (if ix then 1 else 0) ++ [',']) ++
          ' ' :: decChars (if iy then 1 else 0))) := by
    simp only [instrLine]
    rw [show "set_inversion ".toList = "set_inversion".toList ++ [' '] from by decide,
        show ", ".toList = [','] ++ [' '] from by decide]
    simp [List.append_assoc]
  obtain ⟨h1, h2, h3⟩ := printed_setInversion_aux ln st
    (if ix then 1 else 0) (if iy then 1 else 0)
    (by cases ix <;> norm_num) (by cases iy <;> norm_num)
  rw [show (decide ((if ix then 1 else 0 : Nat) ≠ 0)) = ix from by cases ix <;> decide,
      show (decide ((if iy then 1 else 0 : Nat) ≠ 0)) = iy from by cases iy <;> decide] at h3
  exact ⟨by rw [hline]; exact h1, by rw [hline]; exact h2, by rw [hline]; exact h3⟩

theorem printed_labelLine (d ln : Nat) (st : P1State)
    (hd : d ≤ 0xFF) (haddr : st.addr ≤ 0xFF) :
    trim_comment (labelChars d ++ [':']) = labelChars d ++ [':'] ∧
    (labelChars d ++ [':']).all isWsChar = false ∧
    parse_line ln (tokenizeLine (labelChars d ++ [':'])) st =
      .ok { st with labels := (labelChars d, st.addr) :: st.labels } := by
  obtain ⟨-, hcd, -, hcc⟩ := labelChars_fact' d hd
  obtain ⟨hdne, hdall⟩ := cleanChunk_mem _ hcd
  refine ⟨?_, ?_, ?_⟩
  · apply trim_comment_eq_self
    intro c hc
    exact (hdall c hc).2.2
  · apply not_all_ws _ 'L'
    · exact List.mem_append.mpr (Or.inl (by simp [labelChars]))
    · decide
  · rw [tokenizeLine_word _ hdne (fun c hc => ⟨(hdall c hc).1, (hdall c hc).2.1⟩)]
    rw [hcc]
    simp [parse_line, expectEnd, Bind.bind, Except.bind, haddr]

theorem printed_instr (bnds : List Nat) (ln : Nat) (st : P1State) (op : Op)
    (hwf : scanOpWf op) :
    trim_comment (instrLine bnds op) = instrLine bnds op ∧
    (instrLine bnds op).all isWsChar = false ∧
    parse_line ln (tokenizeLine (instrLine bnds op)) st =
      .ok (st.addStmt ln (parsedOp bnds op).1 (parsedOp bnds op).2) := by
  cases op with
  | Move v => simpa [parsedOp] using printed_move bnds ln st v hwf
  | Jump v => simpa [parsedOp] using printed_jump bnds ln st v hwf
  | SetSleepTimer v => simpa [parsedOp] using printed_setSleepTimer bnds ln st v hwf
  | LoopBegin v => simpa [parsedOp] using printed_loopBegin bnds ln st v hwf
  | LoopEnd => simpa [parsedOp] using printed_loopEnd bnds ln st
  | ShootDirection v => simpa [parsedOp] using printed_shootDirection bnds ln st v hwf
  | SetSprite v => simpa [parsedOp] using printed_setSprite bnds ln st v hwf
  | SetHomingTimer v => simpa [parsedOp] using printed_setHomingTimer bnds ln st v hwf
  | SetInversion ix iy => simpa [parsedOp] using printed_setInversion bnds ln st ix iy
  | SetPosition x y => simpa [parsedOp] using printed_setPosition bnds ln st x y hwf.1 hwf.2
  | SetJumpOnDamage v =>
    by_cases hmem : v ∈ bnds
    · simpa [parsedOp, hmem] using printed_sjod_in bnds ln st v hwf hmem
    · simpa [parsedOp, hmem] using printed_sjod_out bnds ln st v hwf hmem
  | SetHealth v => simpa [parsedOp] using printed_setHealth bnds ln st v hwf
  | UnsetJumpOnDamage => simpa [parsedOp] using printed_unsetJod bnds ln st
  | IncrementSprite => simpa [parsedOp] using printed_incSprite bnds ln st
  | DecrementSprite => simpa [parsedOp] using printed_decSprite bnds ln st
  | SetPart v => simpa [parsedOp] using printed_setPart bnds ln st v hwf
  | RandomizeX v => simpa [parsedOp] using printed_randomizeX bnds ln st v hwf
  | RandomizeY v => simpa [parsedOp] using printed_randomizeY bnds ln st v hwf
  | BccX v => simpa [parsedOp] using printed_bccX bnds ln st v hwf
  | BcsX v => simpa [parsedOp] using printed_bcsX bnds ln st v hwf
  | BccY v => simpa [parsedOp] using printed_bccY bnds ln st v hwf
  | BcsY v => simpa [parsedOp] using printed_bcsY bnds ln st v hwf
  | ShootAim v => simpa [parsedOp] using printed_shootAim bnds ln st v hwf
  | ChangeMusic v => simpa [parsedOp] using printed_changeMusic bnds ln st v hwf

theorem decode_encode_eats (b : Nat) (rest : List Nat) (op : Op)
    (hr : ∀ x ∈ rest, x ≤ 255)
    (h : Op.decode (b :: rest) = some (.ok op)) :
    scanOpWf op ∧ op.encode ++ (b :: rest).drop op.len = b :: rest := by
  unfold Op.decode at h
  replace h := Option.some.inj h
  by_cases c1 : b ≤ 0x3F
  · rw [if_pos c1] at h
    injection h with h
    subst h
    refine ⟨c1, ?_⟩
    simp [Op.encode, Op.len]
  rw [if_neg c1] at h
  by_cases c2 : b = 0x40
  · rw [if_pos c2] at h
    cases rest with
    | nil => exact Except.noConfusion h
    | cons a tail =>
      injection h with h
      subst h
      subst c2
      refine ⟨hr a (by simp), ?_⟩
      simp [Op.encode, Op.len]
  rw [if_neg c2] at h
  by_cases c3 : 0x41 ≤ b ∧ b ≤ 0x4F
  · rw [if_pos c3] at h
    injection h with h
    subst h
    obtain ⟨hlo, hhi⟩ := c3
    have hbb : 0x40 ||| (b &&& 0xF) = b := by interval_cases b <;> rfl
    refine ⟨Nat.and_le_right, ?_⟩
    simp [Op.encode, Op.len, hbb]
  rw [if_neg c3] at h
  by_cases c4 : b = 0x50 ∨ (0x52 ≤ b ∧ b ≤ 0x5F)
  · rw [if_pos c4] at h
    injection h with h
    subst h
    rcases c4 with hc | ⟨hlo, hhi⟩
    · subst hc
      have hb2 : (0x50 : Nat) ||| (0x50 &&& 0xF) = 0x50 := by decide
      refine ⟨⟨by decide, by decide⟩, ?_⟩
      simp [Op.encode, Op.len, hb2]
    · have hbb : 0x50 ||| (b &&& 0xF) = b := by interval_cases b <;> rfl
      have hne1 : b &&& 0xF ≠ 1 := by interval_cases b <;> decide
      refine ⟨⟨Nat.and_le_right, hne1⟩, ?_⟩
      simp [Op.encode, Op.len, hbb]
  rw [if_neg c4] at h
  by_cases c5 : b = 0x51
  · rw [if_pos c5] at h
    injection h with h
    subst h
    subst c5
    exact ⟨trivial, by simp [Op.encode, Op.len]⟩
  rw [if_neg c5] at h
  by_cases c6 : 0x60 ≤ b ∧ b ≤ 0x6F
  · rw [if_pos c6] at h
    injection h with h
    subst h
    obtain ⟨hlo, hhi⟩ := c6
    have hbb : 0x60 ||| (b &&& 0xF) = b := by interval_cases b <;> rfl
    refine ⟨Nat.and_le_right, ?_⟩
    simp [Op.encode, Op.len, hbb]
  rw [if_neg c6] at h
  by_cases c7 : 0x70 ≤ b ∧ b ≤ 0x7F
  · rw [if_pos c7] at h
    injection h with h
    subst h
    obtain ⟨hlo, hhi⟩ := c7
    have hbb : 0x70 ||| (b &&& 0xF) = b := by interval_cases b <;> rfl
    refine ⟨Nat.and_le_right, ?_⟩
    simp [Op.encode, Op.len, hbb]
  rw [if_neg c7] at h
  by_cases c8 : 0x80 ≤ b ∧ b ≤ 0x8F
  · rw [if_pos c8] at h
    injection h with h
    subst h
    obtain ⟨hlo, hhi⟩ := c8
    have hbb : 0x80 ||| (b &&& 0xF) = b := by interval_cases b <;> rfl
    refine ⟨Nat.and_le_right, ?_⟩
    simp [Op.encode, Op.len, hbb]
  rw [if_neg c8] at h
  by_cases c9 : 0x90 ≤ b ∧ b ≤ 0x93
  · rw [if_pos c9] at h
    injection h with h
    subst h
    obtain ⟨hlo, hhi⟩ := c9
    refine ⟨trivial, ?_⟩
    interval_cases b <;> simp [Op.encode, Op.len] <;> decide
  rw [if_neg c9] at h
  by_cases c10 : b = 0xA0
  · rw [if_pos c10] at h
    cases rest with
    | nil => exact Except.noConfusion h
    | cons x tail =>
      cases tail with
      | nil => exact Except.noConfusion h
      | cons y tail2 =>
        injection h with h
        subst h
        subst c10
        refine ⟨⟨hr x (by simp), hr y (by simp)⟩, ?_⟩
        simp [Op.encode, Op.len]
  rw [if_neg c10] at h
  by_cases c11 : b = 0xA1
  · rw [if_pos c11] at h
    cases rest with
    | nil => exact Except.noConfusion h
    | cons a tail =>
      injection h with h
      subst h
      subst c11
      refine ⟨hr a (by simp), ?_⟩
      simp [Op.encode, Op.len]
  rw [if_neg c11] at h
  by_cases c12 : b = 0xA2
  · rw [if_pos c12] at h
    injection h with h
    subst h
    subst c12
    exact ⟨trivial, by simp [Op.encode, Op.len]⟩
  rw [if_neg c12] at h
  by_cases c13 : b = 0xA3
  · rw [if_pos c13] at h
    injection h with h
    subst h
    subst c13
    exact ⟨trivial, by simp [Op.encode, Op.len]⟩
  rw [if_neg c13] at h
  by_cases c14 : b = 0xA4
  · rw [if_pos c14] at h
    cases rest with
    | nil => exact Except.noConfusion h
    | cons a tail =>
      injection h with h
      subst h
      subst c14
      refine ⟨hr a (by simp), ?_⟩
      simp [Op.encode, Op.len]
  rw [if_neg c14] at h
  by_cases c15 : b = 0xA5
  · rw [if_pos c15] at h
    cases rest with
    | nil => exact Except.noConfusion h
    | cons a tail =>
      injection h with h
      subst h
      subst c15
      refine ⟨hr a (by simp), ?_⟩
      simp [Op.encode, Op.len]
  rw [if_neg c15] at h
  by_cases c16 : b = 0xA6
  · rw [if_pos c16] at h
    cases rest with
    | nil => exact Except.noConfusion h
    | cons a tail =>
      injection h with h
      subst h
      subst c16
      refine ⟨hr a (by simp), ?_⟩
      simp [Op.encode, Op.len]
  rw [if_neg c16] at h
  by_cases c17 : b = 0xB0
  · rw [if_pos c17] at h
    cases rest with
    | nil => exact Except.noConfusion h
    | cons a tail =>
      injection h with h
      subst h
      subst c17
      refine ⟨hr a (by simp), ?_⟩
      simp [Op.encode, Op.len]
  rw [if_neg c17] at h
  by_cases c18 : b = 0xB1
  · rw [if_pos c18] at h
    cases rest with
    | nil => exact Except.noConfusion h
    | cons a tail =>
      injection h with h
      subst h
      subst c18
      refine ⟨hr a (by simp), ?_⟩
      simp [Op.encode, Op.len]
  rw [if_neg c18] at h
  by_cases c19 : b = 0xB2
  · rw [if_pos c19] at h
    cases rest with
    | nil => exact Except.noConfusion h
    | cons a tail =>
      injection h with h
      subst h
      subst c19
      refine ⟨hr a (by simp), ?_⟩
      simp [Op.encode, Op.len]
  rw [if_neg c19] at h
  by_cases c20 : b = 0xB3
  · rw [if_pos c20] at h
    cases rest with
    | nil => exact Except.noConfusion h
    | cons a tail =>
      injection h with h
      subst h
      subst c20
      refine ⟨hr a (by simp), ?_⟩
      simp [Op.encode, Op.len]
  rw [if_neg c20] at h
  by_cases c21 : 0xC0 ≤ b ∧ b ≤ 0xCF
  · rw [if_pos c21] at h
    injection h with h
    subst h
    obtain ⟨hlo, hhi⟩ := c21
    have hbb : 0xC0 ||| (b &&& 0xF) = b := by interval_cases b <;> rfl
    refine ⟨Nat.and_le_right, ?_⟩
    simp [Op.encode, Op.len, hbb]
  rw [if_neg c21] at h
  by_cases c22 : 0xF0 ≤ b ∧ b ≤ 0xFF
  · rw [if_pos c22] at h
    injection h with h
    subst h
    obtain ⟨hlo, hhi⟩ := c22
    have hbb : 0xF0 ||| (b &&& 0xF) = b := by interval_cases b <;> rfl
    refine ⟨Nat.and_le_right, ?_⟩
    simp [Op.encode, Op.len, hbb]
  rw [if_neg c22] at h
  exact Except.noConfusion h


theorem Op.encode_length (op : Op) : op.encode.length = op.len := by
  cases op <;> simp [Op.encode, Op.len]

theorem disasmScan_spec (buf : List Nat) (hbytes : ∀ x ∈ buf, x ≤ 255) :
    ∀ (k a : Nat) (stmts : List (Nat × Op)), buf.length - a ≤ k →
      disasmScan buf a = .ok stmts →
      scanChain buf.length a stmts ∧
      (stmts.map (fun p => p.2.encode)).flatten = buf.drop a ∧
      ∀ p ∈ stmts, scanOpWf p.2 := by
  intro k
  induction k with
  | zero =>
    intro a stmts hk h
    rw [disasmScan, dif_neg (by omega)] at h
    injection h with h
    subst h
    refine ⟨by simp [scanChain]; omega, ?_, by simp⟩
    simp [List.drop_eq_nil_of_le (by omega : buf.length ≤ a)]
  | succ k ih =>
    intro a stmts hk h
    by_cases ha : a < buf.length
    · rw [disasmScan, dif_pos ha] at h
      rcases hdrop : buf.drop a with _ | ⟨b, rest⟩
      · have := List.drop_eq_nil_iff.mp hdrop
        omega
      · rw [hdrop] at h
        have hbr : ∀ x ∈ b :: rest, x ≤ 255 := by
          intro x hx
          exact hbytes x (List.mem_of_mem_drop (hdrop ▸ hx))
        rcases hdec : Op.decode (b :: rest) with _ | e | op
        · rw [hdec] at h; exact Except.noConfusion h
        · rw [hdec] at h; exact Except.noConfusion h
        · simp only [hdec] at h
          obtain ⟨hwf, henc⟩ :=
            decode_encode_eats b rest op (fun x hx => hbr x (List.mem_cons_of_mem _ hx)) hdec
          have hlen : op.len ≤ (b :: rest).length := by
            have hl := congrArg List.length henc
            simp only [List.length_append, List.length_drop, Op.encode_length] at hl
            omega
          have hlenbuf : (b :: rest).length = buf.length - a := by
            rw [← hdrop]; simp only [List.length_drop]
          have hstep : a + op.len ≤ buf.length := by omega
          have hpos : 1 ≤ op.len := op.lenPos
          have hdropstep : buf.drop (a + op.len) = (buf.drop a).drop op.len := by
            rw [List.drop_drop, Nat.add_comm]
          have hencd : op.encode ++ (buf.drop a).drop op.len = buf.drop a := by
            rw [hdrop]; exact henc
          rcases hdst : op.addr_destination with _ | dst
          · simp only [hdst] at h
            rcases hrec : disasmScan buf (a + op.len) with err | tl
            · rw [hrec] at h; exact Except.noConfusion h
            · rw [hrec] at h
              injection h with h
              subst h
              obtain ⟨hch, hfl, hwfall⟩ := ih (a + op.len) tl (by omega) hrec
              refine ⟨⟨rfl, ha, hstep, hch⟩, ?_, ?_⟩
              · simp only [List.map_cons, List.flatten_cons]
                rw [hfl, hdropstep, hencd]
                exact hdrop
              · intro p hp
                rcases List.mem_cons.mp hp with hp | hp
                · subst hp; exact hwf
                · exact hwfall p hp
          · simp only [hdst] at h
            by_cases hdlt : dst < buf.length
            · rw [if_pos hdlt] at h
              rcases hrec : disasmScan buf (a + op.len) with err | tl
              · rw [hrec] at h; exact Except.noConfusion h
              · rw [hrec] at h
                injection h with h
                subst h
                obtain ⟨hch, hfl, hwfall⟩ := ih (a + op.len) tl (by omega) hrec
                refine ⟨⟨rfl, ha, hstep, hch⟩, ?_, ?_⟩
                · simp only [List.map_cons, List.flatten_cons]
                  rw [hfl, hdropstep, hencd]
                  exact hdrop
                · intro p hp
                  rcases List.mem_cons.mp hp with hp | hp
                  · subst hp; exact hwf
                  · exact hwfall p hp
            · rw [if_neg hdlt] at h
              cases op with
              | SetJumpOnDamage a' =>
                have ha' : a' = dst := by
                  simp [Op.addr_destination] at hdst; exact hdst
                subst ha'
                rcases hrec : disasmScan buf (a + (Op.SetHealth a').len) with err | tl
                · rw [hrec] at h; exact Except.noConfusion h
                · rw [hrec] at h
                  injection h with h
                  subst h
                  have hstep2 : a + (Op.SetHealth a').len ≤ buf.length := hstep
                  obtain ⟨hch, hfl, hwfall⟩ :=
                    ih (a + (Op.SetHealth a').len) tl (by simp [Op.len] at hstep2 ⊢; omega) hrec
                  have ha255 : a' ≤ 255 := hbr a' (by
                    rw [← henc]; simp [Op.encode])
                  refine ⟨⟨rfl, ha, hstep2, hch⟩, ?_, ?_⟩
                  · simp only [List.map_cons, List.flatten_cons]
                    rw [hfl]
                    rw [show buf.drop (a + (Op.SetHealth a').len) =
                          (buf.drop a).drop (Op.SetJumpOnDamage a').len from by
                        rw [List.drop_drop]; simp [Op.len, Nat.add_comm]]
                    rw [show (Op.SetHealth a').encode = (Op.SetJumpOnDamage a').encode from rfl]
                    rw [hencd]
                    exact hdrop
                  · intro p hp
                    rcases List.mem_cons.mp hp with hp | hp
                    · subst hp; exact ha255
                    · exact hwfall p hp
              | Jump a' => exact Except.noConfusion h
              | BccX a' => exact Except.noConfusion h
              | BcsX a' => exact Except.noConfusion h
              | BccY a' => exact Except.noConfusion h
              | BcsY a' => exact Except.noConfusion h
              | Move v => simp [Op.addr_destination] at hdst
              | SetSleepTimer v => simp [Op.addr_destination] at hdst
              | LoopBegin v => simp [Op.addr_destination] at hdst
              | LoopEnd => simp [Op.addr_destination] at hdst
              | ShootDirection v => simp [Op.addr_destination] at hdst
              | SetSprite v => simp [Op.addr_destination] at hdst
              | SetHomingTimer v => simp [Op.addr_destination] at hdst
              | SetInversion ix iy => simp [Op.addr_destination] at hdst
              | SetPosition x y => simp [Op.addr_destination] at hdst
              | SetHealth v => simp [Op.addr_destination] at hdst
              | UnsetJumpOnDamage => simp [Op.addr_destination] at hdst
              | IncrementSprite => simp [Op.addr_destination] at hdst
              | DecrementSprite => simp [Op.addr_destination] at hdst
              | SetPart v => simp [Op.addr_destination] at hdst
              | RandomizeX v => simp [Op.addr_destination] at hdst
              | RandomizeY v => simp [Op.addr_destination] at hdst
              | ShootAim v => simp [Op.addr_destination] at hdst
              | ChangeMusic v => simp [Op.addr_destination] at hdst
    · rw [disasmScan, dif_neg ha] at h
      injection h with h
      subst h
      refine ⟨by simp [scanChain]; omega, ?_, by simp⟩
      simp [List.drop_eq_nil_of_le (by omega : buf.length ≤ a)]

theorem parsedOp_len (bnds : List Nat) (op : Op) :
    (parsedOp bnds op).1.len = op.len := by
  cases op with
  | SetJumpOnDamage d =>
    by_cases h : d ∈ bnds <;> simp [parsedOp, h, Op.len]
  | SetHealth h => simp [parsedOp, Op.len]
  | _ => simp [parsedOp, Op.len]

theorem addStmt_addr (st : P1State) (ln : Nat) (op : Op) (lab : Option (List Char)) :
    (st.addStmt ln op lab).addr = st.addr + op.len := rfl

theorem addStmt_stmts (st : P1State) (ln : Nat) (op : Op) (lab : Option (List Char)) :
    (st.addStmt ln op lab).stmts = st.stmts ++ [⟨ln, st.addr, op, lab⟩] := rfl

theorem addStmt_labels (st : P1State) (ln : Nat) (op : Op) (lab : Option (List Char)) :
    (st.addStmt ln op lab).labels = st.labels := rfl

theorem asmPass1_printed (tgts bnds : List Nat) (L : Nat) (hL : L ≤ 256)
    (stmts : List (Nat × Op)) :
    ∀ (ln : Nat) (st : P1State), scanChain L st.addr stmts →
      (∀ p ∈ stmts, scanOpWf p.2) →
      asmPass1 ln ((stmts.map (stmtLines tgts bnds)).flatten) st =
        .ok { addr := st.addr + (stmts.map (fun p => p.2.len)).sum,
              stmts := st.stmts ++ parsedStmts tgts bnds ln stmts,
              labels := labelEntries tgts stmts ++ st.labels } := by
  induction stmts with
  | nil =>
    intro ln st hchain hwfall
    cases st
    simp [asmPass1, parsedStmts, labelEntries]
  | cons p rest ih =>
    intro ln st hchain hwfall
    obtain ⟨hp1, hlt, hle, hch'⟩ := hchain
    have hwfp : scanOpWf p.2 := hwfall p (by simp)
    have hwfr : ∀ q ∈ rest, scanOpWf q.2 := fun q hq => hwfall q (by simp [hq])
    by_cases hmem : p.1 ∈ tgts
    · have haddr255 : st.addr ≤ 255 := by omega
      obtain ⟨hl1, hl2, hl3⟩ := printed_labelLine p.1 ln st (by omega) haddr255
      obtain ⟨hi1, hi2, hi3⟩ := printed_instr bnds (ln + 1)
        { st with labels := (labelChars p.1, st.addr) :: st.labels } p.2 hwfp
      rw [show (((p :: rest).map (stmtLines tgts bnds)).flatten) =
            (labelChars p.1 ++ [':']) ::
              instrLine bnds p.2 :: ((rest.map (stmtLines tgts bnds)).flatten) from by
          simp [stmtLines, hmem]]
      rw [asmPass1]
      simp only [hl1, hl2, Bool.false_eq_true, if_false, hl3, Bind.bind, Except.bind]
      rw [if_neg (by simp; omega)]
      rw [asmPass1]
      simp only [hi1, hi2, Bool.false_eq_true, if_false, hi3, Bind.bind, Except.bind]
      rw [if_neg (by rw [addStmt_addr, parsedOp_len]; simp; omega)]
      refine (ih (ln + 1 + 1) _
        (by rw [addStmt_addr, parsedOp_len]; exact hch') hwfr).trans ?_
      rw [addStmt_addr, parsedOp_len, addStmt_stmts, addStmt_labels]
      have hmem' : st.addr ∈ tgts := hp1 ▸ hmem
      simp [parsedStmts, labelEntries, hp1, hmem', List.append_assoc, Nat.add_assoc]
    · obtain ⟨hi1, hi2, hi3⟩ := printed_instr bnds ln st p.2 hwfp
      rw [show (((p :: rest).map (stmtLines tgts bnds)).flatten) =
            instrLine bnds p.2 :: ((rest.map (stmtLines tgts bnds)).flatten) from by
          simp [stmtLines, hmem]]
      rw [asmPass1]
      simp only [hi1, hi2, Bool.false_eq_true, if_false, hi3, Bind.bind, Except.bind]
      rw [if_neg (by rw [addStmt_addr, parsedOp_len]; simp; omega)]
      refine (ih (ln + 1) _
        (by rw [addStmt_addr, parsedOp_len]; exact hch') hwfr).trans ?_
      rw [addStmt_addr, parsedOp_len, addStmt_stmts, addStmt_labels]
      have hmem' : st.addr ∉ tgts := by rw [← hp1]; exact hmem
      simp [parsedStmts, labelEntries, hp1, hmem', List.append_assoc, Nat.add_assoc]

theorem hexDigit_inj : ∀ a b : Fin 16, hexDigit a = hexDigit b → a = b := by decide

theorem labelChars_inj (a d : Nat) (ha : a ≤ 255) (hd : d ≤ 255)
    (h : labelChars a = labelChars d) : a = d := by
  unfold labelChars at h
  injection h with h1 h
  injection h with h2 h
  injection h with h3 h
  have e2 : a / 16 = d / 16 := by
    have hf := hexDigit_inj ⟨a / 16, by omega⟩ ⟨d / 16, by omega⟩ h2
    exact congrArg Fin.val hf
  have e3 : a % 16 = d % 16 := by
    have hf := hexDigit_inj ⟨a % 16, by omega⟩ ⟨d % 16, by omega⟩ h3
    exact congrArg Fin.val hf
  omega

theorem labelEntries_mem (tgts : List Nat) (stmts : List (Nat × Op)) :
    ∀ e ∈ labelEntries tgts stmts,
      ∃ a, e = (labelChars a, a) ∧ a ∈ boundaries stmts := by
  induction stmts with
  | nil => intro e he; simp [labelEntries] at he
  | cons p rest ih =>
    intro e he
    simp only [labelEntries] at he
    rcases List.mem_append.mp he with h | h
    · obtain ⟨a, hea, hab⟩ := ih e h
      refine ⟨a, hea, ?_⟩
      simp only [boundaries, List.map_cons, List.mem_cons]
      right
      simpa [boundaries] using hab
    · by_cases hm : p.1 ∈ tgts
      · rw [if_pos hm] at h
        refine ⟨p.1, by simpa using h, ?_⟩
        simp [boundaries]
      · rw [if_neg hm] at h
        simp at h

theorem labelEntries_has (tgts : List Nat) (d : Nat) (htgt : d ∈ tgts) :
    ∀ stmts : List (Nat × Op), d ∈ boundaries stmts →
      (labelChars d, d) ∈ labelEntries tgts stmts := by
  intro stmts
  induction stmts with
  | nil => intro hmem; simp [boundaries] at hmem
  | cons p rest ih =>
    intro hmem
    simp only [boundaries, List.map_cons, List.mem_cons] at hmem
    simp only [labelEntries]
    rcases hmem with h | h
    · rw [← h, if_pos (h ▸ htgt)]
      simp
    · exact List.mem_append.mpr (Or.inl (ih (by simpa [boundaries] using h)))

theorem lookupLabel_labelEntries (tgts : List Nat) (stmts : List (Nat × Op)) (d : Nat)
    (hall : ∀ p ∈ stmts, p.1 ≤ 255) (hd : d ≤ 255)
    (htgt : d ∈ tgts) (hmem : d ∈ boundaries stmts) :
    lookupLabel (labelEntries tgts stmts) (labelChars d) = some d := by
  unfold lookupLabel
  rcases hfind : (labelEntries tgts stmts).find? (fun p => p.1 = labelChars d) with _ | e
  · have hx := labelEntries_has tgts d htgt stmts hmem
    have hno := List.find?_eq_none.mp hfind _ hx
    simp at hno
  · have hpe := List.find?_some hfind
    have hme := List.mem_of_find?_eq_some hfind
    obtain ⟨a, hea, hab⟩ := labelEntries_mem tgts stmts e hme
    subst hea
    simp only [decide_eq_true_eq] at hpe
    have ha255 : a ≤ 255 := by
      simp only [boundaries, List.mem_map] at hab
      obtain ⟨q, hq, hqa⟩ := hab
      exact hqa ▸ hall q hq
    have had : a = d := labelChars_inj a d ha255 hd hpe
    subst had
    rw [hfind]
    rfl

theorem resolve_printed (tgts bnds : List Nat) (labels : List (List Char × Nat)) :
    ∀ (stmts : List (Nat × Op)) (ln : Nat),
      (∀ p ∈ stmts, ∀ dd, p.2.addr_destination = some dd →
        (parsedOp bnds p.2).2.isSome = true →
        lookupLabel labels (labelChars dd) = some dd) →
      (∀ p ∈ stmts, ∀ dd, p.2 = Op.SetJumpOnDamage dd → dd ∈ bnds → dd ≠ 0) →
      ∃ out, resolve_labels (parsedStmts tgts bnds ln stmts) labels = .ok out ∧
        out.map (fun st => st.op.encode) = stmts.map (fun p => p.2.encode) := by
  intro stmts
  induction stmts with
  | nil =>
    intro ln h1 h2
    exact ⟨[], by simp [parsedStmts, resolve_labels], by simp⟩
  | cons p rest ih =>
    obtain ⟨a, op⟩ := p
    intro ln h1 h2
    have h1' : ∀ q ∈ rest, ∀ dd, q.2.addr_destination = some dd →
        (parsedOp bnds q.2).2.isSome = true →
        lookupLabel labels (labelChars dd) = some dd :=
      fun q hq dd hdd hs => h1 q (List.mem_cons_of_mem _ hq) dd hdd hs
    have h2' : ∀ q ∈ rest, ∀ dd, q.2 = Op.SetJumpOnDamage dd → dd ∈ bnds → dd ≠ 0 :=
      fun q hq dd hdd hb => h2 q (List.mem_cons_of_mem _ hq) dd hdd hb
    cases op with
    | Move v =>
      obtain ⟨out, hre, henc⟩ := ih (ln + (if a ∈ tgts then 1 else 0) + 1) h1' h2'
      refine ⟨⟨ln + (if a ∈ tgts then 1 else 0), a, Op.Move v, none⟩ :: out, ?_, ?_⟩
      · simp [parsedStmts, parsedOp, resolve_labels, Except.map, hre]
      · simp only [List.map_cons]
        rw [henc]
    | SetSleepTimer v =>
      obtain ⟨out, hre, henc⟩ := ih (ln + (if a ∈ tgts then 1 else 0) + 1) h1' h2'
      refine ⟨⟨ln + (if a ∈ tgts then 1 else 0), a, Op.SetSleepTimer v, none⟩ :: out, ?_, ?_⟩
      · simp [parsedStmts, parsedOp, resolve_labels, Except.map, hre]
      · simp only [List.map_cons]
        rw [henc]
    | LoopBegin v =>
      obtain ⟨out, hre, henc⟩ := ih (ln + (if a ∈ tgts then 1 else 0) + 1) h1' h2'
      refine ⟨⟨ln + (if a ∈ tgts then 1 else 0), a, Op.LoopBegin v, none⟩ :: out, ?_, ?_⟩
      · simp [parsedStmts, parsedOp, resolve_labels, Except.map, hre]
      · simp only [List.map_cons]
        rw [henc]
    | LoopEnd =>
      obtain ⟨out, hre, henc⟩ := ih (ln + (if a ∈ tgts then 1 else 0) + 1) h1' h2'
      refine ⟨⟨ln + (if a ∈ tgts then 1 else 0), a, Op.LoopEnd, none⟩ :: out, ?_, ?_⟩
      · simp [parsedStmts, parsedOp, resolve_labels, Except.map, hre]
      · simp only [List.map_cons]
        rw [henc]
    | ShootDirection v =>
      obtain ⟨out, hre, henc⟩ := ih (ln + (if a ∈ tgts then 1 else 0) + 1) h1' h2'
      refine ⟨⟨ln + (if a ∈ tgts then 1 else 0), a, Op.ShootDirection v, none⟩ :: out, ?_, ?_⟩
      · simp [parsedStmts, parsedOp, resolve_labels, Except.map, hre]
      · simp only [List.map_cons]
        rw [henc]
    | SetSprite v =>
      obtain ⟨out, hre, henc⟩ := ih (ln + (if a ∈ tgts then 1 else 0) + 1) h1' h2'
      refine ⟨⟨ln + (if a ∈ tgts then 1 else 0), a, Op.SetSprite v, none⟩ :: out, ?_, ?_⟩
      · simp [parsedStmts, parsedOp, resolve_labels, Except.map, hre]
      · simp only [List.map_cons]
        rw [henc]
    | SetHomingTimer v =>
      obtain ⟨out, hre, henc⟩ := ih (ln + (if a ∈ tgts then 1 else 0) + 1) h1' h2'
      refine ⟨⟨ln + (if a ∈ tgts then 1 else 0), a, Op.SetHomingTimer v, none⟩ :: out, ?_, ?_⟩
      · simp [parsedStmts, parsedOp, resolve_labels, Except.map, hre]
      · simp only [List.map_cons]
        rw [henc]
    | SetInversion ix iy =>
      obtain ⟨out, hre, henc⟩ := ih (ln + (if a ∈ tgts then 1 else 0) + 1) h1' h2'
      refine ⟨⟨ln + (if a ∈ tgts then 1 else 0), a, Op.SetInversion ix iy, none⟩ :: out, ?_, ?_⟩
      · simp [parsedStmts, parsedOp, resolve_labels, Except.map, hre]
      · simp only [List.map_cons]
        rw [henc]
    | SetPosition x y =>
      obtain ⟨out, hre, henc⟩ := ih (ln + (if a ∈ tgts then 1 else 0) + 1) h1' h2'
      refine ⟨⟨ln + (if a ∈ tgts then 1 else 0), a, Op.SetPosition x y, none⟩ :: out, ?_, ?_⟩
      · simp [parsedStmts, parsedOp, resolve_labels, Except.map, hre]
      · simp only [List.map_cons]
        rw [henc]
    | UnsetJumpOnDamage =>
      obtain ⟨out, hre, henc⟩ := ih (ln + (if a ∈ tgts then 1 else 0) + 1) h1' h2'
      refine ⟨⟨ln + (if a ∈ tgts then 1 else 0), a, Op.UnsetJumpOnDamage, none⟩ :: out, ?_, ?_⟩
      · simp [parsedStmts, parsedOp, resolve_labels, Except.map, hre]
      · simp only [List.map_cons]
        rw [henc]
    | IncrementSprite =>
      obtain ⟨out, hre, henc⟩ := ih (ln + (if a ∈ tgts then 1 else 0) + 1) h1' h2'
      refine ⟨⟨ln + (if a ∈ tgts then 1 else 0), a, Op.IncrementSprite, none⟩ :: out, ?_, ?_⟩
      · simp [parsedStmts, parsedOp, resolve_labels, Except.map, hre]
      · simp only [List.map_cons]
        rw [henc]
    | DecrementSprite =>
      obtain ⟨out, hre, henc⟩ := ih (ln + (if a ∈ tgts then 1 else 0) + 1) h1' h2'
      refine ⟨⟨ln + (if a ∈ tgts then 1 else 0), a, Op.DecrementSprite, none⟩ :: out, ?_, ?_⟩
      · simp [parsedStmts, parsedOp, resolve_labels, Except.map, hre]
      · simp only [List.map_cons]
        rw [henc]
    | SetPart v =>
      obtain ⟨out, hre, henc⟩ := ih (ln + (if a ∈ tgts then 1 else 0) + 1) h1' h2'
      refine ⟨⟨ln + (if a ∈ tgts then 1 else 0), a, Op.SetPart v, none⟩ :: out, ?_, ?_⟩
      · simp [parsedStmts, parsedOp, resolve_labels, Except.map, hre]
      · simp only [List.map_cons]
        rw [henc]
    | RandomizeX v =>
      obtain ⟨out, hre, henc⟩ := ih (ln + (if a ∈ tgts then 1 else 0) + 1) h1' h2'
      refine ⟨⟨ln + (if a ∈ tgts then 1 else 0), a, Op.RandomizeX v, none⟩ :: out, ?_, ?_⟩
      · simp [parsedStmts, parsedOp, resolve_labels, Except.map, hre]
      · simp only [List.map_cons]
        rw [henc]
    | RandomizeY v =>
      obtain ⟨out, hre, henc⟩ := ih (ln + (if a ∈ tgts then 1 else 0) + 1) h1' h2'
      refine ⟨⟨ln + (if a ∈ tgts then 1 else 0), a, Op.RandomizeY v, none⟩ :: out, ?_, ?_⟩
      · simp [parsedStmts, parsedOp, resolve_labels, Except.map, hre]
      · simp only [List.map_cons]
        rw [henc]
    | ShootAim v =>
      obtain ⟨out, hre, henc⟩ := ih (ln + (if a ∈ tgts then 1 else 0) + 1) h1' h2'
      refine ⟨⟨ln + (if a ∈ tgts then 1 else 0), a, Op.ShootAim v, none⟩ :: out, ?_, ?_⟩
      · simp [parsedStmts, parsedOp, resolve_labels, Except.map, hre]
      · simp only [List.map_cons]
        rw [henc]
    | ChangeMusic v =>
      obtain ⟨out, hre, henc⟩ := ih (ln + (if a ∈ tgts then 1 else 0) + 1) h1' h2'
      refine ⟨⟨ln + (if a ∈ tgts then 1 else 0), a, Op.ChangeMusic v, none⟩ :: out, ?_, ?_⟩
      · simp [parsedStmts, parsedOp, resolve_labels, Except.map, hre]
      · simp only [List.map_cons]
        rw [henc]
    | SetHealth v =>
      obtain ⟨out, hre, henc⟩ := ih (ln + (if a ∈ tgts then 1 else 0) + 1) h1' h2'
      refine ⟨⟨ln + (if a ∈ tgts then 1 else 0), a, Op.SetJumpOnDamage v, none⟩ :: out, ?_, ?_⟩
      · simp [parsedStmts, parsedOp, resolve_labels, Except.map, hre]
      · simp only [List.map_cons]
        rw [henc]
        rfl
    | Jump d =>
      have hlk := h1 (a, Op.Jump d) (List.mem_cons_self _ _) d
        (by simp [Op.addr_destination]) (by simp [parsedOp])
      obtain ⟨out, hre, henc⟩ := ih (ln + (if a ∈ tgts then 1 else 0) + 1) h1' h2'
      refine ⟨⟨ln + (if a ∈ tgts then 1 else 0), a, Op.Jump d, none⟩ :: out, ?_, ?_⟩
      · simp [parsedStmts, parsedOp, resolve_labels, Except.map, hlk, hre]
      · simp only [List.map_cons]
        rw [henc]
    | BccX d =>
      have hlk := h1 (a, Op.BccX d) (List.mem_cons_self _ _) d
        (by simp [Op.addr_destination]) (by simp [parsedOp])
      obtain ⟨out, hre, henc⟩ := ih (ln + (if a ∈ tgts then 1 else 0) + 1) h1' h2'
      refine ⟨⟨ln + (if a ∈ tgts then 1 else 0), a, Op.BccX d, none⟩ :: out, ?_, ?_⟩
      · simp [parsedStmts, parsedOp, resolve_labels, Except.map, hlk, hre]
      · simp only [List.map_cons]
        rw [henc]
    | BcsX d =>
      have hlk := h1 (a, Op.BcsX d) (List.mem_cons_self _ _) d
        (by simp [Op.addr_destination]) (by simp [parsedOp])
      obtain ⟨out, hre, henc⟩ := ih (ln + (if a ∈ tgts then 1 else 0) + 1) h1' h2'
      refine ⟨⟨ln + (if a ∈ tgts then 1 else 0), a, Op.BcsX d, none⟩ :: out, ?_, ?_⟩
      · simp [parsedStmts, parsedOp, resolve_labels, Except.map, hlk, hre]
      · simp only [List.map_cons]
        rw [henc]
    | BccY d =>
      have hlk := h1 (a, Op.BccY d) (List.mem_cons_self _ _) d
        (by simp [Op.addr_destination]) (by simp [parsedOp])
      obtain ⟨out, hre, henc⟩ := ih (ln + (if a ∈ tgts then 1 else 0) + 1) h1' h2'
      refine ⟨⟨ln + (if a ∈ tgts then 1 else 0), a, Op.BccY d, none⟩ :: out, ?_, ?_⟩
      · simp [parsedStmts, parsedOp, resolve_labels, Except.map, hlk, hre]
      · simp only [List.map_cons]
        rw [henc]
    | BcsY d =>
      have hlk := h1 (a, Op.BcsY d) (List.mem_cons_self _ _) d
        (by simp [Op.addr_destination]) (by simp [parsedOp])
      obtain ⟨out, hre, henc⟩ := ih (ln + (if a ∈ tgts then 1 else 0) + 1) h1' h2'
      refine ⟨⟨ln + (if a ∈ tgts then 1 else 0), a, Op.BcsY d, none⟩ :: out, ?_, ?_⟩
      · simp [parsedStmts, parsedOp, resolve_labels, Except.map, hlk, hre]
      · simp only [List.map_cons]
        rw [henc]
    | SetJumpOnDamage v =>
      by_cases hb : v ∈ bnds
      · have hlk := h1 (a, Op.SetJumpOnDamage v) (List.mem_cons_self _ _) v
          (by simp [Op.addr_destination]) (by simp [parsedOp, hb])
        have hz : v ≠ 0 := h2 (a, Op.SetJumpOnDamage v) (List.mem_cons_self _ _) v rfl hb
        obtain ⟨out, hre, henc⟩ := ih (ln + (if a ∈ tgts then 1 else 0) + 1) h1' h2'
        refine ⟨⟨ln + (if a ∈ tgts then 1 else 0), a, Op.SetJumpOnDamage v, none⟩ :: out, ?_, ?_⟩
        · simp [parsedStmts, parsedOp, hb, resolve_labels, Except.map, hlk, hz, hre]
        · simp only [List.map_cons]
          rw [henc]
      · obtain ⟨out, hre, henc⟩ := ih (ln + (if a ∈ tgts then 1 else 0) + 1) h1' h2'
        refine ⟨⟨ln + (if a ∈ tgts then 1 else 0), a, Op.SetJumpOnDamage v, none⟩ :: out, ?_, ?_⟩
        · simp [parsedStmts, parsedOp, hb, resolve_labels, Except.map, hre]
        · simp only [List.map_cons]
          rw [henc]

theorem scanChain_addr_lt (L : Nat) : ∀ (a : Nat) (stmts : List (Nat × Op)),
    scanChain L a stmts → ∀ p ∈ stmts, p.1 < L := by
  intro a stmts
  induction stmts generalizing a with
  | nil => intro _ p hp; simp at hp
  | cons q rest ih =>
    intro hch p hp
    obtain ⟨hq1, hlt, hle, hch'⟩ := hch
    rcases List.mem_cons.mp hp with h | h
    · subst h; rw [hq1]; exact hlt
    · exact ih _ hch' p h

/-- C1, corrected: for a byte sequence of length at most 256 whose linear
scan from address 0 succeeds, the assembly of the disassembly reproduces the
buffer exactly, provided additionally that every branch destination of a
`jump`/`bcc_x`/`bcs_x`/`bcc_y`/`bcs_y` statement is an instruction boundary
(being merely inside the address range, as the claim demands, is not enough:
the printed label reference then has no definition) and that a
`set_jump_on_damage` whose destination is a boundary does not target
address 0 (pass 2 rejects that with `SetJumpOnDamageZero`). -/
theorem c1_roundtrip (buf : List Nat) (stmts : List (Nat × Op))
    (hbytes : ∀ x ∈ buf, x ≤ 255) (hlen : buf.length ≤ 256)
    (hscan : disasmScan buf 0 = .ok stmts)
    (hb : ∀ p ∈ stmts, ∀ d, p.2.addr_destination = some d →
          (∀ a, p.2 ≠ Op.SetJumpOnDamage a) → d ∈ boundaries stmts)
    (hz : ∀ p ∈ stmts, ∀ d, p.2 = Op.SetJumpOnDamage d →
          d ∈ boundaries stmts → d ≠ 0) :
    ∃ lines, disasm buf = .ok lines ∧ asm lines = .ok buf := by
  obtain ⟨hch, hfl, hwf⟩ :=
    disasmScan_spec buf hbytes buf.length 0 stmts (by omega) hscan
  have haddrlt : ∀ p ∈ stmts, p.1 < buf.length := scanChain_addr_lt _ _ _ hch
  refine ⟨(stmts.map (stmtLines (labelTargets stmts) (boundaries stmts))).flatten, ?_, ?_⟩
  · simp [disasm, hscan, Except.map]
  · have hpass := asmPass1_printed (labelTargets stmts) (boundaries stmts)
      buf.length hlen stmts 1 ⟨0, [], []⟩ hch hwf
    have h1 : ∀ p ∈ stmts, ∀ dd, p.2.addr_destination = some dd →
        (parsedOp (boundaries stmts) p.2).2.isSome = true →
        lookupLabel (labelEntries (labelTargets stmts) stmts ++ [])
          (labelChars dd) = some dd := by
      intro p hp dd hdd hs
      rw [List.append_nil]
      have htgt : dd ∈ labelTargets stmts := by
        unfold labelTargets
        exact List.mem_filterMap.mpr ⟨p, hp, hdd⟩
      have hdd255 : dd ≤ 255 := by
        have hwfp := hwf p hp
        cases hop : p.2 <;> rw [hop] at hdd hwfp <;>
          simp [Op.addr_destination] at hdd <;> subst hdd <;>
          first
          | exact hwfp
          | exact hwfp.1
      have hmem : dd ∈ boundaries stmts := by
        cases hop : p.2 <;> rw [hop] at hdd hs <;>
          simp [Op.addr_destination] at hdd
        case Jump a =>
          subst hdd
          exact hb p hp a (by rw [hop]; simp [Op.addr_destination]) (by rw [hop]; simp)
        case SetJumpOnDamage a =>
          subst hdd
          by_cases hbm : a ∈ boundaries stmts
          · exact hbm
          · simp [parsedOp, hbm] at hs
        case BccX a =>
          subst hdd
          exact hb p hp a (by rw [hop]; simp [Op.addr_destination]) (by rw [hop]; simp)
        case BcsX a =>
          subst hdd
          exact hb p hp a (by rw [hop]; simp [Op.addr_destination]) (by rw [hop]; simp)
        case BccY a =>
          subst hdd
          exact hb p hp a (by rw [hop]; simp [Op.addr_destination]) (by rw [hop]; simp)
        case BcsY a =>
          subst hdd
          exact hb p hp a (by rw [hop]; simp [Op.addr_destination]) (by rw [hop]; simp)
      exact lookupLabel_labelEntries (labelTargets stmts) stmts dd
        (fun q hq => by have := haddrlt q hq; omega) hdd255 htgt hmem
    have h2 : ∀ p ∈ stmts, ∀ dd, p.2 = Op.SetJumpOnDamage dd →
        dd ∈ boundaries stmts → dd ≠ 0 := hz
    obtain ⟨out, hre, henc⟩ := resolve_printed (labelTargets stmts) (boundaries stmts)
      (labelEntries (labelTargets stmts) stmts ++ []) stmts 1 h1 h2
    unfold asm
    rw [hpass]
    simp only [Bind.bind, Except.bind, List.nil_append]
    rw [hre]
    show Except.ok (List.map (fun st => st.op.encode) out).flatten = Except.ok buf
    rw [henc]
    rw [show (stmts.map (fun p => p.2.encode)).flatten = buf from by
      rw [hfl]; simp]

theorem c1_scan_a1 : disasmScan [0xA1, 0x00] 0 = .ok [(0, Op.SetJumpOnDamage 0)] := by
  have h1 : Op.decode [0xA1, 0x00] = some (.ok (.SetJumpOnDamage 0)) := by decide
  rw [disasmScan, dif_pos (by decide)]
  rw [show List.drop 0 [0xA1, 0x00] = [0xA1, 0x00] from rfl, h1]
  simp only [Op.addr_destination]
  rw [if_pos (by decide)]
  rw [show (0 + (Op.SetJumpOnDamage 0).len) = 2 from rfl]
  rw [disasmScan, dif_neg (by decide)]
  rfl

theorem c1_scan_wit : disasmScan [0x40, 0x02, 0x51] 0 =
    .ok [(0, Op.Jump 2), (2, Op.LoopEnd)] := by
  have h1 : Op.decode [0x40, 0x02, 0x51] = some (.ok (.Jump 2)) := by decide
  have h2 : Op.decode [0x51] = some (.ok .LoopEnd) := by decide
  rw [disasmScan, dif_pos (by decide)]
  rw [show List.drop 0 [0x40, 0x02, 0x51] = [0x40, 0x02, 0x51] from rfl, h1]
  simp only [Op.addr_destination]
  rw [if_pos (by decide)]
  rw [show (0 + (Op.Jump 2).len) = 2 from rfl]
  rw [disasmScan, dif_pos (by decide)]
  rw [show List.drop 2 [0x40, 0x02, 0x51] = [0x51] from rfl, h2]
  simp only [Op.addr_destination]
  rw [show (2 + Op.LoopEnd.len) = 3 from rfl]
  rw [disasmScan, dif_neg (by decide)]
  rfl

/-- C1, counterexample to the claim as stated: the buffer `[0xA1, 0x00]`
scans without error, its only branch target 0 is an instruction boundary
inside the address range, yet reassembling its disassembly fails with
`SetJumpOnDamageZero` instead of reproducing the bytes. -/
theorem c1_counterexample :
    ∃ lines, disasm [0xA1, 0x00] = .ok lines ∧
      asm lines = .error (.setJumpOnDamageZero 2) := by
  refine ⟨(([(0, Op.SetJumpOnDamage 0)] : List (Nat × Op)).map
      (stmtLines [0] [0])).flatten, ?_, ?_⟩
  · rw [disasm, c1_scan_a1]
    rfl
  · have hchain : scanChain 2 (⟨0, [], []⟩ : P1State).addr
        [(0, Op.SetJumpOnDamage 0)] := by
      refine ⟨rfl, by norm_num, by simp [Op.len], ?_⟩
      simp [scanChain, Op.len]
    have hwf : ∀ p ∈ ([(0, Op.SetJumpOnDamage 0)] : List (Nat × Op)), scanOpWf p.2 := by
      intro p hp
      simp at hp
      subst hp
      simp [scanOpWf]
    have hpass := asmPass1_printed [0] [0] 2 (by norm_num)
      [(0, Op.SetJumpOnDamage 0)] 1 ⟨0, [], []⟩ hchain hwf
    unfold asm
    rw [hpass]
    simp only [Bind.bind, Except.bind]
    decide

/-- C1, witness: the corrected round-trip on the concrete program
`jump L02; loop_end`. -/
theorem c1_roundtrip_witness :
    ∃ lines, disasm [0x40, 0x02, 0x51] = .ok lines ∧
      asm lines = .ok [0x40, 0x02, 0x51] :=
  c1_roundtrip [0x40, 0x02, 0x51] [(0, Op.Jump 2), (2, Op.LoopEnd)]
    (by decide) (by decide) c1_scan_wit
    (by
      intro p hp d hd hnot
      fin_cases hp <;> simp [Op.addr_destination] at hd
      subst hd
      decide)
    (by
      intro p hp d hd hmem
      fin_cases hp <;> simp at hd)

/-- C9: assembling the printed `set_health h` line succeeds for every
operand up to 255 — including 0 — and emits exactly `[0xA1, h]`; and a
`SetJumpOnDamageZero` error from pass 2 can only originate from a statement
that carries a label reference and a `SetJumpOnDamage` op, which
`set_health` lines never produce (their statement has no label). -/
theorem c9_set_health (h : Nat) (hh : h ≤ 0xFF) :
    (∀ bnds : List Nat, asm [instrLine bnds (Op.SetHealth h)] = .ok [0xA1, h]) ∧
    (∀ (stmts : List AStmt) (labels : List (List Char × Nat)) (ln : Nat),
      resolve_labels stmts labels = .error (.setJumpOnDamageZero ln) →
      ∃ st ∈ stmts, (∃ a, st.op = Op.SetJumpOnDamage a) ∧
        ∃ name, st.label = some name ∧ lookupLabel labels name = some 0) := by
  constructor
  · intro bnds
    obtain ⟨i1, i2, i3⟩ := printed_setHealth bnds 1 ⟨0, [], []⟩ h hh
    unfold asm
    rw [asmPass1]
    simp only [i1, i2, Bool.false_eq_true, if_false, i3, Bind.bind, Except.bind]
    rw [if_neg (by rw [addStmt_addr]; simp [Op.len])]
    rw [asmPass1]
    simp only [Bind.bind, Except.bind]
    simp [P1State.addStmt, resolve_labels, Except.map, emit_code, Op.encode]
  · intro stmts
    induction stmts with
    | nil =>
      intro labels ln hres
      simp [resolve_labels] at hres
    | cons st rest ih =>
      intro labels ln hres
      rcases hlab : st.label with _ | name
      · simp only [resolve_labels, hlab] at hres
        rcases hr : resolve_labels rest labels with e | out
        · rw [hr] at hres
          simp only [Except.map] at hres
          injection hres with he
          subst he
          obtain ⟨st', hmem, hprop⟩ := ih labels ln hr
          exact ⟨st', List.mem_cons_of_mem _ hmem, hprop⟩
        · rw [hr] at hres
          simp [Except.map] at hres
      · simp only [resolve_labels, hlab] at hres
        rcases hlk : lookupLabel labels name with _ | addr
        · simp [hlk] at hres
        · simp only [hlk] at hres
          rcases hop : st.op with dir | ad | idx | idx | _ | dir | idx | idx | ⟨ix, iy⟩ | ⟨x, y⟩ | ad | hl | _ | _ | _ | part | mask | mask | ad | ad | ad | ad | unused | music
          case Jump =>
            simp only [hop] at hres
            rcases hr : resolve_labels rest labels with e | out
            · rw [hr] at hres
              simp only [Except.map] at hres
              injection hres with he
              subst he
              obtain ⟨st', hmem, hprop⟩ := ih labels ln hr
              exact ⟨st', List.mem_cons_of_mem _ hmem, hprop⟩
            · rw [hr] at hres
              simp [Except.map] at hres
          case SetJumpOnDamage =>
            simp only [hop] at hres
            by_cases haz : addr = 0
            · refine ⟨st, List.mem_cons_self _ _, ⟨ad, hop⟩, name, hlab, ?_⟩
              rw [hlk, haz]
            · rw [if_neg haz] at hres
              rcases hr : resolve_labels rest labels with e | out
              · rw [hr] at hres
                simp only [Except.map] at hres
                injection hres with he
                subst he
                obtain ⟨st', hmem, hprop⟩ := ih labels ln hr
                exact ⟨st', List.mem_cons_of_mem _ hmem, hprop⟩
              · rw [hr] at hres
                simp [Except.map] at hres
          case BccX =>
            simp only [hop] at hres
            rcases hr : resolve_labels rest labels with e | out
            · rw [hr] at hres
              simp only [Except.map] at hres
              injection hres with he
              subst he
              obtain ⟨st', hmem, hprop⟩ := ih labels ln hr
              exact ⟨st', List.mem_cons_of_mem _ hmem, hprop⟩
            · rw [hr] at hres
              simp [Except.map] at hres
          case BcsX =>
            simp only [hop] at hres
            rcases hr : resolve_labels rest labels with e | out
            · rw [hr] at hres
              simp only [Except.map] at hres
              injection hres with he
              subst he
              obtain ⟨st', hmem, hprop⟩ := ih labels ln hr
              exact ⟨st', List.mem_cons_of_mem _ hmem, hprop⟩
            · rw [hr] at hres
              simp [Except.map] at hres
          case BccY =>
            simp only [hop] at hres
            rcases hr : resolve_labels rest labels with e | out
            · rw [hr] at hres
              simp only [Except.map] at hres
              injection hres with he
              subst he
              obtain ⟨st', hmem, hprop⟩ := ih labels ln hr
              exact ⟨st', List.mem_cons_of_mem _ hmem, hprop⟩
            · rw [hr] at hres
              simp [Except.map] at hres
          case BcsY =>
            simp only [hop] at hres
            rcases hr : resolve_labels rest labels with e | out
            · rw [hr] at hres
              simp only [Except.map] at hres
              injection hres with he
              subst he
              obtain ⟨st', hmem, hprop⟩ := ih labels ln hr
              exact ⟨st', List.mem_cons_of_mem _ hmem, hprop⟩
            · rw [hr] at hres
              simp [Except.map] at hres
          all_goals simp [hop] at hres

/-- C9, witness: the `set_health 0` line assembles to `[0xA1, 0x00]`. -/
theorem c9_set_health_witness : asm [instrLine [] (Op.SetHealth 0)] = .ok [0xA1, 0] :=
  (c9_set_health 0 (by decide)).1 []

end StarSoldier
